import Mathlib

/-!
Verification development for the `authord-render-core` XML front end:
a shallow embedding in Lean 4 of the repository's DTD/XSD content-model
engine (`dtd_index.ts`, `dtd_validator.ts`, `xsd_index.ts`,
`xsd_validator.ts`) and of the pre-parse XML sanitizer (`xast_xml.ts`),
together with proofs about them.

Conventions used throughout the embedding:
* TypeScript `Map`s keyed by strings are modelled as association lists
  (`List (String × α)`) looked up with `alookup`; `Set<string>` becomes
  `List String` with membership, and `Set<number>` becomes `Finset Nat`
  (the source only ever uses these sets through membership/insertion).
* Thrown `Error`s are modelled with `Except String`.
* The memo table of the content-model matchers is a pure cache keyed by
  node identity and position and is dropped here: the embedded matcher
  computes the same position sets directly.
* Recursions that descend through the content-model AST carry an explicit
  `fuel : Nat` so that every definition is structural and therefore
  evaluable by the kernel.  Fuel is consumed only when descending into a
  sub-node, so any fuel at least the AST depth (e.g. `sizeOf` of the
  node) is enough and the embedded function agrees with the source,
  whose recursion is bounded by the same depth.
* Strings are processed as `List Char` where the source walks strings by
  index (all inputs of interest are scalar-value clean).
-/

/-- Association-list lookup, modelling `Map.get` from the source. -/
def alookup {α : Type} : List (String × α) → String → Option α
  | [], _ => none
  | (k, v) :: rest, key => if k = key then some v else alookup rest key

/-- The `for (let i = 0; i < min; i++)` loop shared by `match` in
`dtd_validator.ts` and `xsd_validator.ts`: apply one occurrence (`once`)
to every position in the set, `n` times; an empty set short-circuits to
the empty result. -/
def requiredSteps (once : Nat → Finset Nat) : Nat → Finset Nat → Finset Nat
  | 0, current => current
  | n + 1, current =>
    let next := current.biUnion once
    if next = ∅ then ∅ else requiredSteps once n next

/-- The optional-extra-occurrences loop shared by both `match` functions:
extend by up to `n` further occurrences, accumulating every reachable
end, stopping early when an iteration is empty or adds no new position
(`progressed`). -/
def extraSteps (once : Nat → Finset Nat) :
    Nat → Finset Nat → Finset Nat → Finset Nat
  | 0, _, results => results
  | n + 1, prev, results =>
    let next := prev.biUnion once
    let results2 := results ∪ next
    if next = ∅ ∨ next ⊆ prev then results2
    else extraSteps once n next results2

/-- The `SEQ`/`sequence` loop shared by both `matchOnce` functions:
compose item matches left to right over the position set, breaking early
once the set is empty.  `mf` is the full matcher applied to each item. -/
def seqItems {α : Type} (mf : α → Nat → Finset Nat) :
    List α → Finset Nat → Finset Nat
  | [], positions => positions
  | it :: rest, positions =>
    let next := positions.biUnion (mf it)
    if next = ∅ then next else seqItems mf rest next

/-- The `CHOICE`/`choice` union shared by both `matchOnce` functions:
union of the alternatives' matches. -/
def choiceItems {α : Type} (mf : α → Nat → Finset Nat) :
    List α → Nat → Finset Nat
  | [], _ => ∅
  | it :: rest, pos => mf it pos ∪ choiceItems mf rest pos

namespace Dtd

/-- Occurrence qualifier of a DTD content-model node (`"1" | "?" | "*" | "+"`
from `dtd_index.ts`). -/
inductive DtdOccurs where
  | one
  | opt
  | star
  | plus
deriving Repr, DecidableEq

/-- `DtdContentModel` from `dtd_index.ts`: NAME / PCDATA / SEQ / CHOICE,
each carrying an occurrence qualifier. -/
inductive DtdContentModel where
  | NAME (name : String) (occurs : DtdOccurs)
  | PCDATA (occurs : DtdOccurs)
  | SEQ (items : List DtdContentModel) (occurs : DtdOccurs)
  | CHOICE (items : List DtdContentModel) (occurs : DtdOccurs)
deriving Repr

/-- The occurrence qualifier carried by a node (`node.occurs`). -/
def DtdContentModel.occursOf : DtdContentModel → DtdOccurs
  | .NAME _ o => o
  | .PCDATA o => o
  | .SEQ _ o => o
  | .CHOICE _ o => o

mutual

/-- Size of a content-model AST; an upper bound on its depth, used as
fuel for the matcher. -/
def dtdSize : DtdContentModel → Nat
  | .NAME _ _ => 1
  | .PCDATA _ => 1
  | .SEQ items _ => 1 + dtdSizeList items
  | .CHOICE items _ => 1 + dtdSizeList items

/-- Total size of a list of content-model nodes. -/
def dtdSizeList : List DtdContentModel → Nat
  | [] => 0
  | m :: rest => dtdSize m + dtdSizeList rest

end

/-- `occursToRange` from `dtd_validator.ts`: `none` as max means `"unbounded"`. -/
def occursToRange : DtdOccurs → Nat × Option Nat
  | .opt => (0, some 1)
  | .star => (0, none)
  | .plus => (1, none)
  | .one => (1, some 1)

/-- The occurs-handling shell of `match` (`dtd_validator.ts`): `min`
required repetitions of `once`, then up to `max - min` optional extra
ones (`unbounded` capped by the remaining input length). -/
def applyOccursLoops (once : Nat → Finset Nat) (range : Nat × Option Nat)
    (childCount : Nat) (pos : Nat) : Finset Nat :=
  let current := requiredSteps once range.1 {pos}
  let maxExtra :=
    match range.2 with
    | none => childCount - pos
    | some mx => mx - range.1
  extraSteps once maxExtra current current

/-- `matchOnce` from `dtd_validator.ts`: one occurrence of `node`, ignoring
its own occurrence qualifier.  Sub-items are matched with the full
`match` (= occurs loops over their own `matchOnce`), one fuel level down. -/
def matchOnceM (children : List String) :
    Nat → DtdContentModel → Nat → Finset Nat
  | 0, _, _ => ∅
  | fuel + 1, node, pos =>
    match node with
    | .NAME name _ =>
      if h : pos < children.length then
        if children.get ⟨pos, h⟩ = name then {pos + 1} else ∅
      else ∅
    | .PCDATA _ => {pos}
    | .SEQ items _ =>
      seqItems
        (fun it p =>
          applyOccursLoops (fun q => matchOnceM children fuel it q)
            (occursToRange it.occursOf) children.length p)
        items {pos}
    | .CHOICE items _ =>
      choiceItems
        (fun it p =>
          applyOccursLoops (fun q => matchOnceM children fuel it q)
            (occursToRange it.occursOf) children.length p)
        items pos

/-- `match` from `dtd_validator.ts`: the set of end positions reachable by
consuming children from `pos` according to `node`, honouring `node.occurs`. -/
def matchM (children : List String) (fuel : Nat) (node : DtdContentModel)
    (pos : Nat) : Finset Nat :=
  applyOccursLoops (fun q => matchOnceM children fuel node q)
    (occursToRange node.occursOf) children.length pos

/-- `matchesDtdModel` from `dtd_validator.ts`: a child-name sequence matches
iff the full children length is among the end positions reachable from 0.
`dtdSize model` bounds the AST depth, so the fuel never runs out. -/
def matchesDtdModel (model : DtdContentModel) (children : List String) : Bool :=
  children.length ∈ matchM children (dtdSize model) model 0

end Dtd

namespace Xsd

/-- `Occurs` from `xsd_index.ts`: `{min, max}` with `max = none` standing
for the `"unbounded"` sentinel. -/
structure Occurs where
  min : Nat
  max : Option Nat
deriving Repr, DecidableEq

/-- `XsdParticle` from `xsd_index.ts`. -/
inductive XsdParticle where
  | empty (occurs : Occurs)
  | element (name : String) (occurs : Occurs)
  | sequence (items : List XsdParticle) (occurs : Occurs)
  | choice (items : List XsdParticle) (occurs : Occurs)
  | all (items : List XsdParticle) (occurs : Occurs)
  | groupRef (ref : String) (occurs : Occurs)
  | any (occurs : Occurs)
deriving Repr

/-- The occurrence range carried by a particle (`node.occurs`). -/
def XsdParticle.occursOf : XsdParticle → Occurs
  | .empty o => o
  | .element _ o => o
  | .sequence _ o => o
  | .choice _ o => o
  | .all _ o => o
  | .groupRef _ o => o
  | .any o => o

/-- `XsdAttrDef` from `xsd_index.ts`.  The source's `use` is a string cast
to `AttrUse` without runtime validation, so it is kept as a raw string
here; the validator compares it with `"required"`. -/
structure XsdAttrDef where
  use : String
  enum : Option (List String) := none
  fixed : Option String := none
deriving Repr, DecidableEq

/-- The `Set<string> | "ANY" | "EMPTY"` union used for derived
allowed-children sets. -/
inductive AllowedChildren where
  | ANY
  | EMPTY
  | names (ns : List String)
deriving Repr, DecidableEq

/-- `XsdElementDef` from `xsd_index.ts`. -/
structure XsdElementDef where
  name : String
  content : XsdParticle
  attributes : List (String × XsdAttrDef)
  mixed : Bool
  allowAnyAttribute : Bool
  allowedChildren : AllowedChildren
deriving Repr

/-- `XsdComplexTypeDef` from `xsd_index.ts`. -/
structure XsdComplexTypeDef where
  content : XsdParticle
  attributes : List (String × XsdAttrDef)
  mixed : Bool
  allowAnyAttribute : Bool
deriving Repr

/-- `XsdIndex` from `xsd_index.ts`. -/
structure XsdIndex where
  elements : List (String × XsdElementDef)
  complexTypes : List (String × XsdComplexTypeDef) := []
  groups : List (String × XsdParticle) := []
  attributeGroups : List (String × List (String × XsdAttrDef)) := []
  attributes : List (String × XsdAttrDef) := []
  substitutionGroups : List (String × List String) := []
  substitutionGroupFor : List (String × String) := []
deriving Repr

/-- `matchesElementName` from `xsd_validator.ts`: a child name satisfies an
expected element name iff it is equal to it or is a member of the
substitution group headed by it. -/
def matchesElementName (expected actual : String) (xsd : XsdIndex) : Bool :=
  if expected = actual then true
  else
    match alookup xsd.substitutionGroups expected with
    | some subs => subs.contains actual
    | none => false

/-- `allSatisfied` from `xsd_validator.ts`: does the multiset of names in
`prefix` satisfy every item of an `xs:all` group?  (`unbounded` max is
`Number.MAX_SAFE_INTEGER` in the source, never reached by real inputs,
so it is embedded as "no upper bound".) -/
def allSatisfied (items : List XsdParticle) (pre : List String) : Bool :=
  let isAnyItem : XsdParticle → Bool := fun it =>
    match it with | .any _ => true | _ => false
  let isElementItem : XsdParticle → Bool := fun it =>
    match it with | .element _ _ => true | _ => false
  let namedOk :=
    if items.any isAnyItem then true
    else
      items.all isElementItem &&
        pre.all (fun n =>
          items.any (fun it =>
            match it with | .element nm _ => nm = n | _ => false))
  namedOk &&
    items.all (fun it =>
      match it with
      | .element nm occ =>
        let c := pre.count nm
        decide (occ.min ≤ c) &&
          (match occ.max with | none => true | some mx => decide (c ≤ mx))
      | .any _ => true
      | _ => false)

/-- The occurs-handling shell of `match` (`xsd_validator.ts`): `min`
required occurrences, then optional ones while `i < maxCount`, where
`maxCount` is `children.length - pos` for `unbounded` and `max` itself
otherwise. -/
def applyOccursLoopsX (once : Nat → Finset Nat) (occ : Occurs)
    (childCount : Nat) (pos : Nat) : Finset Nat :=
  let current := requiredSteps once occ.min {pos}
  let maxCount :=
    match occ.max with
    | none => childCount - pos
    | some mx => mx
  extraSteps once (maxCount - occ.min) current current

/-- `matchOnce` from `xsd_validator.ts`: one occurrence of a particle,
ignoring its own occurs.  Fuel is consumed when descending into
sub-particles; in particular a `groupRef` chain longer than the fuel
yields `∅` where the source would recurse further (the source itself can
only terminate on the acyclic group graphs produced by its index
builder). -/
def matchOnceX (xsd : XsdIndex) (children : List String) :
    Nat → XsdParticle → Nat → Finset Nat
  | 0, _, _ => ∅
  | fuel + 1, node, pos =>
    match node with
    | .empty _ => {pos}
    | .element name _ =>
      if h : pos < children.length then
        if matchesElementName name (children.get ⟨pos, h⟩) xsd then {pos + 1}
        else ∅
      else ∅
    | .any _ => if pos < children.length then {pos + 1} else ∅
    | .groupRef ref _ =>
      match alookup xsd.groups ref with
      | none => ∅
      | some grp =>
        applyOccursLoopsX (fun q => matchOnceX xsd children fuel grp q)
          grp.occursOf children.length pos
    | .sequence items _ =>
      seqItems
        (fun it p =>
          applyOccursLoopsX (fun q => matchOnceX xsd children fuel it q)
            it.occursOf children.length p)
        items {pos}
    | .choice items _ =>
      choiceItems
        (fun it p =>
          applyOccursLoopsX (fun q => matchOnceX xsd children fuel it q)
            it.occursOf children.length p)
        items pos
    | .all items _ =>
      (((List.range (children.length + 1 - pos)).filter
            (fun k => allSatisfied items ((children.drop pos).take k))).map
          (fun k => pos + k)).toFinset

/-- `match` from `xsd_validator.ts`: end positions reachable from `pos`
under `node`, honouring `node.occurs`. -/
def matchX (xsd : XsdIndex) (children : List String) (fuel : Nat)
    (node : XsdParticle) (pos : Nat) : Finset Nat :=
  applyOccursLoopsX (fun q => matchOnceX xsd children fuel node q)
    node.occursOf children.length pos

/-- `matchesParticle` from `xsd_validator.ts`: the child sequence matches
iff its full length is among the end positions reachable from 0. -/
def matchesParticle (fuel : Nat) (p : XsdParticle) (children : List String)
    (xsd : XsdIndex) : Bool :=
  children.length ∈ matchX xsd children fuel p 0

/-- `RELAXED_CHILD_ORDER` from `xsd_validator.ts`. -/
def RELAXED_CHILD_ORDER : List String :=
  ["topic", "section-starting-page", "links", "snippet"]

/-- `filterCompatChildren` from `xsd_validator.ts`: drop children named
`include`; if nothing was dropped the original list is returned (the
source returns the original array reference, which the caller compares
by reference — dropping nothing is exactly the case where the filtered
list equals the original, so reference equality and list equality
coincide). -/
def filterCompatChildren (kidNames : List String) : List String :=
  let filtered := kidNames.filter (fun n => n ≠ "include")
  if filtered.length = kidNames.length then kidNames else filtered

/-- `childrenAllowedBySet` from `xsd_validator.ts`. -/
def childrenAllowedBySet (allowed : AllowedChildren)
    (kidNames : List String) : Bool :=
  match allowed with
  | .ANY => true
  | .EMPTY => kidNames.isEmpty
  | .names ns => kidNames.all (fun n => ns.contains n)

/-- `countChildren` from `xsd_validator.ts`, modelled as the lookup
function of the count map it builds (`counts.get(name) ?? 0`). -/
def countChildren (kidNames : List String) : String → Nat :=
  fun n => kidNames.count n

/-- `countForName` from `xsd_validator.ts`: occurrences of `name` plus
those of its substitution-group members. -/
def countForName (name : String) (counts : String → Nat)
    (xsd : XsdIndex) : Nat :=
  counts name +
    (match alookup xsd.substitutionGroups name with
     | some subs => (subs.map counts).sum
     | none => 0)

/-- `requiredChildrenSatisfied` from `xsd_validator.ts`: order-insensitive
check that required children are present in sufficient counts.  Fuel is
consumed on every descent (fuel exhaustion answers `true`, the function's
defensive default). -/
def requiredChildrenSatisfied (xsd : XsdIndex) (counts : String → Nat) :
    Nat → XsdParticle → Bool
  | 0, _ => true
  | fuel + 1, particle =>
    match particle with
    | .empty _ => true
    | .any _ => true
    | .element name occ => occ.min ≤ countForName name counts xsd
    | .sequence items occ =>
      if occ.min = 0 then true
      else items.all (fun it => requiredChildrenSatisfied xsd counts fuel it)
    | .all items occ =>
      if occ.min = 0 then true
      else items.all (fun it => requiredChildrenSatisfied xsd counts fuel it)
    | .choice items occ =>
      if occ.min = 0 then true
      else items.any (fun it => requiredChildrenSatisfied xsd counts fuel it)
    | .groupRef ref occ =>
      if occ.min = 0 then true
      else
        match alookup xsd.groups ref with
        | none => true
        | some g => requiredChildrenSatisfied xsd counts fuel g

/-- The child-acceptance decision of `validateChildren` in
`xsd_validator.ts`: strict particle match on the children, else (when an
`include` child was filtered out) on the filtered children, else the
relaxed fallback for the `RELAXED_CHILD_ORDER` element names.  `true`
means no content-model violation is reported. -/
def childrenOkX (fuel : Nat) (xsd : XsdIndex) (elementName : String)
    (def_ : XsdElementDef) (kidNames : List String) : Bool :=
  let compatKidNames := filterCompatChildren kidNames
  let ok :=
    matchesParticle fuel def_.content kidNames xsd ||
      (decide (compatKidNames ≠ kidNames) &&
        matchesParticle fuel def_.content compatKidNames xsd)
  if ok then true
  else
    RELAXED_CHILD_ORDER.contains elementName &&
      childrenAllowedBySet def_.allowedChildren compatKidNames &&
      requiredChildrenSatisfied xsd (countChildren compatKidNames) fuel
        def_.content

end Xsd

namespace Sanitize

/-- `String.toLowerCase` modelled over the character list (only ASCII
names reach it in practice). -/
def lowerStr (s : String) : String := ⟨s.data.map Char.toLower⟩

/-- The apostrophe character (written via its code point). -/
def squote : Char := Char.ofNat 39

/-- The backtick character (written via its code point). -/
def btick : Char := Char.ofNat 96

/-- JavaScript `/\s/`: the whitespace class used by the sanitizer's
regexes and `isWs`-style tests. -/
def jsIsSpace (c : Char) : Bool :=
  c = ' ' || c = '\t' || c = '\n' || c = '\r' ||
    c.toNat = 0x0B || c.toNat = 0x0C ||
    c.toNat = 0xA0 || c.toNat = 0x1680 ||
    (0x2000 ≤ c.toNat && c.toNat ≤ 0x200A) ||
    c.toNat = 0x2028 || c.toNat = 0x2029 || c.toNat = 0x202F ||
    c.toNat = 0x205F || c.toNat = 0x3000 || c.toNat = 0xFEFF

/-- ASCII letter. -/
def isAsciiAlpha (c : Char) : Bool :=
  (65 ≤ c.toNat && c.toNat ≤ 90) || (97 ≤ c.toNat && c.toNat ≤ 122)

/-- ASCII digit. -/
def isAsciiDigit (c : Char) : Bool :=
  48 ≤ c.toNat && c.toNat ≤ 57

/-- `/[0-9A-Fa-f]/`. -/
def isHexDigit (c : Char) : Bool :=
  isAsciiDigit c || (65 ≤ c.toNat && c.toNat ≤ 70) ||
    (97 ≤ c.toNat && c.toNat ≤ 102)

/-- `isAlphaNum` from `xast_xml.ts`: entity-name continuation characters. -/
def isAlphaNumTs (c : Char) : Bool :=
  isAsciiDigit c || isAsciiAlpha c ||
    c = '_' || c = ':' || c = '-' || c = '.'

/-- The tag-name character class `/[\w:.\-]/` from `parseTagDetailed`. -/
def isNameCharTs (c : Char) : Bool :=
  isAsciiDigit c || isAsciiAlpha c || c = '_' || c = ':' || c = '.' || c = '-'

/-- `localName` from `xast_xml.ts`: strip everything up to the first `:`. -/
def localNameL (q : List Char) : List Char :=
  match q.findIdx? (fun c => c = ':') with
  | some i => q.drop (i + 1)
  | none => q

/-- First index at which `pat` occurs as a contiguous sublist (`indexOf`). -/
def findSubIdx (pat : List Char) : List Char → Option Nat
  | [] => if pat = [] then some 0 else none
  | c :: rest =>
    if pat.isPrefixOf (c :: rest) then some 0
    else (findSubIdx pat rest).map (fun n => n + 1)

/-- Digits-to-number (decimal), for the hole tokens of the masking stage. -/
def natFromDigits (ds : List Char) : Nat :=
  ds.foldl (fun a c => a * 10 + (c.toNat - 48)) 0

/-- `stripCodeFences`' leading-fence regex
`/^\s*(?:(\x60\x60\x60+|~~~+)[^\n]*\n|\x60\x60[^\n]*\n)/` : optional
whitespace, then three-plus backticks, three-plus tildes, or exactly two
backticks, then the rest of the line including its newline. -/
def stripFenceStart (s : List Char) : List Char :=
  let ws := s.takeWhile jsIsSpace
  let rest := s.drop ws.length
  let bt := (rest.takeWhile (fun c => c = btick)).length
  let td := (rest.takeWhile (fun c => c = '~')).length
  if 3 ≤ bt || 3 ≤ td || bt = 2 then
    match rest.findIdx? (fun c => c = '\n') with
    | some i => rest.drop (i + 1)
    | none => s
  else s

/-- Does this suffix (just after a newline) consist of a closing fence of
`n`-plus copies of `fenceChar` followed only by whitespace? -/
def isTrailFence (fenceChar : Char) (n : Nat) (r : List Char) : Bool :=
  let run := (r.takeWhile (fun c => c = fenceChar)).length
  n ≤ run && (r.drop run).all jsIsSpace

/-- Remove the leftmost trailing-fence match (`\n` + fence + trailing
whitespace reaching the end of the string), as the source's
non-global `replace` does. -/
def cutTrailingFence (p : List Char → Bool) : List Char → List Char
  | [] => []
  | c :: rest =>
    if c = '\n' && p rest then []
    else c :: cutTrailingFence p rest

/-- `stripCodeFences` from `xast_xml.ts`: leading fence line, then the
`/\n(?:\x60\x60\x60+|~~~+)\s*$/` replace, then the `/\n\x60\x60\s*$/`
replace. -/
def stripCodeFences (input : List Char) : List Char :=
  let s1 := stripFenceStart input
  let s2 := cutTrailingFence
    (fun r => isTrailFence btick 3 r || isTrailFence '~' 3 r) s1
  cutTrailingFence
    (fun r => [btick, btick].isPrefixOf r && (r.drop 2).all jsIsSpace) s2

/-- One repeated-scan pass of `stripProlog`: leading whitespace, an
`<?xml ...?>` declaration, or a `<<!DOCTYPE ...>` (with or without an
internal subset) is removed and the loop restarts; no progress ends the
loop.  Fuel bounds the number of rounds (each removes at least one
character). -/
def stripPrologLoop : Nat → List Char → List Char
  | 0, s => s
  | fuel + 1, s =>
    let s1 := s.dropWhile jsIsSpace
    if "<?xml".data.isPrefixOf s1 then
      match findSubIdx "?>".data s1 with
      | some e => stripPrologLoop fuel (s1.drop (e + 2))
      | none => s1
    else if "<!DOCTYPE".data.isPrefixOf s1 then
      let gt := s1.findIdx? (fun c => c = '>')
      let br := s1.findIdx? (fun c => c = '[')
      match gt, br with
      | some g, none => stripPrologLoop fuel (s1.drop (g + 1))
      | some g, some b =>
        if b > g then stripPrologLoop fuel (s1.drop (g + 1))
        else
          match findSubIdx "]>".data s1 with
          | some e => stripPrologLoop fuel (s1.drop (e + 2))
          | none => s1
      | none, some _ =>
        match findSubIdx "]>".data s1 with
        | some e => stripPrologLoop fuel (s1.drop (e + 2))
        | none => s1
      | none, none => s1
    else s1

/-- `stripProlog` from `xast_xml.ts`: drop a BOM, then repeatedly strip
leading whitespace, XML declaration and DOCTYPE. -/
def stripPrologF (input : List Char) : List Char :=
  let s :=
    match input with
    | c :: rest => if c.toNat = 0xFEFF then rest else input
    | [] => []
  stripPrologLoop (s.length + 1) s

/-- `body.replace(/--/g, "- -")`: leftmost non-overlapping double dashes. -/
def replaceDoubleDashes : List Char → List Char
  | '-' :: '-' :: rest => '-' :: ' ' :: '-' :: replaceDoubleDashes rest
  | c :: rest => c :: replaceDoubleDashes rest
  | [] => []

/-- `repairInvalidComments` from `xast_xml.ts`: rewrite `--` inside
balanced `<!-- -->` comments to `- -`; an unterminated comment is copied
through unchanged. -/
def repairInvalidComments : Nat → List Char → List Char
  | 0, s => s
  | fuel + 1, s =>
    match findSubIdx "<!--".data s with
    | none => s
    | some op =>
      let pre := s.take op
      let rest := s.drop (op + 4)
      match findSubIdx "-->".data rest with
      | none => s
      | some cl =>
        let body := rest.take cl
        let after := rest.drop (cl + 3)
        pre ++ "<!--".data ++ replaceDoubleDashes body ++ "-->".data ++
          repairInvalidComments fuel after

/-- Characters removed by `scrubInvalidXmlCharsInText`: C0 controls other
than TAB/LF/CR, and the noncharacters `U+FFFE`/`U+FFFF`. -/
def isInvalidXmlChar (c : Char) : Bool :=
  c.toNat ≤ 0x08 || c.toNat = 0x0B || c.toNat = 0x0C ||
    (0x0E ≤ c.toNat && c.toNat ≤ 0x1F) ||
    c.toNat = 0xFFFE || c.toNat = 0xFFFF

/-- `scrubInvalidXmlCharsInText` from `xast_xml.ts`. -/
def scrubInvalidXmlCharsInText (s : List Char) : List Char :=
  s.filter (fun c => !isInvalidXmlChar c)

/-- The opaque placeholder for masked segment `k`:
`"\x00__HOLE_k__\x00"`. -/
def holeToken (k : Nat) : List Char :=
  '\x00' :: "__HOLE_".data ++ (toString k).data ++ "__".data ++ ['\x00']

/-- The scan loop of `maskProtectedSegments`: replace each balanced
CDATA section, processing instruction and comment by a placeholder
token, collecting the original segments in order.  `k` numbers the next
hole; fuel bounds the loop (each round consumes at least one character). -/
def maskLoop : Nat → Nat → List Char → List Char × List (List Char)
  | 0, _, s => (s, [])
  | fuel + 1, k, s =>
    match s.findIdx? (fun c => c = '<') with
    | none => (s, [])
    | some lt =>
      let pre := s.take lt
      let rest := s.drop lt
      if "<![CDATA[".data.isPrefixOf rest then
        match findSubIdx "]]>".data (rest.drop 9) with
        | some e =>
          let hole := rest.take (9 + e + 3)
          let (t, hs) := maskLoop fuel (k + 1) (rest.drop (9 + e + 3))
          (pre ++ holeToken k ++ t, hole :: hs)
        | none =>
          let (t, hs) := maskLoop fuel k (rest.drop 1)
          (pre ++ '<' :: t, hs)
      else if "<?".data.isPrefixOf rest then
        match findSubIdx "?>".data (rest.drop 2) with
        | some e =>
          let hole := rest.take (2 + e + 2)
          let (t, hs) := maskLoop fuel (k + 1) (rest.drop (2 + e + 2))
          (pre ++ holeToken k ++ t, hole :: hs)
        | none =>
          let (t, hs) := maskLoop fuel k (rest.drop 1)
          (pre ++ '<' :: t, hs)
      else if "<!--".data.isPrefixOf rest then
        match findSubIdx "-->".data (rest.drop 4) with
        | some e =>
          let hole := rest.take (4 + e + 3)
          let (t, hs) := maskLoop fuel (k + 1) (rest.drop (4 + e + 3))
          (pre ++ holeToken k ++ t, hole :: hs)
        | none =>
          let (t, hs) := maskLoop fuel k (rest.drop 1)
          (pre ++ '<' :: t, hs)
      else
        let (t, hs) := maskLoop fuel k (rest.drop 1)
        (pre ++ '<' :: t, hs)

/-- `maskProtectedSegments` from `xast_xml.ts` (the `text` and hole list;
the `restore` closure is `restoreHoles` below). -/
def maskProtectedSegments (s : List Char) : List Char × List (List Char) :=
  maskLoop (s.length + 1) 0 s

/-- Recognise a hole-token occurrence right after a NUL: `__HOLE_`,
one-plus digits, `__`, NUL.  Returns the hole number and the suffix
after the token. -/
def parseHoleTok (rest : List Char) : Option (Nat × List Char) :=
  if "__HOLE_".data.isPrefixOf rest then
    let r2 := rest.drop 7
    let digits := r2.takeWhile isAsciiDigit
    if digits.length = 0 then none
    else
      let r3 := r2.drop digits.length
      if ['_', '_', '\x00'].isPrefixOf r3 then
        some (natFromDigits digits, r3.drop 3)
      else none
  else none

/-- The `restore` closure of `maskProtectedSegments`: the global regex
replace of `/\x00__HOLE_(\d+)__\x00/` by the saved segment (a hole number
out of range renders JavaScript's `undefined`). -/
def restoreHoles (holes : List (List Char)) : Nat → List Char → List Char
  | 0, t => t
  | _, [] => []
  | fuel + 1, c :: rest =>
    if c = '\x00' then
      match parseHoleTok rest with
      | some (n, after) =>
        ((holes.get? n).getD "undefined".data) ++ restoreHoles holes fuel after
      | none => c :: restoreHoles holes fuel rest
    else c :: restoreHoles holes fuel rest

/-- `UNICODE_SPACE_IN_TAG` from `xast_xml.ts`. -/
def isUnicodeSpaceInTag (c : Char) : Bool :=
  c.toNat = 0xA0 || c.toNat = 0x1680 ||
    (0x2000 ≤ c.toNat && c.toNat ≤ 0x200A) ||
    c.toNat = 0x202F || c.toNat = 0x205F || c.toNat = 0x3000 ||
    c.toNat = 0x2028 || c.toNat = 0x2029

/-- `ZERO_WIDTH_MARKS` from `xast_xml.ts`. -/
def isZeroWidthMark (c : Char) : Bool :=
  (0x200B ≤ c.toNat && c.toNat ≤ 0x200D) ||
    c.toNat = 0x2060 || c.toNat = 0xFEFF

/-- `isLikelyTagStart` from `xast_xml.ts`: `<` followed by
`/[A-Za-z_/?]/`. -/
def likelyTagStartNext (next : Option Char) : Bool :=
  match next with
  | some n => isAsciiAlpha n || n = '_' || n = '/' || n = '?'
  | none => false

/-- The state machine of `normalizeUnicodeSpacesInsideTags`: `inTag` and
`quote` track "inside a tag" and "inside a quoted attribute value";
Unicode space separators inside unquoted tag markup become ASCII spaces
and zero-width marks there are dropped. -/
def normSpacesGo : Bool → Option Char → List Char → List Char
  | _, _, [] => []
  | false, _, c :: rest =>
    if c = '<' && likelyTagStartNext rest.head? then
      c :: normSpacesGo true none rest
    else c :: normSpacesGo false none rest
  | true, some q, c :: rest =>
    if c = q then c :: normSpacesGo true none rest
    else c :: normSpacesGo true (some q) rest
  | true, none, c :: rest =>
    if c = '"' || c = squote then c :: normSpacesGo true (some c) rest
    else if c = '>' then c :: normSpacesGo false none rest
    else if isUnicodeSpaceInTag c then ' ' :: normSpacesGo true none rest
    else if isZeroWidthMark c then normSpacesGo true none rest
    else c :: normSpacesGo true none rest

/-- `normalizeUnicodeSpacesInsideTags` from `xast_xml.ts`. -/
def normalizeUnicodeSpacesInsideTags (s : List Char) : List Char :=
  normSpacesGo false none s

/-- The entity-handling policy (`"convert" | "escape" | "error"`). -/
inductive EntityPolicy where
  | convert
  | escape
  | error
deriving Repr, DecidableEq

/-- `XML5` from `xast_xml.ts`: the five predefined XML entities. -/
def XML5 : List String := ["lt", "gt", "amp", "quot", "apos"]

/-- `BUILTIN_ENTITIES` from `xast_xml.ts`. -/
def BUILTIN_ENTITIES : List (String × Nat) :=
  [("nbsp", 160), ("thinsp", 8201), ("ensp", 8194), ("emsp", 8195),
   ("shy", 173), ("ndash", 8211), ("mdash", 8212), ("hellip", 8230),
   ("middot", 183), ("bull", 8226), ("copy", 169), ("reg", 174),
   ("trade", 8482), ("euro", 8364), ("pound", 163), ("yen", 165),
   ("sect", 167), ("para", 182), ("deg", 176), ("sup1", 185),
   ("sup2", 178), ("sup3", 179), ("laquo", 171), ("raquo", 187),
   ("lsquo", 8216), ("rsquo", 8217), ("ldquo", 8220), ("rdquo", 8221),
   ("larr", 8592), ("uarr", 8593), ("rarr", 8594), ("darr", 8595),
   ("harr", 8596), ("times", 215), ("divide", 247)]

/-- Numeric character-reference branch of the entity scanner, with the
hex flag and the post-flag remainder `r3` already computed (`r2` is the
full text after `&#` is seen minus the `#`). -/
def entityNumericCore (isHex : Bool) (r2 r3 : List Char) : List Char × Nat :=
  let digits := r3.takeWhile
    (fun d => if isHex then isHexDigit d else isAsciiDigit d)
  let r4 := r3.drop digits.length
  if digits.length ≠ 0 && r4.head? = some ';' then
    let consumed := 1 + (if isHex then 1 else 0) + digits.length + 1
    ('&' :: ('#' :: r2).take consumed, consumed)
  else ("&amp;".data, 0)

/-- Numeric character-reference branch: text following the `#`. -/
def entityNumeric (r2 : List Char) : List Char × Nat :=
  let isHex := match r2.head? with
               | some x => x = 'x' || x = 'X'
               | none => false
  entityNumericCore isHex r2 (if isHex then r2.drop 1 else r2)

/-- The string JavaScript produces for `${Object.prototype.constructor}`:
the entity table is a plain object, so the property read
`entityMap[lower] != null` also finds `Object.prototype` members.  The
scanned names start with a letter and are lowercased, so the only
reachable prototype key is `constructor`, whose value stringifies to
the Object constructor's source text. -/
def OBJ_CONSTRUCTOR_STR : String := "function Object() \x7b [native code] \x7d"

/-- Named-entity branch of the entity scanner: `c` is the leading ASCII
letter, `r2` the text after it.  The known-entity test is the JavaScript
property read `entityMap[lower] != null`: an own property of the table,
or the inherited `Object.prototype.constructor` when `lower` is
`constructor` (its value stringifies into the numeric-reference
template). -/
def entityNamed (policy : EntityPolicy) (table : List (String × Nat))
    (c : Char) (r2 : List Char) : Except String (List Char × Nat) :=
  let name := c :: r2.takeWhile isAlphaNumTs
  let afterName := (c :: r2).drop name.length
  if afterName.head? = some ';' then
    let nameStr : String := ⟨name⟩
    let lower : String := ⟨name.map Char.toLower⟩
    if XML5.contains lower then
      .ok ('&' :: lower.data ++ [';'], name.length + 1)
    else
      match alookup table lower with
      | some code =>
        .ok ("&#".data ++ (toString code).data ++ [';'], name.length + 1)
      | none =>
        if lower = "constructor" then
          .ok ("&#".data ++ OBJ_CONSTRUCTOR_STR.data ++ [';'], name.length + 1)
        else if policy = .error then
          .error ("[authord] Unknown named entity: &" ++ nameStr ++ ";")
        else
          .ok ("&amp;".data ++ name ++ [';'], name.length + 1)
  else .ok ("&amp;".data, 0)

/-- Whether the text contains a named-entity token whose lowercased name
is `constructor` (`&` + name + `;`): on such a token the JavaScript
lookup hits `Object.prototype.constructor` instead of a table entry. -/
def hasCtorTok : List Char → Bool
  | [] => false
  | c :: rest =>
    if c = '&' then
      if ((rest.takeWhile isAlphaNumTs).map Char.toLower
            = "constructor".data : Bool)
          && ((rest.drop (rest.takeWhile isAlphaNumTs).length).head?
            = some ';' : Bool) then
        true
      else hasCtorTok rest
    else hasCtorTok rest

/-- One `&`-token step of `normalizeEntitiesAndAmpersands`: given the
characters after a `&`, produce the emitted replacement text and the
number of characters consumed after the `&` (0 for a bare ampersand).
A well-formed numeric reference passes through; a named entity becomes
its predefined lowercase form, the numeric reference from the table, or
`&amp;name;` (or an error under the `error` policy); anything else is a
bare `&` escaped to `&amp;`. -/
def entityStep (policy : EntityPolicy) (table : List (String × Nat))
    (rest : List Char) : Except String (List Char × Nat) :=
  match rest with
  | [] => .ok ("&amp;".data, 0)
  | c :: r2 =>
    if c = '#' then
      .ok (entityNumeric r2)
    else if isAsciiAlpha c then
      entityNamed policy table c r2
    else .ok ("&amp;".data, 0)

/-- The character loop of `normalizeEntitiesAndAmpersands`; fuel bounds
the number of steps (each consumes at least one character). -/
def normEntLoop (policy : EntityPolicy) (table : List (String × Nat)) :
    Nat → List Char → Except String (List Char)
  | 0, s => .ok s
  | _, [] => .ok []
  | fuel + 1, c :: rest =>
    if c = '&' then do
      let (em, consumed) ← entityStep policy table rest
      let t ← normEntLoop policy table fuel (rest.drop consumed)
      .ok (em ++ t)
    else do
      let t ← normEntLoop policy table fuel rest
      .ok (c :: t)

/-- `normalizeEntitiesAndAmpersands` from `xast_xml.ts` (the audit
callback has no effect on the result and is omitted). -/
def normalizeEntitiesAndAmpersands (policy : EntityPolicy)
    (table : List (String × Nat)) (s : List Char) :
    Except String (List Char) :=
  normEntLoop policy table (s.length + 1) s

/-- A well-formed tag recognised by `parseTagDetailed`:
qualified name, lowercased local name, closing/self-closing flags and
the total number of characters the tag occupies (from `<` to `>`). -/
structure TagInfo where
  qname : String
  localLower : String
  closing : Bool
  selfClosing : Bool
  len : Nat
deriving Repr, DecidableEq

/-- The attribute scan of `parseTagDetailed`: quote-aware, terminated by
`>`; a raw `<` before the terminator invalidates the tag.  Returns the
self-closing flag (last non-whitespace before `>` is `/`) and the number
of characters consumed including the `>`. -/
def scanTagRest (quote : Option Char) (lastNonWs : Option Char) :
    List Char → Option (Bool × Nat)
  | [] => none
  | c :: rest =>
    match quote with
    | some q =>
      ((scanTagRest (if c = q then none else some q) lastNonWs rest).map
        (fun p => (p.1, p.2 + 1)))
    | none =>
      if c = '"' || c = squote then
        (scanTagRest (some c) lastNonWs rest).map (fun p => (p.1, p.2 + 1))
      else if c = '>' then some (lastNonWs = some '/', 1)
      else if c = '<' then none
      else
        (scanTagRest none (if jsIsSpace c then lastNonWs else some c)
          rest).map (fun p => (p.1, p.2 + 1))

/-- `parseTagDetailed` from `xast_xml.ts`, on the suffix starting at the
`<`.  `none` is the `valid: false` case (the caller then consumes just
the `<`). -/
def parseTagDetailed (s : List Char) : Option TagInfo :=
  match s with
  | '<' :: r1 =>
    let closing := r1.head? = some '/'
    let r2 := if closing then r1.drop 1 else r1
    match r2.head? with
    | some c0 =>
      if isAsciiAlpha c0 || c0 = '_' then
        let name := r2.takeWhile isNameCharTs
        let r3 := r2.drop name.length
        match scanTagRest none none r3 with
        | some (selfClosing, n) =>
          some
            { qname := ⟨name⟩
              localLower := ⟨(localNameL name).map Char.toLower⟩
              closing := closing
              selfClosing := selfClosing
              len := 1 + (if closing then 1 else 0) + name.length + n }
        | none => none
      else none
    | none => none
  | _ => none

/-- The options consumed by `applyContainerPoliciesStream`. -/
structure StreamOpts where
  richTextContainers : List String
  inlineTextContainers : List String
  forceTextInContainers : Bool
  escapeUnknownTagMentionsInText : Bool
  allowedInlineTags : List String
  allowedRichTags : List String
  escapeBareAnglesInText : Bool
deriving Repr

/-- Container kind: rich vs inline. -/
inductive CtxKind where
  | rich
  | inline
deriving Repr, DecidableEq

/-- A container context on the stream transform's stack. -/
structure Ctx where
  kind : CtxKind
  nameLocal : String
  innerStack : List String
deriving Repr

/-- `tagText.slice(1, -1).replace(/</g, "&lt;").replace(/>/g, "&gt;")`:
angle brackets inside an escaped tag body become entities. -/
def escapeAngles (body : List Char) : List Char :=
  body.flatMap (fun c =>
    if c = '<' then "&lt;".data
    else if c = '>' then "&gt;".data
    else [c])

/-- One step result helpers for the streaming transform (see
`applyContainerPoliciesStream`): the loop body, recursing on fuel (each
iteration consumes at least one input character). -/
def streamGo (o : StreamOpts) : Nat → List Ctx → List Char → List Char
  | 0, _, s => s
  | _, _, [] => []
  | fuel + 1, ctxStack, s@(ch :: restChars) =>
    let richNames := o.richTextContainers.map lowerStr
    let inlineNames := o.inlineTextContainers.map lowerStr
    let allowInline := o.allowedInlineTags.map lowerStr
    let allowRich := o.allowedRichTags.map lowerStr
    if ch ≠ '<' then ch :: streamGo o fuel ctxStack restChars
    else
      match parseTagDetailed s with
      | none =>
        if ctxStack.length ≠ 0 && o.escapeBareAnglesInText then
          "&lt;".data ++ streamGo o fuel ctxStack restChars
        else '<' :: streamGo o fuel ctxStack restChars
      | some tag =>
        let tagText := s.take tag.len
        let after := s.drop tag.len
        let isContainerOpen :=
          richNames.contains tag.localLower ||
            inlineNames.contains tag.localLower
        if !tag.closing && isContainerOpen then
          -- 1) entering a container (self-closing instances push nothing)
          let kind : CtxKind :=
            if richNames.contains tag.localLower then .rich else .inline
          let stack2 :=
            if !tag.selfClosing then
              { kind := kind, nameLocal := tag.localLower,
                innerStack := [] } :: ctxStack
            else ctxStack
          tagText ++ streamGo o fuel stack2 after
        else
          match ctxStack with
          | current :: poppedStack =>
            if tag.closing && tag.localLower = current.nameLocal then
              -- 2) leaving the current container
              tagText ++ streamGo o fuel poppedStack after
            else if o.forceTextInContainers then
              -- 3) forced literal text inside containers
              "&lt;".data ++ escapeAngles (tagText.drop 1).dropLast ++
                "&gt;".data ++ streamGo o fuel ctxStack after
            else if tag.qname.data.contains ':' then
              -- namespaced tags pass through (with cosmetic balance)
              let inner2 :=
                if !tag.closing && !tag.selfClosing then
                  tag.localLower :: current.innerStack
                else if tag.closing &&
                    current.innerStack.head? = some tag.localLower then
                  current.innerStack.drop 1
                else current.innerStack
              let stack2 := { current with innerStack := inner2 } :: poppedStack
              tagText ++ streamGo o fuel stack2 after
            else
              let allowSet :=
                match current.kind with
                | .rich => allowRich
                | .inline => allowInline
              if allowSet.contains tag.localLower then
                if tag.closing then
                  if current.innerStack.head? = some tag.localLower then
                    let stack2 :=
                      { current with innerStack := current.innerStack.drop 1 }
                        :: poppedStack
                    tagText ++ streamGo o fuel stack2 after
                  else
                    -- stray closing tag → escape (no inner angle rewrite)
                    "&lt;".data ++ (tagText.drop 1).dropLast ++ "&gt;".data ++
                      streamGo o fuel ctxStack after
                else
                  let stack2 :=
                    if !tag.selfClosing then
                      { current with
                        innerStack := tag.localLower :: current.innerStack }
                        :: poppedStack
                    else ctxStack
                  tagText ++ streamGo o fuel stack2 after
              else if o.escapeUnknownTagMentionsInText then
                "&lt;".data ++ escapeAngles (tagText.drop 1).dropLast ++
                  "&gt;".data ++ streamGo o fuel ctxStack after
              else tagText ++ streamGo o fuel ctxStack after
          | [] =>
            -- 4) outside containers → pass through
            tagText ++ streamGo o fuel ctxStack after

/-- `applyContainerPoliciesStream` from `xast_xml.ts`. -/
def applyContainerPoliciesStream (o : StreamOpts) (s : List Char) :
    List Char :=
  streamGo o (s.length + 1) [] s

/-- `ALLOW_INLINE_DEFAULT` from `xast_xml.ts`. -/
def ALLOW_INLINE_DEFAULT : List String :=
  ["a", "em", "strong", "b", "i", "u", "s", "code", "kbd", "var", "samp",
   "sub", "sup", "span", "small", "abbr", "cite", "q", "mark", "del",
   "ins", "br", "img", "tt",
   "emphasis", "format", "path", "control", "tooltip", "math", "icon",
   "ui-path", "shortcut"]

/-- `ALLOW_RICH_DEFAULT` from `xast_xml.ts`. -/
def ALLOW_RICH_DEFAULT : List String :=
  ALLOW_INLINE_DEFAULT ++
    ["p", "pre", "ul", "ol", "li", "table", "thead", "tbody", "tfoot",
     "tr", "td", "th", "dl", "dt", "dd", "blockquote", "figure",
     "figcaption", "hr", "h1", "h2", "h3", "h4", "h5", "h6",
     "list", "deflist", "def", "tabs", "tab", "compare", "code-block",
     "video", "inline-frame", "resource", "property", "seealso",
     "category", "group", "links", "cards", "card", "spotlight",
     "description", "tldr", "primary", "secondary", "misc"]

/-- `XmlSanitizeOptions` with the `DEFAULTS` of `xast_xml.ts` as field
defaults (the `onChange` audit hook has no effect on the output and is
omitted). -/
structure XmlSanitizeOptions where
  stripProlog : Bool := true
  fixInvalidComments : Bool := true
  scrubInvalidXmlChars : Bool := true
  normalizeUnicodeSpacesInTags : Bool := true
  entityPolicy : EntityPolicy := .convert
  namedEntities : List (String × Nat) := []
  richTextContainers : List String :=
    ["documentation", "link-summary", "card-summary", "web-summary",
     "description", "tldr"]
  inlineTextContainers : List String := ["p"]
  forceTextInContainers : Bool := false
  escapeUnknownTagMentionsInText : Bool := true
  allowedInlineTags : List String := ALLOW_INLINE_DEFAULT
  allowedRichTags : List String := ALLOW_RICH_DEFAULT
  escapeBareAnglesInText : Bool := true
deriving Repr

/-- The `StreamOpts` slice of full options, as passed by `preSanitize`. -/
def XmlSanitizeOptions.toStreamOpts (o : XmlSanitizeOptions) : StreamOpts :=
  { richTextContainers := o.richTextContainers
    inlineTextContainers := o.inlineTextContainers
    forceTextInContainers := o.forceTextInContainers
    escapeUnknownTagMentionsInText := o.escapeUnknownTagMentionsInText
    allowedInlineTags := o.allowedInlineTags
    allowedRichTags := o.allowedRichTags
    escapeBareAnglesInText := o.escapeBareAnglesInText }

/-- `preSanitize` from `xast_xml.ts`: the full sanitizer pipeline.
`{...BUILTIN_ENTITIES, ...o.namedEntities}` lets caller entries win, so
the override list is consulted first.  The only stage that can fail is
entity normalization (under the `error` policy). -/
def preSanitize (o : XmlSanitizeOptions) (xml : List Char) :
    Except String (List Char) :=
  let entities := o.namedEntities ++ BUILTIN_ENTITIES
  let s0 := stripCodeFences xml
  let s1 := if o.stripProlog then stripPrologF s0 else s0
  let s2 := if o.fixInvalidComments then repairInvalidComments (s1.length + 1) s1 else s1
  let s3 := if o.scrubInvalidXmlChars then scrubInvalidXmlCharsInText s2 else s2
  let masked := maskProtectedSegments s3
  let w1 :=
    if o.normalizeUnicodeSpacesInTags then
      normalizeUnicodeSpacesInsideTags masked.1
    else masked.1
  match normalizeEntitiesAndAmpersands o.entityPolicy entities w1 with
  | .error e => .error e
  | .ok w2 =>
    let w3 := applyContainerPoliciesStream o.toStreamOpts w2
    .ok (restoreHoles masked.2 (w3.length + 1) w3)

/-- The text handed to the entity-normalization stage of `preSanitize`:
the composition of the repair stages up to and including the
whitespace-inside-tags normalization of the masked text. -/
def preEntityText (o : XmlSanitizeOptions) (xml : List Char) : List Char :=
  let s0 := stripCodeFences xml
  let s1 := if o.stripProlog then stripPrologF s0 else s0
  let s2 := if o.fixInvalidComments then repairInvalidComments (s1.length + 1) s1 else s1
  let s3 := if o.scrubInvalidXmlChars then scrubInvalidXmlCharsInText s2 else s2
  let masked := maskProtectedSegments s3
  if o.normalizeUnicodeSpacesInTags then
    normalizeUnicodeSpacesInsideTags masked.1
  else masked.1

/-- The stages of `preSanitize` after entity normalization: container
policies followed by restoring the masked protected segments. -/
def postEntityText (o : XmlSanitizeOptions) (xml : List Char)
    (w2 : List Char) : List Char :=
  let s0 := stripCodeFences xml
  let s1 := if o.stripProlog then stripPrologF s0 else s0
  let s2 := if o.fixInvalidComments then repairInvalidComments (s1.length + 1) s1 else s1
  let s3 := if o.scrubInvalidXmlChars then scrubInvalidXmlCharsInText s2 else s2
  let masked := maskProtectedSegments s3
  let w3 := applyContainerPoliciesStream o.toStreamOpts w2
  restoreHoles masked.2 (w3.length + 1) w3

end Sanitize

namespace Dtd

/-- JavaScript `String#trim` (trims the `\s` class at both ends). -/
def jsTrim (s : List Char) : List Char :=
  ((s.dropWhile Sanitize.jsIsSpace).reverse.dropWhile Sanitize.jsIsSpace).reverse

/-- Advance past whitespace: the mutable `skipWs` of `DtdModelParser`. -/
def skipWsIdx (s : List Char) (i : Nat) : Nat :=
  i + ((s.drop i).takeWhile Sanitize.jsIsSpace).length

/-- `readName` of `DtdModelParser`: skip whitespace, then read until
whitespace or one of `( ) | , ? * +`.  Returns the name (possibly empty)
and the index after it. -/
def readNameIdx (s : List Char) (i0 : Nat) : List Char × Nat :=
  let i := skipWsIdx s i0
  let name := (s.drop i).takeWhile (fun c =>
    !(Sanitize.jsIsSpace c || c = '(' || c = ')' || c = '|' || c = ',' ||
      c = '?' || c = '*' || c = '+'))
  (name, i + name.length)

/-- Replace a node's occurrence qualifier (`{ ...node, occurs: q }`). -/
def setOccurs : DtdContentModel → DtdOccurs → DtdContentModel
  | .NAME n _, q => .NAME n q
  | .PCDATA _, q => .PCDATA q
  | .SEQ items _, q => .SEQ items q
  | .CHOICE items _, q => .CHOICE items q

/-- The operator mode of `DtdModelParser.parseExpr`'s chain loop. -/
inductive ExprMode where
  | CHOICE
  | SEQ
deriving Repr, DecidableEq

mutual

/-- `DtdModelParser.parseExpr`: `expr := term (('|'|',') term)*`.
Parses the first term, then runs the operator-chain loop.  Returns the
node and the index after it.  Fuel bounds the recursion depth (each
descent consumes input, so `4 * (length + 1)` at top level is ample). -/
def parseExprP (s : List Char) : Nat → Nat → Except String (DtdContentModel × Nat)
  | 0, _ => .error "content-model parser out of fuel"
  | fuel + 1, i => do
    let (left, i1) ← parseTermP s fuel i
    let i2 := skipWsIdx s i1
    parseExprLoopP s fuel i2 left [] none
termination_by structural fuel _ => fuel

/-- The chain loop of `parseExpr`: while the next operator is `|` or `,`,
require it to agree with the established mode (mixing the two at one
nesting level throws), consume it and parse the next term.  On break,
`none` mode returns the lone left term, otherwise a `CHOICE`/`SEQ` of
`left :: acc`. -/
def parseExprLoopP (s : List Char) : Nat → Nat → DtdContentModel →
    List DtdContentModel → Option ExprMode →
    Except String (DtdContentModel × Nat)
  | 0, _, _, _, _ => .error "content-model parser out of fuel"
  | fuel + 1, i, left, acc, mode =>
    let j := skipWsIdx s i
    match s.get? j with
    | some op =>
      if op = '|' || op = ',' then
        let nextMode : ExprMode := if op = '|' then .CHOICE else .SEQ
        match mode with
        | some m =>
          if m ≠ nextMode then
            .error ("Mixed '|' and ',' without parentheses near index " ++
              toString j)
          else do
            let (right, k) ← parseTermP s fuel (j + 1)
            parseExprLoopP s fuel k left (acc ++ [right]) (some nextMode)
        | none => do
          let (right, k) ← parseTermP s fuel (j + 1)
          parseExprLoopP s fuel k left (acc ++ [right]) (some nextMode)
      else
        match mode with
        | none => .ok (left, j)
        | some .CHOICE => .ok (.CHOICE (left :: acc) .one, j)
        | some .SEQ => .ok (.SEQ (left :: acc) .one, j)
    | none =>
      match mode with
      | none => .ok (left, j)
      | some .CHOICE => .ok (.CHOICE (left :: acc) .one, j)
      | some .SEQ => .ok (.SEQ (left :: acc) .one, j)
termination_by structural fuel _ _ _ _ => fuel

/-- `DtdModelParser.parseTerm`: `term := atom quantifier?`. -/
def parseTermP (s : List Char) : Nat → Nat → Except String (DtdContentModel × Nat)
  | 0, _ => .error "content-model parser out of fuel"
  | fuel + 1, i => do
    let i1 := skipWsIdx s i
    let (node, i2) ← parseAtomP s fuel i1
    let i3 := skipWsIdx s i2
    match s.get? i3 with
    | some '?' => .ok (setOccurs node .opt, i3 + 1)
    | some '*' => .ok (setOccurs node .star, i3 + 1)
    | some '+' => .ok (setOccurs node .plus, i3 + 1)
    | _ => .ok (node, i3)
termination_by structural fuel _ => fuel

/-- `DtdModelParser.parseAtom`: a NAME, a parenthesised expression, or the
specially recognised `(#PCDATA)` / `(#PCDATA|a|b)` mixed form. -/
def parseAtomP (s : List Char) : Nat → Nat → Except String (DtdContentModel × Nat)
  | 0, _ => .error "content-model parser out of fuel"
  | fuel + 1, i => do
    let i1 := skipWsIdx s i
    if s.get? i1 = some '(' then
      let i2 := skipWsIdx s (i1 + 1)
      if "#PCDATA".data.isPrefixOf (s.drop i2) then
        let i3 := skipWsIdx s (i2 + 7)
        if s.get? i3 = some ')' then .ok (.PCDATA .one, i3 + 1)
        else do
          let (items, i4) ← mixedLoopP s fuel i3 [.PCDATA .one]
          let i5 := skipWsIdx s i4
          if s.get? i5 = some ')' then .ok (.CHOICE items .one, i5 + 1)
          else .error ("Expected ')' at " ++ toString i5)
      else do
        let (inner, i3) ← parseExprP s fuel (i1 + 1)
        let i4 := skipWsIdx s i3
        if s.get? i4 = some ')' then .ok (inner, i4 + 1)
        else .error ("Expected ')' at " ++ toString i4)
    else
      let (name, i2) := readNameIdx s i1
      if name.length = 0 then
        .error ("Expected NAME at index " ++ toString i2)
      else .ok (.NAME ⟨name⟩ .one, i2)
termination_by structural fuel _ => fuel

/-- The mixed-model alternatives loop of `parseAtom`: while the next
character is `|`, consume it and read a NAME alternative. -/
def mixedLoopP (s : List Char) : Nat → Nat → List DtdContentModel →
    Except String (List DtdContentModel × Nat)
  | 0, _, _ => .error "content-model parser out of fuel"
  | fuel + 1, i, items =>
    let j := skipWsIdx s i
    if s.get? j = some '|' then
      let (nm, k) := readNameIdx s (j + 1)
      if nm.length = 0 then
        .error ("Expected NAME in mixed model at index " ++ toString k)
      else mixedLoopP s fuel k (items ++ [.NAME ⟨nm⟩ .one])
    else .ok (items, j)
termination_by structural fuel _ _ => fuel

end

/-- `DtdModelParser.parse`: parse a whole content-model string; trailing
input is an error. -/
def parseModelTop (s : List Char) : Except String DtdContentModel := do
  let (node, i) ← parseExprP s (4 * (s.length + 1)) 0
  let i2 := skipWsIdx s i
  if i2 ≠ s.length then
    .error ("Trailing content-model input at " ++ toString i2 ++ ": \"" ++
      String.mk (s.drop i2) ++ "\"")
  else .ok node

/-- `DtdAttrType` from `dtd_index.ts`. -/
inductive DtdAttrType where
  | CDATA
  | ENUM (values : List String)
  | OTHER (name : String)
deriving Repr, DecidableEq

/-- `DtdAttrDefault` from `dtd_index.ts`. -/
inductive DtdAttrDefault where
  | REQUIRED
  | IMPLIED
  | FIXED (value : String)
  | DEFAULT (value : String)
deriving Repr, DecidableEq

/-- `DtdAttributeDecl` from `dtd_index.ts`. -/
structure DtdAttributeDecl where
  name : String
  type : DtdAttrType
  defaultDecl : DtdAttrDefault
deriving Repr, DecidableEq

/-- The `"ANY" | "EMPTY" | DtdContentModel` union of `DtdElement.content`. -/
inductive DtdContent where
  | ANY
  | EMPTY
  | model (m : DtdContentModel)
deriving Repr

/-- The `Set<string> | "ANY" | "EMPTY"` union of `allowedChildren`. -/
inductive DtdAllowed where
  | ANY
  | EMPTY
  | names (ns : List String)
deriving Repr, DecidableEq

/-- `DtdElement` from `dtd_index.ts`. -/
structure DtdElement where
  name : String
  content : DtdContent
  allowedChildren : DtdAllowed
  attrs : List (String × DtdAttributeDecl)
  declaredAttrs : List String
  requiredAttrs : List String
deriving Repr

/-- `DtdIndex` from `dtd_index.ts`. -/
structure DtdIndex where
  elements : List (String × DtdElement)
deriving Repr

/-- `Map.set`: replace in place, or append a new entry (insertion order
is preserved, as for a JavaScript `Map`). -/
def aset {α : Type} : List (String × α) → String → α → List (String × α)
  | [], k, v => [(k, v)]
  | (k', v') :: rest, k, v =>
    if k' = k then (k, v) :: rest else (k', v') :: aset rest k v

/-- `Set.add`: append if absent (insertion order preserved). -/
def sadd (l : List String) (x : String) : List String :=
  if l.contains x then l else l ++ [x]

/-- Fold a list into a JavaScript-`Set`-like dedup list. -/
def dedupKeepFirst (l : List String) : List String :=
  l.foldl sadd []

mutual

/-- `collectNames` from `dtd_index.ts`: all NAME leaves of a model. -/
def collectNames : DtdContentModel → List String → List String
  | .NAME n _, out => sadd out n
  | .PCDATA _, out => out
  | .SEQ items _, out => collectNamesList items out
  | .CHOICE items _, out => collectNamesList items out

/-- `collectNames` over an item list, in order. -/
def collectNamesList : List DtdContentModel → List String → List String
  | [], out => out
  | m :: rest, out => collectNamesList rest (collectNames m out)

end

/-- `deriveAllowedChildren` from `dtd_index.ts`. -/
def deriveAllowedChildren : DtdContent → DtdAllowed
  | .ANY => .ANY
  | .EMPTY => .EMPTY
  | .model m => .names (collectNames m [])

/-- `parseElementModel` from `dtd_index.ts`. -/
def parseElementModel (model : List Char) : Except String DtdContent :=
  let m := jsTrim model
  if m = "ANY".data then .ok .ANY
  else if m = "EMPTY".data then .ok .EMPTY
  else (parseModelTop m).map .model

/-- Word-or-dash characters (`[\w\-]`) of the declaration-name regexes. -/
def isWordDash (c : Char) : Bool :=
  Sanitize.isAsciiDigit c || Sanitize.isAsciiAlpha c || c = '_' || c = '-'

/-- `parseElementDecl` from `dtd_index.ts`: match
`/^ELEMENT\s+([A-Za-z][\w\-]*)\s+([\s\S]+)$/` and return the name and the
trimmed model text.  (When only whitespace follows the name, the source
instead fails later inside the model parser; either way the declaration
is rejected.) -/
def parseElementDecl (inner : List Char) : Except String (String × List Char) :=
  if "ELEMENT".data.isPrefixOf inner then
    let r1 := inner.drop 7
    let ws1 := (r1.takeWhile Sanitize.jsIsSpace).length
    if ws1 = 0 then .error ("Bad ELEMENT decl: " ++ String.mk inner)
    else
      let r2 := r1.drop ws1
      match r2.head? with
      | some c0 =>
        if Sanitize.isAsciiAlpha c0 then
          let name := c0 :: (r2.drop 1).takeWhile isWordDash
          let r3 := r2.drop name.length
          let ws2 := (r3.takeWhile Sanitize.jsIsSpace).length
          let model := r3.drop ws2
          if ws2 = 0 || model.length = 0 then
            .error ("Bad ELEMENT decl: " ++ String.mk inner)
          else .ok (⟨name⟩, jsTrim model)
        else .error ("Bad ELEMENT decl: " ++ String.mk inner)
      | none => .error ("Bad ELEMENT decl: " ++ String.mk inner)
  else .error ("Bad ELEMENT decl: " ++ String.mk inner)

/-- The whitespace class of `tokenizeDtdRhs` (space, LF, CR, TAB only). -/
def dtdIsWs (c : Char) : Bool :=
  c = ' ' || c = '\n' || c = '\r' || c = '\t'

/-- The balanced-parenthesis scan of `tokenizeDtdRhs`: consume through the
matching `)`, returning the token (brackets included) and the rest;
`none` when the input ends unbalanced. -/
def parenScan : Nat → List Char → List Char → Option (List Char × List Char)
  | _, [], _ => none
  | depth, c :: rest, acc =>
    let acc2 := acc ++ [c]
    if c = '(' then parenScan (depth + 1) rest acc2
    else if c = ')' then
      if depth = 1 then some (acc2, rest) else parenScan (depth - 1) rest acc2
    else parenScan depth rest acc2

/-- `tokenizeDtdRhs` from `dtd_index.ts`: quoted strings, balanced
parenthesised groups, and bare tokens. -/
def tokenizeDtdRhs : Nat → List Char → Except String (List (List Char))
  | 0, _ => .ok []
  | fuel + 1, s =>
    let s1 := s.dropWhile dtdIsWs
    match s1 with
    | [] => .ok []
    | c :: rest =>
      if c = '"' || c = Sanitize.squote then
        let body := rest.takeWhile (fun x => x ≠ c)
        if body.length = rest.length then .error "Unterminated string in DTD"
        else do
          let toks ← tokenizeDtdRhs fuel (rest.drop (body.length + 1))
          .ok ((c :: body ++ [c]) :: toks)
      else if c = '(' then
        match parenScan 0 s1 [] with
        | none => .error "Unbalanced parentheses in DTD"
        | some (tok, rest2) => do
          let toks ← tokenizeDtdRhs fuel rest2
          .ok (tok :: toks)
      else
        let bare := s1.takeWhile (fun x => !dtdIsWs x)
        do
          let toks ← tokenizeDtdRhs fuel (s1.drop bare.length)
          .ok (bare :: toks)

/-- `unquote` from `dtd_index.ts`. -/
def unquote (s : List Char) : List Char :=
  let q1 := s.head? = some '"' && s.getLast? = some '"'
  let q2 := s.head? = some Sanitize.squote && s.getLast? = some Sanitize.squote
  if (q1 || q2) && 2 ≤ s.length then (s.drop 1).dropLast else s

/-- Split on a separator character (JavaScript `String#split`). -/
def splitOnChar (sep : Char) : List Char → List (List Char)
  | [] => [[]]
  | c :: rest =>
    let tail := splitOnChar sep rest
    if c = sep then [] :: tail
    else
      match tail with
      | t :: ts => (c :: t) :: ts
      | [] => [[c]]

/-- `parseAttrType` from `dtd_index.ts`. -/
def parseDtdAttrType (tok : List Char) : DtdAttrType :=
  if tok = "CDATA".data then .CDATA
  else if tok.head? = some '(' && tok.getLast? = some ')' && 2 ≤ tok.length then
    let body := jsTrim ((tok.drop 1).dropLast)
    let values := ((splitOnChar '|' body).map jsTrim).filter
      (fun v => v.length ≠ 0)
    .ENUM (dedupKeepFirst (values.map (fun v => (⟨v⟩ : String))))
  else .OTHER ⟨tok⟩

/-- The triple walk of `parseAttlistDecl`: `(name, type, default)` with
`#FIXED` consuming one extra token as its pinned value.  `i` is the
token index already consumed; the incomplete-declaration error reports
the source's post-increment index `i + 3`. -/
def attlistTriples (elementName : String) :
    Nat → Nat → List (List Char) → Except String (List DtdAttributeDecl)
  | 0, _, _ => .ok []
  | fuel + 1, i, toks =>
    match toks with
    | [] => .ok []
    | name :: typeTok :: defTok :: rest =>
      let type := parseDtdAttrType typeTok
      if defTok = "#REQUIRED".data then do
        let others ← attlistTriples elementName fuel (i + 3) rest
        .ok ({ name := ⟨name⟩, type := type, defaultDecl := .REQUIRED } :: others)
      else if defTok = "#IMPLIED".data then do
        let others ← attlistTriples elementName fuel (i + 3) rest
        .ok ({ name := ⟨name⟩, type := type, defaultDecl := .IMPLIED } :: others)
      else if defTok = "#FIXED".data then
        match rest with
        | [] => .error "Expected value after #FIXED"
        | v :: rest2 => do
          let others ← attlistTriples elementName fuel (i + 4) rest2
          .ok ({ name := ⟨name⟩, type := type,
                 defaultDecl := .FIXED ⟨unquote v⟩ } :: others)
      else do
        let others ← attlistTriples elementName fuel (i + 3) rest
        .ok ({ name := ⟨name⟩, type := type,
               defaultDecl := .DEFAULT ⟨unquote defTok⟩ } :: others)
    | _ =>
      .error ("Incomplete ATTLIST for <" ++ elementName ++ "> near token " ++
        toString (i + 3))

/-- `parseAttlistDecl` from `dtd_index.ts`: match
`/^ATTLIST\s+([A-Za-z][\w\-]*)\s+([\s\S]+)$/`, tokenize the right-hand
side and walk its `(name, type, default)` triples. -/
def parseAttlistDecl (inner : List Char) :
    Except String (String × List DtdAttributeDecl) :=
  if "ATTLIST".data.isPrefixOf inner then
    let r1 := inner.drop 7
    let ws1 := (r1.takeWhile Sanitize.jsIsSpace).length
    if ws1 = 0 then .error ("Bad ATTLIST decl: " ++ String.mk inner)
    else
      let r2 := r1.drop ws1
      match r2.head? with
      | some c0 =>
        if Sanitize.isAsciiAlpha c0 then
          let name := c0 :: (r2.drop 1).takeWhile isWordDash
          let r3 := r2.drop name.length
          let ws2 := (r3.takeWhile Sanitize.jsIsSpace).length
          let rhs := r3.drop ws2
          if ws2 = 0 || rhs.length = 0 then
            .error ("Bad ATTLIST decl: " ++ String.mk inner)
          else do
            let toks ← tokenizeDtdRhs (rhs.length + 1) rhs
            let attrs ← attlistTriples ⟨name⟩ (toks.length + 1) 0 toks
            .ok (⟨name⟩, attrs)
        else .error ("Bad ATTLIST decl: " ++ String.mk inner)
      | none => .error ("Bad ATTLIST decl: " ++ String.mk inner)
  else .error ("Bad ATTLIST decl: " ++ String.mk inner)

/-- The quote-aware scan of `extractDeclarations`: offset of the
terminating `>` relative to the scan start (skipping quoted strings),
`none` when the input ends first. -/
def quoteScanLen (quote : Option Char) : List Char → Option Nat
  | [] => none
  | c :: rest =>
    match quote with
    | some q =>
      (quoteScanLen (if c = q then none else some q) rest).map (fun n => n + 1)
    | none =>
      if c = '"' || c = Sanitize.squote then
        (quoteScanLen (some c) rest).map (fun n => n + 1)
      else if c = '>' then some 0
      else (quoteScanLen none rest).map (fun n => n + 1)

/-- `extractDeclarations` from `dtd_index.ts`: collect balanced
`<! ... >` blocks, respecting quotes. -/
def extractDeclarations : Nat → List Char → List (List Char)
  | 0, _ => []
  | fuel + 1, s =>
    match Sanitize.findSubIdx "<!".data s with
    | none => []
    | some st =>
      let rest := s.drop st
      match quoteScanLen none (rest.drop 2) with
      | none => []
      | some off =>
        let j := 2 + off
        rest.take (j + 1) :: extractDeclarations fuel (rest.drop (j + 1))

/-- `stripOuterDecl` from `dtd_index.ts`: `"<!ELEMENT ...>"` →
`"ELEMENT ..."`. -/
def stripOuterDecl (decl : List Char) : List Char :=
  let s := jsTrim decl
  if "<!".data.isPrefixOf s && s.getLast? = some '>' && 3 ≤ s.length then
    jsTrim ((s.drop 2).dropLast)
  else s

/-- Merge one declaration into the element map: the body of
`buildDtdIndex`'s `for (const decl of decls)` loop. -/
def applyDecl (elements : List (String × DtdElement)) (decl : List Char) :
    Except String (List (String × DtdElement)) := do
  let inner := stripOuterDecl decl
  let afterElement ←
    if "ELEMENT ".data.isPrefixOf inner then do
      let (name, modelText) ← parseElementDecl inner
      let content ← parseElementModel modelText
      let allowedChildren := deriveAllowedChildren content
      let base : DtdElement :=
        match alookup elements name with
        | some existing => existing
        | none =>
          { name := name, content := content,
            allowedChildren := allowedChildren, attrs := [],
            declaredAttrs := [], requiredAttrs := [] }
      let base2 :=
        { base with content := content, allowedChildren := allowedChildren }
      pure (aset elements name base2)
    else pure elements
  if "ATTLIST ".data.isPrefixOf inner then do
    let (elementName, attrs) ← parseAttlistDecl inner
    let base : DtdElement :=
      match alookup afterElement elementName with
      | some existing => existing
      | none =>
        { name := elementName, content := .ANY, allowedChildren := .ANY,
          attrs := [], declaredAttrs := [], requiredAttrs := [] }
    let base2 := attrs.foldl
      (fun b a =>
        { b with
          attrs := aset b.attrs a.name a
          declaredAttrs := sadd b.declaredAttrs a.name
          requiredAttrs :=
            if a.defaultDecl = .REQUIRED then sadd b.requiredAttrs a.name
            else b.requiredAttrs })
      base
    pure (aset afterElement elementName base2)
  else pure afterElement

/-- `buildDtdIndex` from `dtd_index.ts`. -/
def buildDtdIndex (dtdText : List Char) : Except String DtdIndex := do
  let decls := extractDeclarations (dtdText.length + 1) dtdText
  let elements ← decls.foldlM applyDecl []
  .ok { elements := elements }

end Dtd

/-- A generic `xast` node as consumed by the validators: elements with
qualified name, attribute map (insertion-ordered) and ordered children,
plus text and comment nodes. -/
inductive XNode where
  | element (name : String) (attributes : List (String × String))
      (children : List XNode)
  | text (value : String)
  | comment (value : String)
deriving Repr

/-- `c.type === "element"`. -/
def XNode.isElement : XNode → Bool
  | .element _ _ _ => true
  | _ => false

/-- The qualified name of an element node (unused default for others). -/
def XNode.qnameOf : XNode → String
  | .element n _ _ => n
  | _ => ""

/-- `localName` from `xast_xml.ts`, on `String`. -/
def localNameStr (q : String) : String :=
  ⟨Sanitize.localNameL q.data⟩

/-- `childElements` from the validators: the element children, in order. -/
def childElementsOf (children : List XNode) : List XNode :=
  children.filter XNode.isElement

/-- `nonWhitespaceText` from the validators: the first text child whose
value does not trim to the empty string. -/
def nonWhitespaceText (children : List XNode) : Option String :=
  children.findSome? (fun c =>
    match c with
    | .text v => if Dtd.jsTrim v.data ≠ [] then some v else none
    | _ => none)

/-- A `(path, message)` validation error. -/
structure ValidationError where
  path : String
  msg : String
deriving Repr, DecidableEq

/-- `["xmlns", "xml:", "xsi:"]`: attribute names with these prefixes are
always ignored by both validators. -/
def IGNORE_ATTR_LIST : List String := ["xmlns", "xml:", "xsi:"]

/-- Does an attribute name start with one of the ignored markers? -/
def isIgnoredAttr (a : String) : Bool :=
  IGNORE_ATTR_LIST.any (fun p => p.data.isPrefixOf a.data)

/-- `join` with a separator (JavaScript `Array#join`). -/
def joinSep (sep : String) : List String → String
  | [] => ""
  | [x] => x
  | x :: rest => x ++ sep ++ joinSep sep rest

namespace Dtd

/-- `applyOccurs` from `dtd_validator.ts` (formatting). -/
def applyOccursFmt (s : String) : DtdOccurs → String
  | .one => s
  | .opt => s ++ "?"
  | .star => s ++ "*"
  | .plus => s ++ "+"

mutual

/-- `formatDtdModel` from `dtd_validator.ts`. -/
def formatDtdModel : DtdContentModel → String
  | .NAME n o => applyOccursFmt n o
  | .PCDATA o => applyOccursFmt "(#PCDATA)" o
  | .SEQ items o => applyOccursFmt ("(" ++ formatDtdModelList "," items ++ ")") o
  | .CHOICE items o =>
    applyOccursFmt ("(" ++ formatDtdModelList "|" items ++ ")") o

/-- `items.map(formatDtdModel).join(sep)`. -/
def formatDtdModelList (sep : String) : List DtdContentModel → String
  | [] => ""
  | [m] => formatDtdModel m
  | m :: rest => formatDtdModel m ++ sep ++ formatDtdModelList sep rest

end

/-- `isPcdataOnly` from `dtd_validator.ts`. -/
def isPcdataOnly : DtdContentModel → Bool
  | .PCDATA _ => true
  | _ => false

/-- The item scan of `getMixedAllowedNames`: PCDATA at occurs 1 sets the
flag, NAME at occurs 1 adds to the set, anything else disqualifies. -/
def mixedScan : List DtdContentModel → Bool → List String →
    Option (Bool × List String)
  | [], hasPcdata, names => some (hasPcdata, names)
  | it :: rest, hasPcdata, names =>
    match it with
    | .PCDATA .one => mixedScan rest true names
    | .NAME n .one => mixedScan rest hasPcdata (sadd names n)
    | _ => none

/-- `getMixedAllowedNames` from `dtd_validator.ts`: detect the classic
mixed model `(#PCDATA|a|b|c)*` and return its allowed names. -/
def getMixedAllowedNames : DtdContentModel → Option (List String)
  | .CHOICE items .star =>
    match mixedScan items false [] with
    | some (true, names) => some names
    | _ => none
  | _ => none

/-- `validateAttrValue` from `dtd_validator.ts`: enumeration membership
and `#FIXED` value checks. -/
def validateAttrValue (decl : DtdAttributeDecl) (value : String)
    (here : String) : List ValidationError :=
  (match decl.type with
   | .ENUM values =>
     if values.contains value then []
     else
       [{ path := here,
          msg := "Attribute \"" ++ decl.name ++ "\" must be one of (" ++
            joinSep "|" values ++ "), got \"" ++ value ++ "\"" }]
   | _ => []) ++
  (match decl.defaultDecl with
   | .FIXED v =>
     if value ≠ v then
       [{ path := here,
          msg := "Attribute \"" ++ decl.name ++ "\" is #FIXED to \"" ++ v ++
            "\", got \"" ++ value ++ "\"" }]
     else []
   | _ => [])

/-- `validateAttrs` from `dtd_validator.ts`: unknown attributes, value
constraints, then missing required attributes. -/
def validateAttrsDtd (attrsObj : List (String × String)) (def_ : DtdElement)
    (here : String) : List ValidationError :=
  (attrsObj.flatMap (fun av =>
    if isIgnoredAttr av.1 then []
    else
      match alookup def_.attrs av.1 with
      | none =>
        [{ path := here,
           msg := "Unknown attribute \"" ++ av.1 ++ "\" on <" ++
             def_.name ++ ">" }]
      | some decl => validateAttrValue decl av.2 here)) ++
  (def_.requiredAttrs.flatMap (fun req =>
    if (attrsObj.map Prod.fst).contains req then []
    else
      [{ path := here,
         msg := "Missing required attribute \"" ++ req ++ "\" on <" ++
           def_.name ++ ">" }]))

/-- `validateChildren` from `dtd_validator.ts`. -/
def validateChildrenDtd (def_ : DtdElement) (here : String)
    (children : List XNode) : List ValidationError :=
  let kidNames := (childElementsOf children).map
    (fun k => localNameStr k.qnameOf)
  let nonWsText := nonWhitespaceText children
  match def_.content with
  | .EMPTY =>
    (if kidNames.length ≠ 0 then
       [{ path := here,
          msg := "<" ++ def_.name ++ "> must be EMPTY (no child elements)" }]
     else []) ++
    (if nonWsText.isSome then
       [{ path := here,
          msg := "<" ++ def_.name ++ "> must be EMPTY (no character data)" }]
     else [])
  | .ANY => []
  | .model model =>
    if isPcdataOnly model then
      if kidNames.length ≠ 0 then
        [{ path := here,
           msg := "<" ++ def_.name ++
             "> allows only #PCDATA (no child elements)" }]
      else []
    else
      match getMixedAllowedNames model with
      | some mixed =>
        kidNames.flatMap (fun childName =>
          if mixed.contains childName then []
          else
            [{ path := here ++ "/" ++ childName,
               msg := "Child <" ++ childName ++
                 "> not allowed in mixed content of <" ++ def_.name ++ ">" }])
      | none =>
        (if nonWsText.isSome then
           [{ path := here,
              msg := "<" ++ def_.name ++ "> does not allow character data" }]
         else []) ++
        (if matchesDtdModel model kidNames then []
         else
           [{ path := here,
              msg := "Child elements do not match DTD content model: expected "
                ++ formatDtdModel model ++ ", got (" ++
                joinSep ", " kidNames ++ ")" }])

mutual

/-- `walk` from `dtd_validator.ts`: root-name check, declaration lookup,
attribute and child checks, then recursion into element children (also
past an undeclared element, to surface more errors). -/
def walkDtd (dtd : DtdIndex) (expectedRoot : String) :
    XNode → String → List ValidationError
  | .element qname attrs children, path =>
    let name := localNameStr qname
    let here := if path = "" then "/" ++ name else path ++ "/" ++ name
    let rootErrs :=
      if path = "" && name ≠ expectedRoot then
        [{ path := here, msg := "Root must be <" ++ expectedRoot ++ ">" }]
      else []
    let defErrs :=
      match alookup dtd.elements name with
      | none =>
        [{ path := here,
           msg := "Element <" ++ name ++ "> not declared in DTD" }]
      | some def_ =>
        validateAttrsDtd attrs def_ here ++
          validateChildrenDtd def_ here children
    rootErrs ++ defErrs ++ walkDtdList dtd expectedRoot children here
  | _, _ => []

/-- The `for (const k of childElements(el))` recursion of `walk`. -/
def walkDtdList (dtd : DtdIndex) (expectedRoot : String) :
    List XNode → String → List ValidationError
  | [], _ => []
  | c :: rest, here =>
    (match c with
     | .element _ _ _ => walkDtd dtd expectedRoot c here
     | _ => []) ++ walkDtdList dtd expectedRoot rest here

end

/-- `validateAgainstDtd` from `dtd_validator.ts`: collect every error in
one walk; raise one aggregated error (one `- path: msg` line each), or
return unit when there are none. -/
def validateAgainstDtd (root : XNode) (expectedRoot : String)
    (dtd : DtdIndex) : Except String Unit :=
  let errors := walkDtd dtd expectedRoot root ""
  if errors.length = 0 then .ok ()
  else
    .error ("DTD validation failed:\n" ++
      joinSep "\n" (errors.map (fun e => "- " ++ e.path ++ ": " ++ e.msg)))

end Dtd

namespace Xsd

/-- `COMPAT_ATTR_ALLOWLIST` from `xsd_validator.ts`. -/
def COMPAT_ATTR_ALLOWLIST : List (String × List String) :=
  [("topics", ["web-path"]), ("a", ["type", "target"])]

/-- `isCompatAttrAllowed` from `xsd_validator.ts`. -/
def isCompatAttrAllowed (elName attrName : String) : Bool :=
  match alookup COMPAT_ATTR_ALLOWLIST elName with
  | some set => set.contains attrName
  | none => false

/-- `formatOccurs` from `xsd_validator.ts`. -/
def formatOccurs (o : Occurs) : String :=
  let maxs := match o.max with | none => "∞" | some m => toString m
  if o.min = 1 && o.max = some 1 then ""
  else "\x7b" ++ toString o.min ++ ".." ++ maxs ++ "\x7d"

mutual

/-- `formatParticle` from `xsd_validator.ts`. -/
def formatParticle : XsdParticle → String
  | .empty o => "∅" ++ formatOccurs o
  | .any o => "<any>" ++ formatOccurs o
  | .element n o => "<" ++ n ++ ">" ++ formatOccurs o
  | .groupRef r o => "group(" ++ r ++ ")" ++ formatOccurs o
  | .sequence items o =>
    "seq(" ++ formatParticleList ", " items ++ ")" ++ formatOccurs o
  | .choice items o =>
    "choice(" ++ formatParticleList " | " items ++ ")" ++ formatOccurs o
  | .all items o =>
    "all(" ++ formatParticleList ", " items ++ ")" ++ formatOccurs o

/-- `items.map(formatParticle).join(sep)`. -/
def formatParticleList (sep : String) : List XsdParticle → String
  | [] => ""
  | [p] => formatParticle p
  | p :: rest => formatParticle p ++ sep ++ formatParticleList sep rest

end

/-- `resolveElementDef` from `xsd_validator.ts`: a substitution-group
member validates against its head's definition when the head is
declared. -/
def resolveElementDef (name : String) (xsd : XsdIndex) :
    Option XsdElementDef :=
  match alookup xsd.elements name with
  | none => none
  | some def_ =>
    match alookup xsd.substitutionGroupFor name with
    | none => some def_
    | some head =>
      match alookup xsd.elements head with
      | some headDef => some headDef
      | none => some def_

/-- `validateAttrs` from `xsd_validator.ts`: unknown attributes (unless
`anyAttribute` or the compat allow-list applies), missing required
attributes, then fixed/enumeration checks. -/
def validateAttrsXsd (attrsObj : List (String × String))
    (elementName : String) (def_ : XsdElementDef) (here : String) :
    List ValidationError :=
  let present := attrsObj.filter (fun av => !isIgnoredAttr av.1)
  (if def_.allowAnyAttribute then []
   else
     present.flatMap (fun av =>
       if (def_.attributes.map Prod.fst).contains av.1 ||
           isCompatAttrAllowed elementName av.1 then []
       else
         [{ path := here,
            msg := "Unknown attribute \"" ++ av.1 ++ "\" on <" ++
              elementName ++ ">" }])) ++
  (def_.attributes.flatMap (fun ad =>
    if ad.2.use = "required" && !(attrsObj.map Prod.fst).contains ad.1 then
      [{ path := here,
         msg := "Missing required attribute \"" ++ ad.1 ++ "\" on <" ++
           elementName ++ ">" }]
    else [])) ++
  (present.flatMap (fun av =>
    match alookup def_.attributes av.1 with
    | none => []
    | some decl =>
      (match decl.fixed with
       | some f =>
         if av.2 ≠ f then
           [{ path := here,
              msg := "Attribute \"" ++ av.1 ++ "\" is fixed to \"" ++ f ++
                "\", got \"" ++ av.2 ++ "\"" }]
         else []
       | none => []) ++
      (match decl.enum with
       | some vals =>
         if vals.contains av.2 then []
         else
           [{ path := here,
              msg := "Attribute \"" ++ av.1 ++ "\" must be one of (" ++
                joinSep "|" vals ++ "), got \"" ++ av.2 ++ "\"" }]
       | none => [])))

/-- `validateChildren` from `xsd_validator.ts`: character-data check, then
the child-acceptance decision (`childrenOkX`), with one aggregated
content-model error message on failure. -/
def validateChildrenXsd (fuel : Nat) (xsd : XsdIndex) (elementName : String)
    (def_ : XsdElementDef) (here : String) (children : List XNode) :
    List ValidationError :=
  let kidNames := (childElementsOf children).map
    (fun k => localNameStr k.qnameOf)
  let nonWsText := nonWhitespaceText children
  (if nonWsText.isSome && !def_.mixed then
     [{ path := here,
        msg := "<" ++ elementName ++ "> does not allow character data" }]
   else []) ++
  (if childrenOkX fuel xsd elementName def_ kidNames then []
   else
     [{ path := here,
        msg := "Child elements do not match XSD model: expected " ++
          formatParticle def_.content ++ ", got (" ++
          joinSep ", " kidNames ++ ")" }])

mutual

/-- `walk` from `xsd_validator.ts`. -/
def walkXsd (fuel : Nat) (xsd : XsdIndex) (expectedRoot : String) :
    XNode → String → List ValidationError
  | .element qname attrs children, path =>
    let name := localNameStr qname
    let here := if path = "" then "/" ++ name else path ++ "/" ++ name
    let rootErrs :=
      if path = "" && name ≠ expectedRoot then
        [{ path := here, msg := "Root must be <" ++ expectedRoot ++ ">" }]
      else []
    let defErrs :=
      match resolveElementDef name xsd with
      | none =>
        [{ path := here,
           msg := "Element <" ++ name ++ "> not declared in XSD" }]
      | some def_ =>
        validateAttrsXsd attrs name def_ here ++
          validateChildrenXsd fuel xsd name def_ here children
    rootErrs ++ defErrs ++ walkXsdList fuel xsd expectedRoot children here
  | _, _ => []

/-- The child recursion of the XSD `walk`. -/
def walkXsdList (fuel : Nat) (xsd : XsdIndex) (expectedRoot : String) :
    List XNode → String → List ValidationError
  | [], _ => []
  | c :: rest, here =>
    (match c with
     | .element _ _ _ => walkXsd fuel xsd expectedRoot c here
     | _ => []) ++ walkXsdList fuel xsd expectedRoot rest here

end

/-- `validateAgainstXsd` from `xsd_validator.ts`: collect every error in
one walk; raise one aggregated error (one `- path: msg` line each), or
return unit when there are none.  `fuel` bounds particle recursion as in
`matchesParticle`. -/
def validateAgainstXsd (fuel : Nat) (root : XNode) (expectedRoot : String)
    (xsd : XsdIndex) : Except String Unit :=
  let errors := walkXsd fuel xsd expectedRoot root ""
  if errors.length = 0 then .ok ()
  else
    .error ("XSD validation failed:\n" ++
      joinSep "\n" (errors.map (fun e => "- " ++ e.path ++ ": " ++ e.msg)))

/-- `attr(e, k)` from `xsd_index.ts`: attribute lookup on an element. -/
def attrOf (attrs : List (String × String)) (k : String) : Option String :=
  alookup attrs k

/-- `extractAttributeEnum` from `xsd_index.ts`:
`xs:attribute → xs:simpleType → xs:restriction → xs:enumeration@value`
(absent or empty results are `none`). -/
def extractAttributeEnum (attrEl : XNode) : Option (List String) :=
  match attrEl with
  | .element _ _ children =>
    let findChild := fun (kids : List XNode) (nm : String) =>
      kids.find? (fun c =>
        match c with
        | .element q _ _ => localNameStr q = nm
        | _ => false)
    match findChild children "simpleType" with
    | some (.element _ _ stKids) =>
      match findChild stKids "restriction" with
      | some (.element _ _ rKids) =>
        let enums := rKids.filter (fun c =>
          match c with
          | .element q _ _ => localNameStr q = "enumeration"
          | _ => false)
        if enums.length = 0 then none
        else
          let values := enums.filterMap (fun e =>
            match e with
            | .element _ eAttrs _ =>
              match attrOf eAttrs "value" with
              | some v => if v.length ≠ 0 then some v else none
              | none => none
            | _ => none)
          if values.length ≠ 0 then some values else none
      | _ => none
    | _ => none
  | _ => none

/-- `parseAttributeDef` from `xsd_index.ts`: local `use` (defaulting to
`"optional"`), local `fixed`, local enumeration; a `ref=` to a global
attribute keeps the local `use` but inherits the base's `fixed`/`enum`
unless locally overridden. -/
def parseAttributeDef (attrEl : XNode)
    (globalAttributes : List (String × XsdAttrDef)) : XsdAttrDef :=
  let attrs := match attrEl with | .element _ a _ => a | _ => []
  let use := (attrOf attrs "use").getD "optional"
  let fixed := attrOf attrs "fixed"
  let enumVals := extractAttributeEnum attrEl
  match attrOf attrs "ref" with
  | some ref =>
    let base := alookup globalAttributes (localNameStr ref)
    { use := use
      fixed := match fixed with
               | some f => some f
               | none => base.bind (fun b => b.fixed)
      enum := match enumVals with
              | some e => some e
              | none => base.bind (fun b => b.enum) }
  | none => { use := use, fixed := fixed, enum := enumVals }

end Xsd

section ClaimInstances

/-- The content model `(a,b*,c?)` of the spec's model-matching example. -/
def abcModel : Dtd.DtdContentModel :=
  .SEQ [.NAME "a" .one, .NAME "b" .star, .NAME "c" .opt] .one

/-- The particle `all(element a {1,1}, element b {0,1})` (the group itself
occurring `{1,1}`) of the spec's `xs:all` example. -/
def allABModel : Xsd.XsdParticle :=
  .all [.element "a" ⟨1, some 1⟩, .element "b" ⟨0, some 1⟩] ⟨1, some 1⟩

/-- An index with no declarations, for matcher examples that need none. -/
def emptyXsdIndex : Xsd.XsdIndex := { elements := [] }

/-- An element definition whose content model is a single `element a`
particle, used to exercise the `include`-filtering compatibility path. -/
def includeDemoDef : Xsd.XsdElementDef :=
  { name := "foo"
    content := .element "a" ⟨1, some 1⟩
    attributes := []
    mixed := false
    allowAnyAttribute := false
    allowedChildren := .names ["a"] }

end ClaimInstances

/-- Number of `- `-prefixed lines of an error message. -/
def countDashLines (msg : String) : Nat :=
  ((Dtd.splitOnChar '\n' msg.data).filter
    (fun l => "- ".data.isPrefixOf l)).length

/-- One rendered violation line, as both validators produce them. -/
def renderErrLine (e : ValidationError) : String :=
  "- " ++ e.path ++ ": " ++ e.msg

/-- A DTD index for the two-violation example: `r` holds one `a`, `a`
holds one `c`, `c` is EMPTY; no attributes are declared. -/
def dtdC6 : Dtd.DtdIndex :=
  { elements :=
      [("r", { name := "r", content := .model (.NAME "a" .one),
               allowedChildren := .names ["a"], attrs := [],
               declaredAttrs := [], requiredAttrs := [] }),
       ("a", { name := "a", content := .model (.NAME "c" .one),
               allowedChildren := .names ["c"], attrs := [],
               declaredAttrs := [], requiredAttrs := [] }),
       ("c", { name := "c", content := .EMPTY, allowedChildren := .EMPTY,
               attrs := [], declaredAttrs := [], requiredAttrs := [] })] }

/-- `<r foo="x"><a/></r>`: an undeclared attribute on the root and a
content-model mismatch at the child — two independent violations. -/
def docC6 : XNode := .element "r" [("foo", "x")] [.element "a" [] []]

/-- An XSD index for the two-violation example: `r` holds one `a`, `a`
holds one `b`; no attributes are declared. -/
def xsdC6 : Xsd.XsdIndex :=
  { elements :=
      [("r", { name := "r", content := .element "a" ⟨1, some 1⟩,
               attributes := [], mixed := false, allowAnyAttribute := false,
               allowedChildren := .names ["a"] }),
       ("a", { name := "a", content := .element "b" ⟨1, some 1⟩,
               attributes := [], mixed := false, allowAnyAttribute := false,
               allowedChildren := .names ["b"] })] }

deriving instance DecidableEq for Except

/-- C1: for the DTD content model `(a,b*,c?)`, the memoized position-set
matcher accepts `["a"]` and `["a","b","b","c"]` and rejects `["b","a"]`
and `["a","c","b"]`; and in general a child sequence is accepted iff the
full children length is among the end positions reachable from position
0 under the content model. -/
theorem C1_dtd_model_matching :
    (Dtd.matchesDtdModel abcModel ["a"] = true ∧
      Dtd.matchesDtdModel abcModel ["a", "b", "b", "c"] = true ∧
      Dtd.matchesDtdModel abcModel ["b", "a"] = false ∧
      Dtd.matchesDtdModel abcModel ["a", "c", "b"] = false) ∧
    (∀ (model : Dtd.DtdContentModel) (children : List String),
      Dtd.matchesDtdModel model children = true ↔
        children.length ∈ Dtd.matchM children (Dtd.dtdSize model) model 0) := by
  refine ⟨⟨by decide, by decide, by decide, by decide⟩, ?_⟩
  intro model children
  simp [Dtd.matchesDtdModel]

/-- C3: a child name satisfies an `element` particle iff it equals the
expected name or is a recorded substitution-group member of it; in
particular, whenever `y` is recorded as a member of the group headed by
`x`, an `element x` particle is satisfied at any position holding a
child named `y`. -/
theorem C3_substitution_groups :
    (∀ (xsd : Xsd.XsdIndex) (expected actual : String),
        Xsd.matchesElementName expected actual xsd = true ↔
          (expected = actual ∨
            actual ∈ (alookup xsd.substitutionGroups expected).getD [])) ∧
    (∀ (xsd : Xsd.XsdIndex) (x y : String) (cs : List String)
        (pos fuel : Nat) (occ : Xsd.Occurs) (h1 : pos < cs.length),
        cs.get ⟨pos, h1⟩ = y →
        y ∈ (alookup xsd.substitutionGroups x).getD [] →
        Xsd.matchOnceX xsd cs (fuel + 1) (.element x occ) pos = {pos + 1}) := by
  have hiff : ∀ (xsd : Xsd.XsdIndex) (expected actual : String),
      Xsd.matchesElementName expected actual xsd = true ↔
        (expected = actual ∨
          actual ∈ (alookup xsd.substitutionGroups expected).getD []) := by
    intro xsd e a
    unfold Xsd.matchesElementName
    by_cases h : e = a
    · simp [h]
    · simp only [if_neg h]
      cases halk : alookup xsd.substitutionGroups e with
      | none => simp [h]
      | some subs => simp [h, List.elem_iff]
  refine ⟨hiff, ?_⟩
  intro xsd x y cs pos fuel occ h1 h2 h3
  have hm : Xsd.matchesElementName x y xsd = true :=
    (hiff xsd x y).mpr (Or.inr h3)
  have h2g : cs[pos] = y := by simpa using h2
  simp [Xsd.matchOnceX, h1, h2g, hm]

/-- C3 witness: in an index recording `y` in the substitution group
headed by `x`, an `element x` particle matches the child list `["y"]`
at position 0. -/
theorem C3_substitution_groups_witness :
    Xsd.matchOnceX
      { elements := [], substitutionGroups := [("x", ["y"])] }
      ["y"] 1 (.element "x" ⟨1, some 1⟩) 0 = {1} := by
  refine C3_substitution_groups.2
    { elements := [], substitutionGroups := [("x", ["y"])] }
    "x" "y" ["y"] 0 0 ⟨1, some 1⟩ (by decide) (by decide) (by decide)

/-- C9: at every validated element (whatever its name), the XSD
validator's child-acceptance decision returns true whenever the child
sequence with every `include` child removed matches the element's
particle; concretely, `["a", "include"]` fails the strict match against
`element a` yet is accepted. -/
theorem C9_include_children_ignorable :
    (∀ (fuel : Nat) (xsd : Xsd.XsdIndex) (elementName : String)
        (def_ : Xsd.XsdElementDef) (kidNames : List String),
        Xsd.matchesParticle fuel def_.content
            (Xsd.filterCompatChildren kidNames) xsd = true →
        Xsd.childrenOkX fuel xsd elementName def_ kidNames = true) ∧
    (Xsd.matchesParticle 1 includeDemoDef.content ["a", "include"]
        emptyXsdIndex = false ∧
      Xsd.childrenOkX 1 emptyXsdIndex "foo" includeDemoDef ["a", "include"] =
        true) := by
  refine ⟨?_, by decide, by decide⟩
  intro fuel xsd elementName def_ kidNames h
  unfold Xsd.childrenOkX
  by_cases hc : Xsd.filterCompatChildren kidNames = kidNames
  · rw [hc] at h
    simp [h]
  · simp [h, hc]

/-- C9 witness: instantiating the general statement at the concrete
`include` example. -/
theorem C9_include_children_ignorable_witness :
    Xsd.childrenOkX 1 emptyXsdIndex "foo" includeDemoDef ["a", "include"] =
      true :=
  C9_include_children_ignorable.1 1 emptyXsdIndex "foo" includeDemoDef
    ["a", "include"] (by decide)

/-- C10: an attribute reference (`ref=`) to a global attribute keeps the
locally-derived `use` — `"optional"` when no local `use` is given, even
if the referenced global declares `use="required"` — while inheriting
the global's `fixed` value and enumeration unless locally overridden. -/
theorem C10_attr_ref_use_not_inherited :
    ∀ (qname : String) (attrs : List (String × String))
      (children : List XNode) (globals : List (String × Xsd.XsdAttrDef))
      (ref : String) (base : Xsd.XsdAttrDef),
      Xsd.attrOf attrs "ref" = some ref →
      Xsd.attrOf attrs "use" = none →
      alookup globals (localNameStr ref) = some base →
      Xsd.parseAttributeDef (.element qname attrs children) globals =
        { use := "optional"
          fixed :=
            match Xsd.attrOf attrs "fixed" with
            | some f => some f
            | none => base.fixed
          enum :=
            match Xsd.extractAttributeEnum (.element qname attrs children) with
            | some e => some e
            | none => base.enum } := by
  intro qn attrs children globals ref base href huse hbase
  unfold Xsd.parseAttributeDef
  simp [href, huse, hbase]

/-- C10 witness: a bare `<xs:attribute ref="g"/>` referencing a global
attribute declared `use="required"` with a fixed value and an
enumeration is recorded as `optional`, inheriting `fixed` and `enum`. -/
theorem C10_attr_ref_use_not_inherited_witness :
    Xsd.parseAttributeDef (.element "attribute" [("ref", "g")] [])
        [("g", { use := "required", fixed := some "v", enum := some ["v"] })] =
      { use := "optional", fixed := some "v", enum := some ["v"] } := by
  have h := C10_attr_ref_use_not_inherited "attribute" [("ref", "g")] []
    [("g", { use := "required", fixed := some "v", enum := some ["v"] })]
    "g" { use := "required", fixed := some "v", enum := some ["v"] }
    (by decide) (by decide) (by decide)
  simpa using h

/-- Counting helper: in a list over the alphabet `{a, b}`, the two counts
add up to the length. -/
theorem count_a_add_count_b (cs : List String)
    (h : ∀ x ∈ cs, x = "a" ∨ x = "b") :
    cs.count "a" + cs.count "b" = cs.length := by
  induction cs with
  | nil => simp
  | cons x rest ih =>
    have hr : ∀ z ∈ rest, z = "a" ∨ z = "b" := fun z hz => h z (by simp [hz])
    have H := ih hr
    rcases h x (by simp) with rfl | rfl <;> simp [List.count_cons] <;> omega

/-- The lists over `{a, b}` with exactly one `a` and at most one `b` are
exactly `["a"]`, `["b","a"]` and `["a","b"]`. -/
theorem ab_lists (cs : List String) :
    ((∀ x ∈ cs, x = "a" ∨ x = "b") ∧ cs.count "a" = 1 ∧ cs.count "b" ≤ 1) ↔
      (cs = ["a"] ∨ cs = ["b", "a"] ∨ cs = ["a", "b"]) := by
  constructor
  · rintro ⟨hall, ha, hb⟩
    have hlen := count_a_add_count_b cs hall
    rcases cs with _ | ⟨x, _ | ⟨y, _ | ⟨z, rest⟩⟩⟩
    · simp at ha
    · rcases hall x (by simp) with rfl | rfl
      · simp
      · simp [List.count_cons] at ha
    · rcases hall x (by simp) with rfl | rfl <;>
        rcases hall y (by simp) with rfl | rfl
      · simp [List.count_cons] at ha
      · simp
      · simp
      · simp [List.count_cons] at ha
    · exfalso
      simp only [List.length_cons] at hlen
      omega
  · rintro (rfl | rfl | rfl) <;> exact ⟨by decide, by decide, by decide⟩

/-- `allSatisfied` at the `(a {1,1}, b {0,1})` item list, characterised by
name membership and occurrence counts. -/
theorem allSat_ab_iff (cs : List String) :
    Xsd.allSatisfied
        [.element "a" ⟨1, some 1⟩, .element "b" ⟨0, some 1⟩] cs = true ↔
      ((∀ x ∈ cs, x = "a" ∨ x = "b") ∧ cs.count "a" = 1 ∧
        cs.count "b" ≤ 1) := by
  simp [Xsd.allSatisfied, List.all_eq_true]
  constructor
  · rintro ⟨h1, ⟨hmem, hle⟩, hb⟩
    refine ⟨fun x hx => (h1 x hx).imp Eq.symm Eq.symm, ?_, hb⟩
    have h2 : 0 < List.count "a" cs := List.count_pos_iff.mpr hmem
    omega
  · rintro ⟨h1, ha, hb⟩
    refine ⟨fun x hx => (h1 x hx).imp Eq.symm Eq.symm, ⟨?_, by omega⟩, hb⟩
    exact List.count_pos_iff.mp (by omega)

/-- The particle matcher at an `xs:all` group with occurs `{1,1}` accepts
exactly the child sequences whose full multiset satisfies every item:
one required occurrence, no optional extras, and the `all` once-matcher
enumerating satisfied prefix lengths. -/
theorem matchesParticle_all_one (fuel : Nat) (xsd : Xsd.XsdIndex)
    (items : List Xsd.XsdParticle) (cs : List String) :
    Xsd.matchesParticle (fuel + 1) (.all items ⟨1, some 1⟩) cs xsd =
      Xsd.allSatisfied items cs := by
  have honce :
      Xsd.matchOnceX xsd cs (fuel + 1) (.all items ⟨1, some 1⟩) 0 =
        (((List.range (cs.length + 1)).filter
            (fun k => Xsd.allSatisfied items (cs.take k))).map
          (fun k => 0 + k)).toFinset := by
    simp [Xsd.matchOnceX]
  have hmemE : cs.length ∈
      Xsd.matchOnceX xsd cs (fuel + 1) (.all items ⟨1, some 1⟩) 0 ↔
        Xsd.allSatisfied items cs = true := by
    rw [honce]
    simp only [List.mem_toFinset, List.mem_map, List.mem_filter,
      List.mem_range, Nat.zero_add]
    constructor
    · rintro ⟨k, ⟨hk, hsat⟩, rfl⟩
      simpa [List.take_length] using hsat
    · intro h
      exact ⟨cs.length, ⟨by omega, by simpa [List.take_length] using h⟩, rfl⟩
  have hmatch :
      Xsd.matchX xsd cs (fuel + 1) (.all items ⟨1, some 1⟩) 0 =
        Xsd.matchOnceX xsd cs (fuel + 1) (.all items ⟨1, some 1⟩) 0 := by
    simp only [Xsd.matchX, Xsd.applyOccursLoopsX, Xsd.XsdParticle.occursOf,
      requiredSteps, extraSteps, Finset.singleton_biUnion]
    split
    · next hz => simp [hz]
    · rfl
  cases hAS : Xsd.allSatisfied items cs with
  | false =>
    have : ¬ (cs.length ∈ Xsd.matchX xsd cs (fuel + 1)
        (.all items ⟨1, some 1⟩) 0) := by
      rw [hmatch]
      simp [hmemE, hAS]
    simpa [Xsd.matchesParticle] using this
  | true =>
    have : cs.length ∈ Xsd.matchX xsd cs (fuel + 1)
        (.all items ⟨1, some 1⟩) 0 := by
      rw [hmatch]
      exact hmemE.mpr hAS
    simpa [Xsd.matchesParticle] using this

/-- C2: the XSD particle matcher at
`all(element a {1,1}, element b {0,1})` (the group itself occurring
`{1,1}`) accepts exactly `["a"]`, `["b","a"]` and `["a","b"]`, and in
particular rejects `["a","a"]` and `["c"]`: any order, but each item's
occurrence bounds must hold and no outside name is allowed. -/
theorem C2_xsd_all_matching :
    (∀ (fuel : Nat) (xsd : Xsd.XsdIndex) (cs : List String),
        Xsd.matchesParticle (fuel + 1) allABModel cs xsd = true ↔
          (cs = ["a"] ∨ cs = ["b", "a"] ∨ cs = ["a", "b"])) ∧
    (Xsd.matchesParticle 1 allABModel ["a"] emptyXsdIndex = true ∧
      Xsd.matchesParticle 1 allABModel ["b", "a"] emptyXsdIndex = true ∧
      Xsd.matchesParticle 1 allABModel ["a", "b"] emptyXsdIndex = true ∧
      Xsd.matchesParticle 1 allABModel ["a", "a"] emptyXsdIndex = false ∧
      Xsd.matchesParticle 1 allABModel ["c"] emptyXsdIndex = false) := by
  refine ⟨?_, by decide, by decide, by decide, by decide, by decide⟩
  intro fuel xsd cs
  rw [show allABModel = Xsd.XsdParticle.all
      [.element "a" ⟨1, some 1⟩, .element "b" ⟨0, some 1⟩] ⟨1, some 1⟩
    from rfl]
  rw [matchesParticle_all_one]
  exact (allSat_ab_iff cs).trans (ab_lists cs)

/-- C4: with the default configuration (rich container `documentation`,
default allow-lists, `escapeUnknownTagMentionsInText` on), the sanitizer
escapes `<unknown>` and `</unknown>` to literal text, passes `<b>` and
`</b>` through unchanged, and preserves the container tags verbatim. -/
theorem C4_sanitizer_container_policy :
    Sanitize.preSanitize {}
        "<documentation>Hello <b>world</b> <unknown>x</unknown></documentation>".data =
      .ok
        "<documentation>Hello <b>world</b> &lt;unknown&gt;x&lt;/unknown&gt;</documentation>".data := by
  decide

open Dtd in
lemma parseExprLoopP_succ (s : List Char) (fuel i : Nat)
    (left : DtdContentModel) (acc : List DtdContentModel)
    (mode : Option ExprMode) :
    parseExprLoopP s (fuel + 1) i left acc mode =
      (match s.get? (skipWsIdx s i) with
       | some op =>
         if op = '|' || op = ',' then
           let nextMode : ExprMode := if op = '|' then .CHOICE else .SEQ
           match mode with
           | some m =>
             if m ≠ nextMode then
               .error ("Mixed '|' and ',' without parentheses near index " ++
                 toString (skipWsIdx s i))
             else do
               let (right, k) ← parseTermP s fuel (skipWsIdx s i + 1)
               parseExprLoopP s fuel k left (acc ++ [right]) (some nextMode)
           | none => do
             let (right, k) ← parseTermP s fuel (skipWsIdx s i + 1)
             parseExprLoopP s fuel k left (acc ++ [right]) (some nextMode)
         else
           match mode with
           | none => .ok (left, skipWsIdx s i)
           | some .CHOICE =>
             .ok (.CHOICE (left :: acc) .one, skipWsIdx s i)
           | some .SEQ => .ok (.SEQ (left :: acc) .one, skipWsIdx s i)
       | none =>
         match mode with
         | none => .ok (left, skipWsIdx s i)
         | some .CHOICE => .ok (.CHOICE (left :: acc) .one, skipWsIdx s i)
         | some .SEQ => .ok (.SEQ (left :: acc) .one, skipWsIdx s i)) := rfl

open Dtd in
lemma loop_mixed_error (s : List Char) (fuel i : Nat)
    (left : DtdContentModel) (acc : List DtdContentModel) :
    (s.get? (skipWsIdx s i) = some ',' →
      parseExprLoopP s (fuel + 1) i left acc (some .CHOICE) =
        .error ("Mixed '|' and ',' without parentheses near index " ++
          toString (skipWsIdx s i))) ∧
    (s.get? (skipWsIdx s i) = some '|' →
      parseExprLoopP s (fuel + 1) i left acc (some .SEQ) =
        .error ("Mixed '|' and ',' without parentheses near index " ++
          toString (skipWsIdx s i))) := by
  constructor
  · intro h
    rw [parseExprLoopP_succ]
    simp only [h]
    simp
  · intro h
    rw [parseExprLoopP_succ]
    simp only [h]
    simp

open Dtd in
lemma loop_mode_shape : ∀ (fuel : Nat) (s : List Char) (i : Nat)
    (left : DtdContentModel) (acc : List DtdContentModel)
    (node : DtdContentModel) (k : Nat),
    (parseExprLoopP s fuel i left acc (some .SEQ) = .ok (node, k) →
      ∃ items, node = .SEQ items .one) ∧
    (parseExprLoopP s fuel i left acc (some .CHOICE) = .ok (node, k) →
      ∃ items, node = .CHOICE items .one) := by
  intro fuel
  induction fuel with
  | zero =>
    intro s i left acc node k
    constructor <;> intro h <;> simp [parseExprLoopP] at h
  | succ n ih =>
    intro s i left acc node k
    constructor
    · intro h
      rw [parseExprLoopP_succ] at h
      rcases hop : s.get? (skipWsIdx s i) with _ | op
      · rw [hop] at h
        simp at h
        exact ⟨left :: acc, h.1.symm⟩
      · rw [hop] at h
        simp only [] at h
        by_cases hio : (op = '|' || op = ',') = true
        · rw [if_pos hio] at h
          by_cases hbar : op = '|'
          · simp [hbar] at h
          · have hcomma : op = ',' := by
              rcases Bool.or_eq_true_iff.mp hio with h1 | h1
              · exact absurd (by simpa using h1) hbar
              · simpa using h1
            simp only [hcomma, reduceIte] at h
            rcases htp : parseTermP s n (skipWsIdx s i + 1) with e | pr
            · rw [htp] at h; simp [Bind.bind, Except.bind] at h
            · rw [htp] at h
              simp only [Bind.bind, Except.bind] at h
              have h2 : parseExprLoopP s n pr.2 left (acc ++ [pr.1])
                  (some .SEQ) = .ok (node, k) := by
                simpa using h
              exact (ih s pr.2 left (acc ++ [pr.1]) node k).1 h2
        · rw [if_neg hio] at h
          simp at h
          exact ⟨left :: acc, h.1.symm⟩
    · intro h
      rw [parseExprLoopP_succ] at h
      rcases hop : s.get? (skipWsIdx s i) with _ | op
      · rw [hop] at h
        simp at h
        exact ⟨left :: acc, h.1.symm⟩
      · rw [hop] at h
        simp only [] at h
        by_cases hio : (op = '|' || op = ',') = true
        · rw [if_pos hio] at h
          by_cases hbar : op = '|'
          · simp only [hbar, reduceIte] at h
            rcases htp : parseTermP s n (skipWsIdx s i + 1) with e | pr
            · rw [htp] at h; simp [Bind.bind, Except.bind] at h
            · rw [htp] at h
              simp only [Bind.bind, Except.bind] at h
              have h2 : parseExprLoopP s n pr.2 left (acc ++ [pr.1])
                  (some .CHOICE) = .ok (node, k) := by
                simpa using h
              exact (ih s pr.2 left (acc ++ [pr.1]) node k).2 h2
          · have hcomma : op = ',' := by
              rcases Bool.or_eq_true_iff.mp hio with h1 | h1
              · exact absurd (by simpa using h1) hbar
              · simpa using h1
            simp [hcomma] at h
        · rw [if_neg hio] at h
          simp at h
          exact ⟨left :: acc, h.1.symm⟩

/-- C7: parsing an `<!ELEMENT>` content model that combines `,` and `|`
at one parenthesis nesting level without grouping is a fatal
`buildDtdIndex` error (while explicit grouping is accepted); the chain
loop of `parseExpr` errors as soon as the operator disagrees with the
established mode, and a successful chain at an established mode only
ever produces the corresponding pure `SEQ`/`CHOICE` node. -/
theorem C7_mixed_operator_error :
    (Dtd.buildDtdIndex "<!ELEMENT r (a,b|c)>".data =
        .error "Mixed '|' and ',' without parentheses near index 4" ∧
      (Dtd.buildDtdIndex "<!ELEMENT r (a|b,c)>".data).isOk = false ∧
      (Dtd.buildDtdIndex "<!ELEMENT r (a,(b|c))>".data).isOk = true) ∧
    (∀ (s : List Char) (fuel i : Nat) (left : Dtd.DtdContentModel)
        (acc : List Dtd.DtdContentModel),
        (s.get? (Dtd.skipWsIdx s i) = some ',' →
          Dtd.parseExprLoopP s (fuel + 1) i left acc (some .CHOICE) =
            .error ("Mixed '|' and ',' without parentheses near index " ++
              toString (Dtd.skipWsIdx s i))) ∧
        (s.get? (Dtd.skipWsIdx s i) = some '|' →
          Dtd.parseExprLoopP s (fuel + 1) i left acc (some .SEQ) =
            .error ("Mixed '|' and ',' without parentheses near index " ++
              toString (Dtd.skipWsIdx s i)))) ∧
    (∀ (fuel : Nat) (s : List Char) (i : Nat) (left : Dtd.DtdContentModel)
        (acc : List Dtd.DtdContentModel) (node : Dtd.DtdContentModel)
        (k : Nat),
        (Dtd.parseExprLoopP s fuel i left acc (some .SEQ) =
            .ok (node, k) → ∃ items, node = .SEQ items .one) ∧
        (Dtd.parseExprLoopP s fuel i left acc (some .CHOICE) =
            .ok (node, k) → ∃ items, node = .CHOICE items .one)) := by
  refine ⟨⟨by rfl, by decide, by decide⟩, ?_, ?_⟩
  · intro s fuel i left acc
    exact loop_mixed_error s fuel i left acc
  · intro fuel s i left acc node k
    exact loop_mode_shape fuel s i left acc node k

/-- C7 witness: with `,`-mode established, a following `|` makes the
chain loop fail at a concrete state. -/
theorem C7_mixed_operator_error_witness :
    Dtd.parseExprLoopP "|x".data 1 0 (.NAME "a" .one) [] (some .SEQ) =
      .error ("Mixed \'|\' and \',\' without parentheses near index " ++
        toString (Dtd.skipWsIdx "|x".data 0)) :=
  (C7_mixed_operator_error.2.1 "|x".data 0 0 (.NAME "a" .one) []).2 (by decide)

theorem splitOnChar_of_not_contains (sep : Char) (a : List Char)
    (h : a.contains sep = false) :
    Dtd.splitOnChar sep a = [a] := by
  induction a with
  | nil => rfl
  | cons c rest ih =>
    simp only [List.contains_cons, Bool.or_eq_false_iff] at h
    have hc : ¬ c = sep := by
      intro hcc
      subst hcc
      simp at h
    rw [Dtd.splitOnChar]
    rw [ih h.2]
    simp [hc]

theorem splitOnChar_append_cons (sep : Char) (a b : List Char)
    (h : a.contains sep = false) :
    Dtd.splitOnChar sep (a ++ sep :: b) = a :: Dtd.splitOnChar sep b := by
  induction a with
  | nil => simp [Dtd.splitOnChar]
  | cons c rest ih =>
    simp only [List.contains_cons, Bool.or_eq_false_iff] at h
    have hc : ¬ c = sep := by
      intro hcc
      subst hcc
      simp at h
    simp only [List.cons_append]
    rw [Dtd.splitOnChar]
    rw [ih h.2]
    simp [hc]

theorem contains_append_chars (a b : List Char) (c : Char) :
    (a ++ b).contains c = (a.contains c || b.contains c) := by
  simp [List.contains_eq_any_beq, List.any_append]

theorem renderErrLine_no_newline (e : ValidationError)
    (hp : e.path.data.contains '\n' = false)
    (hm : e.msg.data.contains '\n' = false) :
    (renderErrLine e).data.contains '\n' = false := by
  show ("- ".data ++ e.path.data ++ ": ".data ++ e.msg.data).contains '\n' = false
  rw [contains_append_chars, contains_append_chars, contains_append_chars]
  rw [hp, hm]
  decide

theorem renderErrLine_dash (e : ValidationError) :
    "- ".data.isPrefixOf (renderErrLine e).data = true := by
  show "- ".data.isPrefixOf
    ("- ".data ++ e.path.data ++ ": ".data ++ e.msg.data) = true
  rw [List.append_assoc, List.append_assoc, List.isPrefixOf_iff_prefix]
  exact List.prefix_append "- ".data _

theorem dashCount_join (es : List ValidationError)
    (h : ∀ e ∈ es, e.path.data.contains '\n' = false ∧
      e.msg.data.contains '\n' = false) :
    ((Dtd.splitOnChar '\n' (joinSep "\n" (es.map renderErrLine)).data).filter
      (fun l => "- ".data.isPrefixOf l)).length = es.length := by
  induction es with
  | nil => decide
  | cons e rest ih =>
    rcases rest with _ | ⟨e2, rest2⟩
    · have he := h e (by simp)
      have hnl := renderErrLine_no_newline e he.1 he.2
      simp only [List.map_cons, List.map_nil, joinSep]
      rw [splitOnChar_of_not_contains _ _ hnl]
      simp [renderErrLine_dash e]
    · have he := h e (by simp)
      have hr : ∀ x ∈ e2 :: rest2, x.path.data.contains '\n' = false ∧
          x.msg.data.contains '\n' = false := by
        intro x hx
        exact h x (by simp [hx])
      have hnl := renderErrLine_no_newline e he.1 he.2
      have hjoin : joinSep "\n" ((e :: e2 :: rest2).map renderErrLine) =
          renderErrLine e ++ "\n" ++
            joinSep "\n" ((e2 :: rest2).map renderErrLine) := by
        simp [joinSep]
      rw [hjoin]
      have hdata : (renderErrLine e ++ "\n" ++
          joinSep "\n" ((e2 :: rest2).map renderErrLine)).data =
          (renderErrLine e).data ++ '\n' ::
            (joinSep "\n" ((e2 :: rest2).map renderErrLine)).data := by
        show (renderErrLine e).data ++ "\n".data ++ _ = _
        simp
      rw [hdata]
      rw [splitOnChar_append_cons _ _ _ hnl]
      have ih2 := ih hr
      simp [renderErrLine_dash e] at ih2 ⊢
      omega

theorem dashCount_message (header : String) (es : List ValidationError)
    (hh1 : header.data.contains '\n' = false)
    (hh2 : "- ".data.isPrefixOf header.data = false)
    (h : ∀ e ∈ es, e.path.data.contains '\n' = false ∧
      e.msg.data.contains '\n' = false) :
    countDashLines (header ++ "\n" ++ joinSep "\n" (es.map renderErrLine)) =
      es.length := by
  unfold countDashLines
  have hdata : (header ++ "\n" ++
      joinSep "\n" (es.map renderErrLine)).data =
      header.data ++ '\n' :: (joinSep "\n" (es.map renderErrLine)).data := by
    show header.data ++ "\n".data ++ _ = _
    simp
  rw [hdata, splitOnChar_append_cons _ _ _ hh1]
  have hj := dashCount_join es h
  simp [hh2] at hj ⊢
  omega

theorem aggdtd_general (root : XNode) (er : String) (dtd : Dtd.DtdIndex) :
    (Dtd.validateAgainstDtd root er dtd = .ok () ↔
      Dtd.walkDtd dtd er root "" = []) ∧
    (Dtd.walkDtd dtd er root "" ≠ [] →
      Dtd.validateAgainstDtd root er dtd =
        .error ("DTD validation failed:\n" ++
          joinSep "\n" ((Dtd.walkDtd dtd er root "").map renderErrLine))) := by
  unfold Dtd.validateAgainstDtd
  by_cases h : (Dtd.walkDtd dtd er root "").length = 0
  · rw [if_pos h]
    simp [List.length_eq_zero.mp h]
  · rw [if_neg h]
    constructor
    · simp
      intro hc
      exact h (by simp [hc])
    · intro _
      rfl

theorem aggdtd_count (root : XNode) (er : String) (dtd : Dtd.DtdIndex)
    (m : String)
    (hv : Dtd.validateAgainstDtd root er dtd = .error m)
    (h : ∀ e ∈ Dtd.walkDtd dtd er root "",
      e.path.data.contains '\n' = false ∧
        e.msg.data.contains '\n' = false) :
    countDashLines m = (Dtd.walkDtd dtd er root "").length := by
  unfold Dtd.validateAgainstDtd at hv
  by_cases hz : (Dtd.walkDtd dtd er root "").length = 0
  · rw [if_pos hz] at hv
    exact absurd hv (by simp)
  · rw [if_neg hz] at hv
    have hm : m = "DTD validation failed:\n" ++
        joinSep "\n" ((Dtd.walkDtd dtd er root "").map renderErrLine) := by
      have := Except.error.inj hv
      exact this.symm
    rw [hm]
    have := dashCount_message "DTD validation failed:"
      (Dtd.walkDtd dtd er root "") (by decide) (by decide) h
    exact this

theorem aggxsd_general (fuel : Nat) (root : XNode) (er : String)
    (xsd : Xsd.XsdIndex) :
    (Xsd.validateAgainstXsd fuel root er xsd = .ok () ↔
      Xsd.walkXsd fuel xsd er root "" = []) ∧
    (Xsd.walkXsd fuel xsd er root "" ≠ [] →
      Xsd.validateAgainstXsd fuel root er xsd =
        .error ("XSD validation failed:\n" ++
          joinSep "\n"
            ((Xsd.walkXsd fuel xsd er root "").map renderErrLine))) := by
  unfold Xsd.validateAgainstXsd
  by_cases h : (Xsd.walkXsd fuel xsd er root "").length = 0
  · rw [if_pos h]
    simp [List.length_eq_zero.mp h]
  · rw [if_neg h]
    constructor
    · simp
      intro hc
      exact h (by simp [hc])
    · intro _
      rfl

theorem aggxsd_count (fuel : Nat) (root : XNode) (er : String)
    (xsd : Xsd.XsdIndex) (m : String)
    (hv : Xsd.validateAgainstXsd fuel root er xsd = .error m)
    (h : ∀ e ∈ Xsd.walkXsd fuel xsd er root "",
      e.path.data.contains '\n' = false ∧
        e.msg.data.contains '\n' = false) :
    countDashLines m = (Xsd.walkXsd fuel xsd er root "").length := by
  unfold Xsd.validateAgainstXsd at hv
  by_cases hz : (Xsd.walkXsd fuel xsd er root "").length = 0
  · rw [if_pos hz] at hv
    exact absurd hv (by simp)
  · rw [if_neg hz] at hv
    have hm : m = "XSD validation failed:\n" ++
        joinSep "\n" ((Xsd.walkXsd fuel xsd er root "").map renderErrLine) := by
      have := Except.error.inj hv
      exact this.symm
    rw [hm]
    exact dashCount_message "XSD validation failed:"
      (Xsd.walkXsd fuel xsd er root "") (by decide) (by decide) h

/-- C6: each validator collects every violation in one walk and either
returns unit or throws exactly one aggregated error whose message is the
fixed header followed by one `- path: msg` line per violation; when no
path or message embeds a newline, the number of `- `-prefixed lines of
the message equals the number of violations.  A document with an
undeclared attribute on the root and a content-model mismatch at a child
yields a single error with exactly two such lines, under both
validators. -/
theorem C6_error_aggregation :
    (∀ (root : XNode) (er : String) (dtd : Dtd.DtdIndex),
        (Dtd.validateAgainstDtd root er dtd = .ok () ↔
          Dtd.walkDtd dtd er root "" = []) ∧
        (Dtd.walkDtd dtd er root "" ≠ [] →
          Dtd.validateAgainstDtd root er dtd =
            .error ("DTD validation failed:\n" ++
              joinSep "\n"
                ((Dtd.walkDtd dtd er root "").map renderErrLine)))) ∧
    (∀ (root : XNode) (er : String) (dtd : Dtd.DtdIndex) (m : String),
        Dtd.validateAgainstDtd root er dtd = .error m →
        (∀ e ∈ Dtd.walkDtd dtd er root "",
          e.path.data.contains '\n' = false ∧
            e.msg.data.contains '\n' = false) →
        countDashLines m = (Dtd.walkDtd dtd er root "").length) ∧
    (∀ (fuel : Nat) (root : XNode) (er : String) (xsd : Xsd.XsdIndex),
        (Xsd.validateAgainstXsd fuel root er xsd = .ok () ↔
          Xsd.walkXsd fuel xsd er root "" = []) ∧
        (Xsd.walkXsd fuel xsd er root "" ≠ [] →
          Xsd.validateAgainstXsd fuel root er xsd =
            .error ("XSD validation failed:\n" ++
              joinSep "\n"
                ((Xsd.walkXsd fuel xsd er root "").map renderErrLine)))) ∧
    (∀ (fuel : Nat) (root : XNode) (er : String) (xsd : Xsd.XsdIndex)
        (m : String),
        Xsd.validateAgainstXsd fuel root er xsd = .error m →
        (∀ e ∈ Xsd.walkXsd fuel xsd er root "",
          e.path.data.contains '\n' = false ∧
            e.msg.data.contains '\n' = false) →
        countDashLines m = (Xsd.walkXsd fuel xsd er root "").length) ∧
    (Dtd.validateAgainstDtd docC6 "r" dtdC6 =
        .error "DTD validation failed:\n- /r: Unknown attribute \"foo\" on <r>\n- /r/a: Child elements do not match DTD content model: expected c, got ()" ∧
      countDashLines "DTD validation failed:\n- /r: Unknown attribute \"foo\" on <r>\n- /r/a: Child elements do not match DTD content model: expected c, got ()" = 2) ∧
    (Xsd.validateAgainstXsd 5 docC6 "r" xsdC6 =
        .error "XSD validation failed:\n- /r: Unknown attribute \"foo\" on <r>\n- /r/a: Child elements do not match XSD model: expected <b>, got ()" ∧
      countDashLines "XSD validation failed:\n- /r: Unknown attribute \"foo\" on <r>\n- /r/a: Child elements do not match XSD model: expected <b>, got ()" = 2) := by
  refine ⟨aggdtd_general, aggdtd_count, aggxsd_general, aggxsd_count,
    ⟨by rfl, by decide⟩, ⟨by rfl, by decide⟩⟩

/-- C6 witness: at the concrete two-violation document, the dash-line
count of the thrown message equals the number of collected violations. -/
theorem C6_error_aggregation_witness :
    countDashLines "DTD validation failed:\n- /r: Unknown attribute \"foo\" on <r>\n- /r/a: Child elements do not match DTD content model: expected c, got ()" =
      (Dtd.walkDtd dtdC6 "r" docC6 "").length :=
  C6_error_aggregation.2.1 docC6 "r" dtdC6 _ (by rfl) (by decide)

theorem takeWhile_append_head_false (p : Char → Bool) (u b : List Char)
    (hb : ∀ hd, b.head? = some hd → p hd = false) :
    (u ++ b).takeWhile p = u.takeWhile p := by
  induction u with
  | nil =>
    cases b with
    | nil => rfl
    | cons hd tl => simp [List.takeWhile_cons, hb hd rfl]
  | cons c rest ih =>
    by_cases h : p c <;> simp [List.takeWhile_cons, h, ih]

theorem takeWhile_length_le (p : Char → Bool) (u : List Char) :
    (u.takeWhile p).length ≤ u.length := by
  induction u with
  | nil => simp
  | cons c rest ih =>
    by_cases h : p c
    · simp [List.takeWhile_cons, h]
      omega
    · simp [List.takeWhile_cons, h]

open Sanitize in
theorem entityNumericCore_step (isHex : Bool) (a b : List Char) :
    entityNumericCore isHex a b =
      if ((b.takeWhile (fun d => if isHex then isHexDigit d else isAsciiDigit d)).length ≠ 0 &&
          ((b.drop (b.takeWhile (fun d => if isHex then isHexDigit d else isAsciiDigit d)).length).head? = some ';') : Bool) then
        ('&' :: ('#' :: a).take
            (1 + (if isHex then 1 else 0) + (b.takeWhile (fun d => if isHex then isHexDigit d else isAsciiDigit d)).length + 1),
          1 + (if isHex then 1 else 0) + (b.takeWhile (fun d => if isHex then isHexDigit d else isAsciiDigit d)).length + 1)
      else ("&amp;".data, 0) := rfl

open Sanitize in
theorem entityNumericCore_bound (isHex : Bool) (r2 r3 : List Char)
    (h3 : r3.length + (if isHex then 1 else 0) ≤ r2.length) :
    (entityNumericCore isHex r2 r3).2 ≤ r2.length + 1 := by
  rw [entityNumericCore_step]
  by_cases hcond : (((r3.takeWhile (fun d => if isHex then isHexDigit d else isAsciiDigit d)).length ≠ 0 &&
      ((r3.drop (r3.takeWhile (fun d => if isHex then isHexDigit d else isAsciiDigit d)).length).head? = some ';')) : Bool) = true
  · rw [if_pos hcond]
    have hsemi : (r3.drop (r3.takeWhile (fun d => if isHex then isHexDigit d else isAsciiDigit d)).length).head? = some ';' := by
      simp only [Bool.and_eq_true, decide_eq_true_eq] at hcond
      exact hcond.2
    have hlt : (r3.takeWhile (fun d => if isHex then isHexDigit d else isAsciiDigit d)).length < r3.length := by
      by_contra hge
      push_neg at hge
      rw [List.drop_eq_nil_of_le hge] at hsemi
      simp at hsemi
    show 1 + (if isHex then 1 else 0) + (r3.takeWhile (fun d => if isHex then isHexDigit d else isAsciiDigit d)).length + 1
        ≤ r2.length + 1
    generalize (if isHex = true then 1 else 0) = hexv at h3 ⊢
    omega
  · rw [if_neg hcond]
    show (0 : Nat) ≤ r2.length + 1
    omega

open Sanitize in
theorem entityNumericCore_boundary (isHex : Bool) (r2 r3 tl : List Char)
    (h3 : r3.length + (if isHex then 1 else 0) ≤ r2.length) :
    entityNumericCore isHex (r2 ++ '&' :: tl) (r3 ++ '&' :: tl)
      = entityNumericCore isHex r2 r3 := by
  have hpamp : ∀ hd : Char, (('&' :: tl) : List Char).head? = some hd →
      (fun d => if isHex then isHexDigit d else isAsciiDigit d) hd = false := by
    intro hd h
    simp only [List.head?_cons, Option.some.injEq] at h
    subst h
    cases isHex <;> decide
  have hdig := takeWhile_append_head_false (fun d => if isHex then isHexDigit d else isAsciiDigit d) r3 ('&' :: tl) hpamp
  have hdl := takeWhile_length_le (fun d => if isHex then isHexDigit d else isAsciiDigit d) r3
  rw [entityNumericCore_step, entityNumericCore_step, hdig,
    List.drop_append_of_le_length hdl]
  cases hdrop : r3.drop (r3.takeWhile (fun d => if isHex then isHexDigit d else isAsciiDigit d)).length with
  | nil =>
    simp
  | cons h t =>
    have hlt : (r3.takeWhile (fun d => if isHex then isHexDigit d else isAsciiDigit d)).length < r3.length := by
      by_contra hge
      push_neg at hge
      rw [List.drop_eq_nil_of_le hge] at hdrop
      exact List.noConfusion hdrop
    have hle : 1 + (if isHex then 1 else 0) + (r3.takeWhile (fun d => if isHex then isHexDigit d else isAsciiDigit d)).length + 1
        ≤ ('#' :: r2).length := by
      simp only [List.length_cons]
      generalize (if isHex = true then 1 else 0) = hexv at h3 ⊢
      omega
    have htake : ('#' :: (r2 ++ '&' :: tl)).take
        (1 + (if isHex then 1 else 0) + (r3.takeWhile (fun d => if isHex then isHexDigit d else isAsciiDigit d)).length + 1)
        = ('#' :: r2).take
        (1 + (if isHex then 1 else 0) + (r3.takeWhile (fun d => if isHex then isHexDigit d else isAsciiDigit d)).length + 1) := by
      rw [show ('#' :: (r2 ++ '&' :: tl)) = ('#' :: r2) ++ '&' :: tl by simp,
        List.take_append_of_le_length hle]
    simp only [List.cons_append, List.head?_cons, htake]

open Sanitize in
theorem entityNumeric_boundary (r2 tl : List Char) :
    entityNumeric (r2 ++ '&' :: tl) = entityNumeric r2 := by
  cases r2 with
  | nil =>
    have h1 : entityNumeric ([] ++ '&' :: tl)
        = entityNumericCore false ([] ++ '&' :: tl) ([] ++ '&' :: tl) := by
      simp [entityNumeric]
    have h2 : entityNumeric [] = entityNumericCore false [] [] := by
      simp [entityNumeric]
    rw [h1, h2]
    exact entityNumericCore_boundary false [] [] tl (by simp)
  | cons c2 r2x =>
    by_cases hx : (c2 = 'x' || c2 = 'X') = true
    · have h1 : entityNumeric ((c2 :: r2x) ++ '&' :: tl)
          = entityNumericCore true ((c2 :: r2x) ++ '&' :: tl) (r2x ++ '&' :: tl) := by
        simp [entityNumeric, hx]
      have h2 : entityNumeric (c2 :: r2x)
          = entityNumericCore true (c2 :: r2x) r2x := by
        simp [entityNumeric, hx]
      rw [h1, h2]
      exact entityNumericCore_boundary true (c2 :: r2x) r2x tl (by simp)
    · have h1 : entityNumeric ((c2 :: r2x) ++ '&' :: tl)
          = entityNumericCore false ((c2 :: r2x) ++ '&' :: tl) ((c2 :: r2x) ++ '&' :: tl) := by
        simp [entityNumeric, hx]
      have h2 : entityNumeric (c2 :: r2x)
          = entityNumericCore false (c2 :: r2x) (c2 :: r2x) := by
        simp [entityNumeric, hx]
      rw [h1, h2]
      exact entityNumericCore_boundary false (c2 :: r2x) (c2 :: r2x) tl (by simp)

open Sanitize in
theorem entityNumeric_bound (r2 : List Char) :
    (entityNumeric r2).2 ≤ r2.length + 1 := by
  cases r2 with
  | nil =>
    have h2 : entityNumeric [] = entityNumericCore false [] [] := by
      simp [entityNumeric]
    rw [h2]
    exact entityNumericCore_bound false [] [] (by simp)
  | cons c2 r2x =>
    by_cases hx : (c2 = 'x' || c2 = 'X') = true
    · have h2 : entityNumeric (c2 :: r2x)
          = entityNumericCore true (c2 :: r2x) r2x := by
        simp [entityNumeric, hx]
      rw [h2]
      exact entityNumericCore_bound true (c2 :: r2x) r2x (by simp)
    · have h2 : entityNumeric (c2 :: r2x)
          = entityNumericCore false (c2 :: r2x) (c2 :: r2x) := by
        simp [entityNumeric, hx]
      rw [h2]
      exact entityNumericCore_bound false (c2 :: r2x) (c2 :: r2x) (by simp)

open Sanitize in
theorem entityNamed_boundary (policy : EntityPolicy)
    (tbl : List (String × Nat)) (c : Char) (r2 tl : List Char) :
    entityNamed policy tbl c (r2 ++ '&' :: tl) = entityNamed policy tbl c r2 := by
  have hpamp : ∀ hd : Char, (('&' :: tl) : List Char).head? = some hd →
      isAlphaNumTs hd = false := by
    intro hd h
    simp only [List.head?_cons, Option.some.injEq] at h
    subst h
    decide
  have hname := takeWhile_append_head_false isAlphaNumTs r2 ('&' :: tl) hpamp
  have hnl : (r2.takeWhile isAlphaNumTs).length + 1 ≤ (c :: r2).length := by
    have := takeWhile_length_le isAlphaNumTs r2
    simp only [List.length_cons]
    omega
  have hsplit : (c :: (r2 ++ '&' :: tl)) = (c :: r2) ++ '&' :: tl := by simp
  simp only [entityNamed, hname, List.length_cons]
  rw [hsplit, List.drop_append_of_le_length (by simpa using hnl)]
  cases hdrop : ((c :: r2).drop ((r2.takeWhile isAlphaNumTs).length + 1)) with
  | nil => simp
  | cons h t => simp

open Sanitize in
theorem entityNamed_bound (policy : EntityPolicy)
    (tbl : List (String × Nat)) (c : Char) (r2 : List Char)
    (em : List Char) (k : Nat)
    (h : entityNamed policy tbl c r2 = .ok (em, k)) :
    k ≤ r2.length + 1 := by
  by_cases hsemi : (((c :: r2).drop ((r2.takeWhile isAlphaNumTs).length + 1)).head?
      = some ';')
  · have hne : (c :: r2).drop ((r2.takeWhile isAlphaNumTs).length + 1) ≠ [] := by
      intro hnil
      rw [hnil] at hsemi
      simp at hsemi
    have hlt : (r2.takeWhile isAlphaNumTs).length + 1 < (c :: r2).length := by
      by_contra hge
      push_neg at hge
      exact hne (List.drop_eq_nil_of_le hge)
    simp only [List.length_cons] at hlt
    simp only [entityNamed, List.length_cons, if_pos hsemi] at h
    split at h <;> [skip; (split at h)]
    · injection h with h1
      have := congrArg Prod.snd h1
      simp at this
      omega
    · injection h with h1
      have := congrArg Prod.snd h1
      simp at this
      omega
    · split at h
      · injection h with h1
        have := congrArg Prod.snd h1
        simp at this
        omega
      · split at h
        · exact absurd h (by simp)
        · injection h with h1
          have := congrArg Prod.snd h1
          simp at this
          omega
  · simp only [entityNamed, List.length_cons, if_neg hsemi] at h
    injection h with h1
    have := congrArg Prod.snd h1
    simp at this
    omega

open Sanitize in
theorem entityStep_boundary (policy : EntityPolicy)
    (tbl : List (String × Nat)) (r b : List Char)
    (hb : b.head? = some '&') :
    entityStep policy tbl (r ++ b) = entityStep policy tbl r ∧
    (∀ em k, entityStep policy tbl r = .ok (em, k) → k ≤ r.length) := by
  obtain ⟨tl, rfl⟩ : ∃ tl, b = '&' :: tl := by
    cases b with
    | nil => simp at hb
    | cons hd tl => exact ⟨tl, by simpa using congrArg (fun o => o.getD ' ') hb⟩
  have hA : isAsciiAlpha '&' = false := by decide
  cases r with
  | nil =>
    constructor
    · simp [entityStep, hA]
    · intro em k h
      simp [entityStep, hA] at h
      omega
  | cons c r2 =>
    by_cases hpound : c = '#'
    · subst hpound
      constructor
      · simp only [List.cons_append, entityStep]
        rw [entityNumeric_boundary]
        simp
      · intro em k h
        simp only [entityStep, if_pos rfl] at h
        injection h with h1
        have := congrArg Prod.snd h1
        simp only at this
        have hbd := entityNumeric_bound r2
        simp only [List.length_cons]
        omega
    · by_cases halpha : isAsciiAlpha c = true
      · constructor
        · simp only [List.cons_append, entityStep, if_neg hpound, if_pos halpha]
          exact entityNamed_boundary policy tbl c r2 tl
        · intro em k h
          simp only [entityStep, if_neg hpound, if_pos halpha] at h
          have := entityNamed_bound policy tbl c r2 em k h
          simp only [List.length_cons]
          omega
      · constructor
        · simp [entityStep, hpound, halpha]
        · intro em k h
          simp [entityStep, hpound, halpha] at h
          omega

open Sanitize in
theorem normEntLoop_succ (policy : EntityPolicy) (tbl : List (String × Nat))
    (fuel : Nat) (c : Char) (rest : List Char) :
    normEntLoop policy tbl (fuel + 1) (c :: rest) =
      (if c = '&' then do
        let (em, consumed) ← entityStep policy tbl rest
        let t ← normEntLoop policy tbl fuel (rest.drop consumed)
        .ok (em ++ t)
      else do
        let t ← normEntLoop policy tbl fuel rest
        .ok (c :: t)) := rfl

open Sanitize in
theorem normEntLoop_fuel (policy : EntityPolicy) (tbl : List (String × Nat)) :
    ∀ (f1 : Nat) (s : List Char) (f2 : Nat), s.length ≤ f1 → s.length ≤ f2 →
    normEntLoop policy tbl f1 s = normEntLoop policy tbl f2 s := by
  intro f1
  induction f1 with
  | zero =>
    intro s f2 h1 h2
    have hs : s = [] := List.length_eq_zero.mp (Nat.le_zero.mp h1)
    subst hs
    cases f2 <;> rfl
  | succ f ih =>
    intro s f2 h1 h2
    cases s with
    | nil => cases f2 <;> rfl
    | cons c rest =>
      cases f2 with
      | zero => simp at h2
      | succ f2x =>
        simp only [List.length_cons] at h1 h2
        rw [normEntLoop_succ, normEntLoop_succ]
        by_cases hc : c = '&'
        · rw [if_pos hc, if_pos hc]
          cases hs : entityStep policy tbl rest with
          | error e => simp only [Bind.bind, Except.bind, hs]
          | ok p =>
            obtain ⟨em, k⟩ := p
            have hd1 : (rest.drop k).length ≤ f := by
              rw [List.length_drop]
              omega
            have hd2 : (rest.drop k).length ≤ f2x := by
              rw [List.length_drop]
              omega
            simp only [Bind.bind, Except.bind, hs]
            rw [ih (rest.drop k) f2x hd1 hd2]
        · rw [if_neg hc, if_neg hc]
          simp only [Bind.bind, Except.bind]
          rw [ih rest f2x (by omega) (by omega)]

open Sanitize in
theorem normEnt_split_aux (policy : EntityPolicy) (tbl : List (String × Nat))
    (b : List Char) (hb : b.head? = some '&') :
    ∀ (n : Nat) (a : List Char), a.length ≤ n →
    normalizeEntitiesAndAmpersands policy tbl (a ++ b) =
      Except.bind (normalizeEntitiesAndAmpersands policy tbl a) (fun x =>
        Except.bind (normalizeEntitiesAndAmpersands policy tbl b) (fun y =>
          .ok (x ++ y))) := by
  have hnil : ∀ u : List Char,
      normalizeEntitiesAndAmpersands policy tbl ([] ++ u) =
        Except.bind (normalizeEntitiesAndAmpersands policy tbl []) (fun x =>
          Except.bind (normalizeEntitiesAndAmpersands policy tbl u) (fun y =>
            .ok (x ++ y))) := by
    intro u
    have h0 : normalizeEntitiesAndAmpersands policy tbl [] = .ok [] := rfl
    rw [h0]
    cases hu : normalizeEntitiesAndAmpersands policy tbl u with
    | error e => simp [Except.bind, hu]
    | ok y => simp [Except.bind, hu]
  intro n
  induction n with
  | zero =>
    intro a ha
    have hs : a = [] := List.length_eq_zero.mp (Nat.le_zero.mp ha)
    subst hs
    exact hnil b
  | succ n ih =>
    intro a ha
    cases a with
    | nil => exact hnil b
    | cons c a2 =>
      simp only [List.length_cons] at ha
      have hL : normalizeEntitiesAndAmpersands policy tbl ((c :: a2) ++ b)
          = normEntLoop policy tbl ((a2 ++ b).length + 1 + 1) (c :: (a2 ++ b)) := by
        have hlen : ((c :: a2) ++ b).length + 1 = ((a2 ++ b).length + 1) + 1 := by
          simp
        show normEntLoop policy tbl (((c :: a2) ++ b).length + 1) ((c :: a2) ++ b)
          = normEntLoop policy tbl ((a2 ++ b).length + 1 + 1) (c :: (a2 ++ b))
        rw [hlen, List.cons_append]
      have hR : normalizeEntitiesAndAmpersands policy tbl (c :: a2)
          = normEntLoop policy tbl (a2.length + 1 + 1) (c :: a2) := by
        have hlen : (c :: a2).length + 1 = (a2.length + 1) + 1 := by simp
        show normEntLoop policy tbl ((c :: a2).length + 1) (c :: a2)
          = normEntLoop policy tbl (a2.length + 1 + 1) (c :: a2)
        rw [hlen]
      rw [hL, hR, normEntLoop_succ, normEntLoop_succ]
      by_cases hc : c = '&'
      · rw [if_pos hc, if_pos hc]
        obtain ⟨hstepEq, hk⟩ := entityStep_boundary policy tbl a2 b hb
        rw [hstepEq]
        cases hs : entityStep policy tbl a2 with
        | error e => simp only [Bind.bind, Except.bind, hs]
        | ok p =>
          obtain ⟨em, k⟩ := p
          have hkk : k ≤ a2.length := hk em k hs
          simp only [Bind.bind, Except.bind, hs]
          rw [List.drop_append_of_le_length hkk]
          have hf1 : normEntLoop policy tbl ((a2 ++ b).length + 1) (a2.drop k ++ b)
              = normalizeEntitiesAndAmpersands policy tbl (a2.drop k ++ b) := by
            show _ = normEntLoop policy tbl ((a2.drop k ++ b).length + 1) (a2.drop k ++ b)
            exact normEntLoop_fuel policy tbl ((a2 ++ b).length + 1)
              (a2.drop k ++ b) ((a2.drop k ++ b).length + 1)
              (by simp only [List.length_append, List.length_drop]; omega)
              (by omega)
          have hf2 : normEntLoop policy tbl (a2.length + 1) (a2.drop k)
              = normalizeEntitiesAndAmpersands policy tbl (a2.drop k) := by
            show _ = normEntLoop policy tbl ((a2.drop k).length + 1) (a2.drop k)
            exact normEntLoop_fuel policy tbl (a2.length + 1)
              (a2.drop k) ((a2.drop k).length + 1)
              (by simp only [List.length_drop]; omega)
              (by omega)
          rw [hf1, hf2, ih (a2.drop k) (by rw [List.length_drop]; omega)]
          cases hx : normalizeEntitiesAndAmpersands policy tbl (a2.drop k) with
          | error e => simp only [Except.bind]
          | ok x =>
            simp only [Except.bind]
            cases hy : normalizeEntitiesAndAmpersands policy tbl b with
            | error e => simp only [Except.bind]
            | ok y => simp only [Except.bind, List.append_assoc]
      · rw [if_neg hc, if_neg hc]
        have hf1 : normEntLoop policy tbl ((a2 ++ b).length + 1) (a2 ++ b)
            = normalizeEntitiesAndAmpersands policy tbl (a2 ++ b) := rfl
        have hf2 : normEntLoop policy tbl (a2.length + 1) a2
            = normalizeEntitiesAndAmpersands policy tbl a2 := rfl
        simp only [Bind.bind, Except.bind]
        rw [hf1, hf2, ih a2 (by omega)]
        cases hx : normalizeEntitiesAndAmpersands policy tbl a2 with
        | error e => simp only [Except.bind]
        | ok x =>
          simp only [Except.bind]
          cases hy : normalizeEntitiesAndAmpersands policy tbl b with
          | error e => simp only [Except.bind]
          | ok y => simp only [Except.bind, List.cons_append]

open Sanitize in
theorem normEnt_split (policy : EntityPolicy) (tbl : List (String × Nat))
    (a b : List Char) (hb : b.head? = some '&') :
    normalizeEntitiesAndAmpersands policy tbl (a ++ b) =
      Except.bind (normalizeEntitiesAndAmpersands policy tbl a) (fun x =>
        Except.bind (normalizeEntitiesAndAmpersands policy tbl b) (fun y =>
          .ok (x ++ y))) :=
  normEnt_split_aux policy tbl b hb a.length a (Nat.le_refl _)

open Sanitize in
theorem entityStep_nbsp (r : List Char) :
    entityStep .convert BUILTIN_ENTITIES ("nbsp;".data ++ r)
      = .ok ("&#160;".data, 5) := rfl

open Sanitize in
theorem entityStep_eacute (r : List Char) :
    entityStep .convert BUILTIN_ENTITIES ("eacute;".data ++ r)
      = .ok ("&amp;eacute;".data, 7) := rfl

open Sanitize in
theorem entityStep_lt (r : List Char) :
    entityStep .convert BUILTIN_ENTITIES ("lt;".data ++ r)
      = .ok ("&lt;".data, 3) := rfl

open Sanitize in
theorem entityStep_dec (r : List Char) :
    entityStep .convert BUILTIN_ENTITIES ("#233;".data ++ r)
      = .ok ("&#233;".data, 5) := rfl

open Sanitize in
theorem entityStep_hex (r : List Char) :
    entityStep .convert BUILTIN_ENTITIES ("#xE9;".data ++ r)
      = .ok ("&#xE9;".data, 5) := rfl

open Sanitize in
theorem entityStep_bare_eof (policy : EntityPolicy) (tbl : List (String × Nat)) :
    entityStep policy tbl [] = .ok ("&amp;".data, 0) := rfl

open Sanitize in
theorem entityStep_bare_space (policy : EntityPolicy)
    (tbl : List (String × Nat)) (r : List Char) :
    entityStep policy tbl (' ' :: r) = .ok ("&amp;".data, 0) := rfl

open Sanitize in
theorem entityNamed_ok (policy : EntityPolicy) (tbl : List (String × Nat))
    (c : Char) (r2 : List Char) (hp : policy ≠ .error) :
    (entityNamed policy tbl c r2).isOk = true := by
  by_cases hsemi : (((c :: r2).drop ((r2.takeWhile isAlphaNumTs).length + 1)).head?
      = some ';')
  · simp only [entityNamed, List.length_cons, if_pos hsemi, if_neg hp]
    split
    · rfl
    · split <;> [rfl; (split <;> rfl)]
  · simp only [entityNamed, List.length_cons, if_neg hsemi]
    rfl

open Sanitize in
theorem entityNamed_error_shape (policy : EntityPolicy)
    (tbl : List (String × Nat)) (c : Char) (r2 : List Char) (e : String)
    (h : entityNamed policy tbl c r2 = .error e) :
    policy = .error ∧ ∃ name : List Char,
      e = "[authord] Unknown named entity: &" ++ (⟨name⟩ : String) ++ ";" ∧
      alookup tbl ⟨name.map Char.toLower⟩ = none ∧
      XML5.contains (⟨name.map Char.toLower⟩ : String) = false := by
  by_cases hsemi : (((c :: r2).drop ((r2.takeWhile isAlphaNumTs).length + 1)).head?
      = some ';')
  · simp only [entityNamed, List.length_cons, if_pos hsemi] at h
    split at h
    · exact absurd h (by simp)
    · rename_i hxml
      split at h
      · exact absurd h (by simp)
      · rename_i hnone
        split at h
        · exact absurd h (by simp)
        · split at h
          · rename_i hpol
            injection h with he
            refine ⟨hpol, c :: r2.takeWhile isAlphaNumTs, he.symm, hnone, ?hx⟩
            simpa using hxml
          · exact absurd h (by simp)
  · simp only [entityNamed, List.length_cons, if_neg hsemi] at h
    exact absurd h (by simp)

open Sanitize in
theorem entityStep_isOk (policy : EntityPolicy) (tbl : List (String × Nat))
    (rest : List Char) (hp : policy ≠ .error) :
    (entityStep policy tbl rest).isOk = true := by
  cases rest with
  | nil => rfl
  | cons c r2 =>
    simp only [entityStep]
    split
    · rfl
    · split
      · exact entityNamed_ok policy tbl c r2 hp
      · rfl

open Sanitize in
theorem entityStep_error_shape (policy : EntityPolicy)
    (tbl : List (String × Nat)) (rest : List Char) (e : String)
    (h : entityStep policy tbl rest = .error e) :
    policy = .error ∧ ∃ name : List Char,
      e = "[authord] Unknown named entity: &" ++ (⟨name⟩ : String) ++ ";" ∧
      alookup tbl ⟨name.map Char.toLower⟩ = none ∧
      XML5.contains (⟨name.map Char.toLower⟩ : String) = false := by
  cases rest with
  | nil => exact absurd h (by simp [entityStep])
  | cons c r2 =>
    simp only [entityStep] at h
    split at h
    · exact absurd h (by simp)
    · split at h
      · exact entityNamed_error_shape policy tbl c r2 e h
      · exact absurd h (by simp)

open Sanitize in
theorem normEntLoop_isOk (policy : EntityPolicy) (tbl : List (String × Nat))
    (hp : policy ≠ .error) : ∀ (fuel : Nat) (s : List Char),
    (normEntLoop policy tbl fuel s).isOk = true := by
  intro fuel
  induction fuel with
  | zero =>
    intro s
    have h0 : normEntLoop policy tbl 0 s = .ok s := by cases s <;> rfl
    rw [h0]
    rfl
  | succ f ih =>
    intro s
    cases s with
    | nil => rfl
    | cons c rest =>
      rw [normEntLoop_succ]
      by_cases hc : c = '&'
      · rw [if_pos hc]
        cases hs : entityStep policy tbl rest with
        | error e =>
          have hok := entityStep_isOk policy tbl rest hp
          rw [hs] at hok
          exact Bool.noConfusion hok
        | ok p =>
          obtain ⟨em, k⟩ := p
          simp only [Bind.bind, Except.bind, hs]
          cases ht : normEntLoop policy tbl f (rest.drop k) with
          | error e =>
            have hok := ih (rest.drop k)
            rw [ht] at hok
            exact Bool.noConfusion hok
          | ok t => rfl
      · rw [if_neg hc]
        simp only [Bind.bind, Except.bind]
        cases ht : normEntLoop policy tbl f rest with
        | error e =>
          have hok := ih rest
          rw [ht] at hok
          exact Bool.noConfusion hok
        | ok t => rfl

open Sanitize in
theorem normEntLoop_error_shape (policy : EntityPolicy)
    (tbl : List (String × Nat)) : ∀ (fuel : Nat) (s : List Char) (e : String),
    normEntLoop policy tbl fuel s = .error e →
    policy = .error ∧ ∃ name : List Char,
      e = "[authord] Unknown named entity: &" ++ (⟨name⟩ : String) ++ ";" ∧
      alookup tbl ⟨name.map Char.toLower⟩ = none ∧
      XML5.contains (⟨name.map Char.toLower⟩ : String) = false := by
  intro fuel
  induction fuel with
  | zero =>
    intro s e h
    have h0 : normEntLoop policy tbl 0 s = .ok s := by cases s <;> rfl
    rw [h0] at h
    exact Except.noConfusion h
  | succ f ih =>
    intro s e h
    cases s with
    | nil =>
      rw [show normEntLoop policy tbl (f + 1) [] = .ok ([] : List Char) from rfl] at h
      exact Except.noConfusion h
    | cons c rest =>
      rw [normEntLoop_succ] at h
      by_cases hc : c = '&'
      · rw [if_pos hc] at h
        cases hs : entityStep policy tbl rest with
        | error e2 =>
          simp only [Bind.bind, Except.bind, hs] at h
          injection h with he
          exact he ▸ entityStep_error_shape policy tbl rest e2 hs
        | ok p =>
          obtain ⟨em, k⟩ := p
          simp only [Bind.bind, Except.bind, hs] at h
          cases ht : normEntLoop policy tbl f (rest.drop k) with
          | error e2 =>
            rw [ht] at h
            simp only [Except.bind] at h
            injection h with he
            exact he ▸ ih (rest.drop k) e2 ht
          | ok t =>
            rw [ht] at h
            simp only [Except.bind] at h
            exact Except.noConfusion h
      · rw [if_neg hc] at h
        simp only [Bind.bind, Except.bind] at h
        cases ht : normEntLoop policy tbl f rest with
        | error e2 =>
          rw [ht] at h
          simp only [Except.bind] at h
          injection h with he
          exact he ▸ ih rest e2 ht
        | ok t =>
          rw [ht] at h
          simp only [Except.bind] at h
          exact Except.noConfusion h

open Sanitize in
theorem preSanitize_stages (o : XmlSanitizeOptions) (xml : List Char) :
    preSanitize o xml =
      match normalizeEntitiesAndAmpersands o.entityPolicy
          (o.namedEntities ++ BUILTIN_ENTITIES) (preEntityText o xml) with
      | .error e => .error e
      | .ok w2 => .ok (postEntityText o xml w2) := rfl

open Sanitize in
theorem preSanitize_error_iff (o : XmlSanitizeOptions) (xml : List Char)
    (e : String) :
    preSanitize o xml = .error e ↔
      normalizeEntitiesAndAmpersands o.entityPolicy
        (o.namedEntities ++ BUILTIN_ENTITIES) (preEntityText o xml) = .error e := by
  rw [preSanitize_stages]
  cases hn : normalizeEntitiesAndAmpersands o.entityPolicy
      (o.namedEntities ++ BUILTIN_ENTITIES) (preEntityText o xml) with
  | error e2 => simp
  | ok w2 => simp

/-- C5 counterexample: entity normalization does not apply inside CDATA
sections, because `preSanitize` masks protected segments before the
entity stage. `nbsp` is in the built-in table yet `&nbsp;` inside CDATA
is not rewritten to `&#160;`; `eacute` is unknown yet under the `error`
policy the sanitizer does not raise when `&eacute;` sits inside CDATA.
This refutes the claim's "for every input text" and the right-to-left
direction of its error characterization. -/
theorem C5_entity_policy_counterexample :
    alookup Sanitize.BUILTIN_ENTITIES "nbsp" = some 160 ∧
    Sanitize.preSanitize {} "<![CDATA[&nbsp;]]>".data =
      .ok "<![CDATA[&nbsp;]]>".data ∧
    alookup Sanitize.BUILTIN_ENTITIES "eacute" = none ∧
    (Sanitize.preSanitize { entityPolicy := .error }
      "<![CDATA[&eacute;]]>".data).isOk = true := by
  refine ⟨rfl, by decide, rfl, by decide⟩

/-- C5 (amended): at the entity stage, under any policy, `&`-token
handling is local (the normalization of `a ++ b` with `b` starting at a
`&` splits into the two normalizations concatenated); under the default
`convert` policy with the built-in table, in any right context, `&nbsp;`
becomes `&#160;`, the unknown `&eacute;` becomes `&amp;eacute;`, the
predefined `&lt;` and the numeric references `&#233;`/`&#xE9;` pass
through, and a bare `&` becomes `&amp;`; the stage never errors unless
the policy is `error`, and every error it reports is an unknown-named-
entity error (name not in the table nor XML-predefined); `preSanitize`
raises an error iff the entity stage raises it on the masked,
whitespace-normalized text (no other stage raises). -/
theorem C5_entity_policy :
    (∀ (policy : Sanitize.EntityPolicy) (tbl : List (String × Nat))
      (a b : List Char), b.head? = some '&' →
      Sanitize.normalizeEntitiesAndAmpersands policy tbl (a ++ b) =
        Except.bind (Sanitize.normalizeEntitiesAndAmpersands policy tbl a)
          (fun x =>
            Except.bind (Sanitize.normalizeEntitiesAndAmpersands policy tbl b)
              (fun y => .ok (x ++ y)))) ∧
    (∀ r : List Char,
      Sanitize.entityStep .convert Sanitize.BUILTIN_ENTITIES
        ("nbsp;".data ++ r) = .ok ("&#160;".data, 5) ∧
      Sanitize.entityStep .convert Sanitize.BUILTIN_ENTITIES
        ("eacute;".data ++ r) = .ok ("&amp;eacute;".data, 7) ∧
      Sanitize.entityStep .convert Sanitize.BUILTIN_ENTITIES
        ("lt;".data ++ r) = .ok ("&lt;".data, 3) ∧
      Sanitize.entityStep .convert Sanitize.BUILTIN_ENTITIES
        ("#233;".data ++ r) = .ok ("&#233;".data, 5) ∧
      Sanitize.entityStep .convert Sanitize.BUILTIN_ENTITIES
        ("#xE9;".data ++ r) = .ok ("&#xE9;".data, 5) ∧
      Sanitize.entityStep .convert Sanitize.BUILTIN_ENTITIES
        (' ' :: r) = .ok ("&amp;".data, 0)) ∧
    (∀ (policy : Sanitize.EntityPolicy) (tbl : List (String × Nat)),
      Sanitize.entityStep policy tbl [] = .ok ("&amp;".data, 0)) ∧
    (∀ (policy : Sanitize.EntityPolicy) (tbl : List (String × Nat))
      (fuel : Nat) (s : List Char), policy ≠ .error →
      (Sanitize.normEntLoop policy tbl fuel s).isOk = true) ∧
    (∀ (policy : Sanitize.EntityPolicy) (tbl : List (String × Nat))
      (fuel : Nat) (s : List Char) (e : String),
      Sanitize.normEntLoop policy tbl fuel s = .error e →
      policy = .error ∧ ∃ name : List Char,
        e = "[authord] Unknown named entity: &" ++ (⟨name⟩ : String) ++ ";" ∧
        alookup tbl ⟨name.map Char.toLower⟩ = none ∧
        Sanitize.XML5.contains (⟨name.map Char.toLower⟩ : String) = false) ∧
    (∀ (o : Sanitize.XmlSanitizeOptions) (xml : List Char) (e : String),
      Sanitize.preSanitize o xml = .error e ↔
        Sanitize.normalizeEntitiesAndAmpersands o.entityPolicy
          (o.namedEntities ++ Sanitize.BUILTIN_ENTITIES)
          (Sanitize.preEntityText o xml) = .error e) :=
  ⟨fun policy tbl a b hb => normEnt_split policy tbl a b hb,
   fun r => ⟨entityStep_nbsp r, entityStep_eacute r, entityStep_lt r,
     entityStep_dec r, entityStep_hex r, entityStep_bare_space _ _ r⟩,
   fun policy tbl => entityStep_bare_eof policy tbl,
   fun policy tbl fuel s hp => normEntLoop_isOk policy tbl hp fuel s,
   fun policy tbl fuel s e h => normEntLoop_error_shape policy tbl fuel s e h,
   fun o xml e => preSanitize_error_iff o xml e⟩

/-- C5 witness: the amended theorem applied at concrete inputs — the
split at `"x" ++ "&nbsp;"`, the no-error clause under `convert`, and the
error-shape clause at the run that rejects the unknown `&zzz;`. -/
theorem C5_entity_policy_witness :
    (Sanitize.normalizeEntitiesAndAmpersands .convert Sanitize.BUILTIN_ENTITIES
        ("x".data ++ "&nbsp;".data) =
      Except.bind (Sanitize.normalizeEntitiesAndAmpersands .convert
          Sanitize.BUILTIN_ENTITIES "x".data) (fun x =>
        Except.bind (Sanitize.normalizeEntitiesAndAmpersands .convert
            Sanitize.BUILTIN_ENTITIES "&nbsp;".data) (fun y =>
          .ok (x ++ y)))) ∧
    (Sanitize.normEntLoop .convert Sanitize.BUILTIN_ENTITIES 6
      "a&b".data).isOk = true ∧
    (Sanitize.EntityPolicy.error = .error ∧ ∃ name : List Char,
      ("[authord] Unknown named entity: &zzz;" : String) =
        "[authord] Unknown named entity: &" ++ (⟨name⟩ : String) ++ ";" ∧
      alookup ([] : List (String × Nat)) ⟨name.map Char.toLower⟩ = none ∧
      Sanitize.XML5.contains (⟨name.map Char.toLower⟩ : String) = false) :=
  ⟨C5_entity_policy.1 .convert Sanitize.BUILTIN_ENTITIES "x".data "&nbsp;".data
      (by decide),
   C5_entity_policy.2.2.2.1 .convert Sanitize.BUILTIN_ENTITIES 6 "a&b".data
      (by decide),
   C5_entity_policy.2.2.2.2.1 .error ([] : List (String × Nat)) 6 "&zzz;".data
      "[authord] Unknown named entity: &zzz;" (by decide)⟩

open Sanitize in
theorem normSpacesGo_false (q : Option Char) (c : Char) (rest : List Char) :
    normSpacesGo false q (c :: rest) =
      if c = '<' && likelyTagStartNext rest.head? then
        c :: normSpacesGo true none rest
      else c :: normSpacesGo false none rest := by
  cases q <;> rfl

open Sanitize in
theorem normSpacesGo_quoted (qc c : Char) (rest : List Char) :
    normSpacesGo true (some qc) (c :: rest) =
      if c = qc then c :: normSpacesGo true none rest
      else c :: normSpacesGo true (some qc) rest := rfl

open Sanitize in
theorem normSpacesGo_inTag (c : Char) (rest : List Char) :
    normSpacesGo true none (c :: rest) =
      if c = '"' || c = squote then c :: normSpacesGo true (some c) rest
      else if c = '>' then c :: normSpacesGo false none rest
      else if isUnicodeSpaceInTag c then ' ' :: normSpacesGo true none rest
      else if isZeroWidthMark c then normSpacesGo true none rest
      else c :: normSpacesGo true none rest := rfl

open Sanitize in
theorem likely_char_flags (h : Char)
    (hl : likelyTagStartNext (some h) = true) :
    (h = '"' || h = squote) = false ∧ (h = '>') = false ∧
    isUnicodeSpaceInTag h = false ∧ isZeroWidthMark h = false := by
  simp only [likelyTagStartNext, Bool.or_eq_true, decide_eq_true_eq] at hl
  rcases hl with ((ha | h_) | hs) | hq
  · have hr : (65 ≤ h.toNat ∧ h.toNat ≤ 90) ∨ (97 ≤ h.toNat ∧ h.toNat ≤ 122) := by
      simpa [isAsciiAlpha, Bool.or_eq_true, Bool.and_eq_true] using ha
    refine ⟨?f1, ?f2, ?f3, ?f4⟩
    · have h1 : h ≠ '"' := by
        intro e
        subst e
        simp [isAsciiAlpha] at ha
      have h2 : h ≠ squote := by
        intro e
        subst e
        simp [isAsciiAlpha, squote] at ha
      simp [h1, h2]
    · have h1 : h ≠ '>' := by
        intro e
        subst e
        simp [isAsciiAlpha] at ha
      simp [h1]
    · simp only [isUnicodeSpaceInTag, Bool.or_eq_false_iff, Bool.and_eq_false_iff]
      simp only [decide_eq_false_iff_not]
      omega
    · simp only [isZeroWidthMark, Bool.or_eq_false_iff, Bool.and_eq_false_iff]
      simp only [decide_eq_false_iff_not]
      omega
  · subst h_
    refine ⟨by decide, by decide, by decide, by decide⟩
  · subst hs
    refine ⟨by decide, by decide, by decide, by decide⟩
  · subst hq
    refine ⟨by decide, by decide, by decide, by decide⟩

open Sanitize in
theorem normSpacesGo_idem : ∀ (s : List Char) (st : Bool) (q : Option Char),
    normSpacesGo st q (normSpacesGo st q s) = normSpacesGo st q s := by
  intro s
  induction s with
  | nil => intro st q; cases st <;> cases q <;> rfl
  | cons c rest ih =>
    intro st q
    cases st with
    | false =>
      rw [normSpacesGo_false]
      by_cases hA : (c = '<' && likelyTagStartNext rest.head?) = true
      · rw [if_pos hA]
        simp only [Bool.and_eq_true, decide_eq_true_eq] at hA
        obtain ⟨hc, hlik⟩ := hA
        cases rest with
        | nil => simp [likelyTagStartNext] at hlik
        | cons h rest2 =>
          simp only [List.head?_cons] at hlik
          obtain ⟨f1, f2, f3, f4⟩ := likely_char_flags h hlik
          have hstep : normSpacesGo true none (h :: rest2)
              = h :: normSpacesGo true none rest2 := by
            rw [normSpacesGo_inTag, if_neg (by simp [f1]), if_neg (by simp [f2]),
              if_neg (by simp [f3]), if_neg (by simp [f4])]
          have key := ih true none
          rw [hstep] at key
          rw [hstep, normSpacesGo_false]
          have hcond : (c = '<' && likelyTagStartNext
              ((h :: normSpacesGo true none rest2) : List Char).head?) = true := by
            simp only [List.head?_cons, hlik, hc]
            simp
          rw [if_pos hcond, key]
      · rw [if_neg hA]
        rw [normSpacesGo_false]
        have hcond : (c = '<' && likelyTagStartNext
            ((normSpacesGo false none rest) : List Char).head?) = false := by
          by_cases hc : c = '<'
          · subst hc
            have hlik : likelyTagStartNext rest.head? = false := by
              cases hv : likelyTagStartNext rest.head?
              · rfl
              · exact absurd (by simp [hv]) hA
            cases rest with
            | nil => simp [normSpacesGo, likelyTagStartNext]
            | cons h rest2 =>
              have hhead : ((normSpacesGo false none (h :: rest2)) : List Char).head?
                  = some h := by
                rw [normSpacesGo_false]
                split <;> rfl
              rw [hhead]
              simp only [List.head?_cons] at hlik
              simp [hlik]
          · simp [hc]
        rw [if_neg (by simp [hcond]), ih false none]
    | true =>
      cases q with
      | some qc =>
        rw [normSpacesGo_quoted]
        by_cases hc : c = qc
        · rw [if_pos hc, normSpacesGo_quoted, if_pos hc, ih true none]
        · rw [if_neg hc, normSpacesGo_quoted, if_neg hc, ih true (some qc)]
      | none =>
        rw [normSpacesGo_inTag]
        by_cases hq : (c = '"' || c = squote) = true
        · rw [if_pos hq, normSpacesGo_inTag, if_pos hq, ih true (some c)]
        · rw [if_neg (by simp at hq ⊢; exact hq)]
          by_cases hgt : c = '>'
          · subst hgt
            rw [if_pos rfl, normSpacesGo_inTag, if_neg (by decide), if_pos rfl,
              ih false none]
          · rw [if_neg hgt]
            by_cases hus : isUnicodeSpaceInTag c = true
            · rw [if_pos hus, normSpacesGo_inTag, if_neg (by decide),
                if_neg (by decide), if_neg (by decide), if_neg (by decide),
                ih true none]
            · rw [if_neg (by simp [hus])]
              by_cases hzw : isZeroWidthMark c = true
              · rw [if_pos hzw]
                exact ih true none
              · rw [if_neg (by simp [hzw]), normSpacesGo_inTag,
                  if_neg (by simp at hq ⊢; exact hq), if_neg hgt,
                  if_neg (by simp [hus]), if_neg (by simp [hzw]), ih true none]

open Sanitize in
theorem normalizeUnicodeSpacesInsideTags_idem (s : List Char) :
    normalizeUnicodeSpacesInsideTags (normalizeUnicodeSpacesInsideTags s)
      = normalizeUnicodeSpacesInsideTags s :=
  normSpacesGo_idem s false none

open Sanitize in
theorem normEnt_plain (policy : EntityPolicy) (tbl : List (String × Nat)) :
    ∀ (u z : List Char), (∀ c ∈ u, (c = '&') = false) →
    normalizeEntitiesAndAmpersands policy tbl (u ++ z) =
      Except.bind (normalizeEntitiesAndAmpersands policy tbl z)
        (fun y => .ok (u ++ y)) := by
  intro u
  induction u with
  | nil =>
    intro z hu
    simp only [List.nil_append]
    cases hz : normalizeEntitiesAndAmpersands policy tbl z with
    | error e => simp [Except.bind]
    | ok y => simp [Except.bind]
  | cons c u2 ih =>
    intro z hu
    have hcamp : ¬(c = '&') := by
      have := hu c (by simp)
      simp at this
      exact this
    have hL : normalizeEntitiesAndAmpersands policy tbl ((c :: u2) ++ z)
        = normEntLoop policy tbl ((u2 ++ z).length + 1 + 1) (c :: (u2 ++ z)) := by
      have hlen : ((c :: u2) ++ z).length + 1 = ((u2 ++ z).length + 1) + 1 := by simp
      show normEntLoop policy tbl (((c :: u2) ++ z).length + 1) ((c :: u2) ++ z)
        = normEntLoop policy tbl ((u2 ++ z).length + 1 + 1) (c :: (u2 ++ z))
      rw [hlen, List.cons_append]
    rw [hL, normEntLoop_succ, if_neg hcamp]
    have hf : normEntLoop policy tbl ((u2 ++ z).length + 1) (u2 ++ z)
        = normalizeEntitiesAndAmpersands policy tbl (u2 ++ z) := rfl
    simp only [Bind.bind, Except.bind]
    rw [hf, ih z (fun c hc => hu c (by simp [hc]))]
    cases hz : normalizeEntitiesAndAmpersands policy tbl z with
    | error e => simp only [Except.bind]
    | ok y => simp only [Except.bind, List.cons_append]

theorem toDigitsCore_digits : ∀ (fuel n : Nat) (ds : List Char),
    (∀ c ∈ ds, Sanitize.isAsciiDigit c = true) →
    ∀ c ∈ Nat.toDigitsCore 10 fuel n ds, Sanitize.isAsciiDigit c = true := by
  intro fuel
  induction fuel with
  | zero => intro n ds hds; exact hds
  | succ f ih =>
    intro n ds hds c hc
    have hd : Sanitize.isAsciiDigit (Nat.digitChar (n % 10)) = true := by
      have h10 : n % 10 < 10 := Nat.mod_lt _ (by norm_num)
      interval_cases h : n % 10 <;> simp [Nat.digitChar] <;> decide
    rw [Nat.toDigitsCore] at hc
    by_cases hz : n / 10 = 0
    · rw [if_pos hz] at hc
      rcases List.mem_cons.mp hc with h1 | h2
      · exact h1 ▸ hd
      · exact hds c h2
    · rw [if_neg hz] at hc
      refine ih (n / 10) (Nat.digitChar (n % 10) :: ds) ?hh c hc
      intro d hdm
      rcases List.mem_cons.mp hdm with h1 | h2
      · exact h1 ▸ hd
      · exact hds d h2

theorem toDigitsCore_len : ∀ (fuel n : Nat) (ds : List Char),
    ds.length ≤ (Nat.toDigitsCore 10 fuel n ds).length := by
  intro fuel
  induction fuel with
  | zero => intro n ds; simp [Nat.toDigitsCore]
  | succ f ih =>
    intro n ds
    rw [Nat.toDigitsCore]
    by_cases hz : n / 10 = 0
    · rw [if_pos hz]
      simp
    · rw [if_neg hz]
      have := ih (n / 10) (Nat.digitChar (n % 10) :: ds)
      simp only [List.length_cons] at this
      omega

theorem toString_nat_digits (n : Nat) :
    (toString n).data ≠ [] ∧
    ∀ c ∈ (toString n).data, Sanitize.isAsciiDigit c = true := by
  have hdig : ∀ c ∈ (toString n).data, Sanitize.isAsciiDigit c = true := by
    have : (toString n).data = Nat.toDigitsCore 10 (n + 1) n [] := rfl
    rw [this]
    exact toDigitsCore_digits (n + 1) n [] (by intro c hc; simp at hc)
  refine ⟨?hne, hdig⟩
  have : (toString n).data = Nat.toDigitsCore 10 (n + 1) n [] := rfl
  rw [this, Nat.toDigitsCore]
  by_cases hz : n / 10 = 0
  · rw [if_pos hz]
    simp
  · rw [if_neg hz]
    have := toDigitsCore_len n (n / 10) [Nat.digitChar (n % 10)]
    intro hnil
    rw [hnil] at this
    simp at this

theorem takeWhile_full_append (p : Char → Bool) (u b : List Char)
    (hu : ∀ c ∈ u, p c = true)
    (hb : ∀ hd, b.head? = some hd → p hd = false) :
    (u ++ b).takeWhile p = u := by
  induction u with
  | nil =>
    simp only [List.nil_append]
    have := takeWhile_append_head_false p [] b hb
    simpa using this
  | cons c u2 ih =>
    have hc : p c = true := hu c (by simp)
    simp only [List.cons_append, List.takeWhile_cons, hc, if_true]
    rw [ih (fun d hd => hu d (by simp [hd]))]

theorem take_takeWhile_len (p : Char → Bool) : ∀ (l : List Char),
    l.take (l.takeWhile p).length = l.takeWhile p := by
  intro l
  induction l with
  | nil => rfl
  | cons c rest ih =>
    by_cases hc : p c = true
    · simp [List.takeWhile_cons, hc, ih]
    · simp [List.takeWhile_cons, hc]

open Sanitize in
theorem entityNumericCore_step_true (a b : List Char) :
    entityNumericCore true a b =
      if (((b.takeWhile isHexDigit).length ≠ 0 &&
          ((b.drop (b.takeWhile isHexDigit).length).head? = some ';')) : Bool) then
        ('&' :: ('#' :: a).take (1 + 1 + (b.takeWhile isHexDigit).length + 1),
          1 + 1 + (b.takeWhile isHexDigit).length + 1)
      else ("&amp;".data, 0) := rfl

open Sanitize in
theorem entityNumericCore_step_false (a b : List Char) :
    entityNumericCore false a b =
      if (((b.takeWhile isAsciiDigit).length ≠ 0 &&
          ((b.drop (b.takeWhile isAsciiDigit).length).head? = some ';')) : Bool) then
        ('&' :: ('#' :: a).take (1 + (b.takeWhile isAsciiDigit).length + 1),
          1 + (b.takeWhile isAsciiDigit).length + 1)
      else ("&amp;".data, 0) := rfl

open Sanitize in
theorem digit_not_xX (c : Char) (h : isAsciiDigit c = true) :
    ((c = 'x' : Bool) || (c = 'X' : Bool)) = false := by
  have h1 : c ≠ 'x' := by
    intro e
    subst e
    simp [isAsciiDigit] at h
  have h2 : c ≠ 'X' := by
    intro e
    subst e
    simp [isAsciiDigit] at h
  simp [h1, h2]

open Sanitize in
theorem entityStep_amp_any (policy : EntityPolicy) (tbl : List (String × Nat))
    (z : List Char) :
    entityStep policy tbl ("amp;".data ++ z) = .ok ("&amp;".data, 4) := rfl

open Sanitize in
theorem entityStep_lt_any (policy : EntityPolicy) (tbl : List (String × Nat))
    (z : List Char) :
    entityStep policy tbl ("lt;".data ++ z) = .ok ("&lt;".data, 3) := rfl

open Sanitize in
theorem entityStep_gt_any (policy : EntityPolicy) (tbl : List (String × Nat))
    (z : List Char) :
    entityStep policy tbl ("gt;".data ++ z) = .ok ("&gt;".data, 3) := rfl

open Sanitize in
theorem entityStep_quot_any (policy : EntityPolicy) (tbl : List (String × Nat))
    (z : List Char) :
    entityStep policy tbl ("quot;".data ++ z) = .ok ("&quot;".data, 5) := rfl

open Sanitize in
theorem entityStep_apos_any (policy : EntityPolicy) (tbl : List (String × Nat))
    (z : List Char) :
    entityStep policy tbl ("apos;".data ++ z) = .ok ("&apos;".data, 5) := rfl

open Sanitize in
theorem entityNumeric_self_hex (x : Char)
    (hx : ((x = 'x' : Bool) || (x = 'X' : Bool)) = true)
    (digits : List Char) (hne : digits ≠ [])
    (hdig : ∀ c ∈ digits, isHexDigit c = true) (z : List Char) :
    entityNumeric (x :: (digits ++ ';' :: z))
      = ('&' :: '#' :: x :: (digits ++ [';']), 1 + 1 + digits.length + 1) := by
  have h1 : entityNumeric (x :: (digits ++ ';' :: z))
      = entityNumericCore true (x :: (digits ++ ';' :: z)) (digits ++ ';' :: z) := by
    simp [entityNumeric, hx]
  rw [h1, entityNumericCore_step_true]
  have htw : (digits ++ ';' :: z).takeWhile isHexDigit = digits :=
    takeWhile_full_append _ _ _ hdig (by
      intro hd hh
      simp only [List.head?_cons, Option.some.injEq] at hh
      subst hh
      decide)
  rw [htw]
  have hcond : ((digits.length ≠ 0 &&
      (((digits ++ ';' :: z).drop digits.length).head? = some ';')) : Bool)
      = true := by
    rw [List.drop_left]
    simp [hne]
  rw [if_pos hcond]
  have harith : 1 + 1 + digits.length = digits.length + 1 + 1 := by omega
  have htake : ('#' :: x :: (digits ++ ';' :: z)).take (1 + 1 + digits.length + 1)
      = '#' :: x :: (digits ++ [';']) := by
    rw [harith]
    simp only [List.take_succ_cons]
    rw [List.take_append]
    rfl
  rw [htake, harith]

open Sanitize in
theorem entityNumeric_self_dec (digits : List Char) (hne : digits ≠ [])
    (hdig : ∀ c ∈ digits, isAsciiDigit c = true) (z : List Char) :
    entityNumeric (digits ++ ';' :: z)
      = ('&' :: '#' :: (digits ++ [';']), 1 + digits.length + 1) := by
  obtain ⟨d0, drest, rfl⟩ : ∃ d0 drest, digits = d0 :: drest := by
    cases digits with
    | nil => exact absurd rfl hne
    | cons d0 drest => exact ⟨d0, drest, rfl⟩
  have hd0 : isAsciiDigit d0 = true := hdig d0 (by simp)
  have h1 : entityNumeric ((d0 :: drest) ++ ';' :: z)
      = entityNumericCore false ((d0 :: drest) ++ ';' :: z)
          ((d0 :: drest) ++ ';' :: z) := by
    simp [entityNumeric, digit_not_xX d0 hd0]
  rw [h1, entityNumericCore_step_false]
  have htw : ((d0 :: drest) ++ ';' :: z).takeWhile isAsciiDigit = d0 :: drest :=
    takeWhile_full_append _ _ _ hdig (by
      intro hd hh
      simp only [List.head?_cons, Option.some.injEq] at hh
      subst hh
      decide)
  rw [htw]
  have hcond : (((d0 :: drest).length ≠ 0 &&
      ((((d0 :: drest) ++ ';' :: z).drop (d0 :: drest).length).head? = some ';'))
      : Bool) = true := by
    rw [List.drop_left]
    simp
  rw [if_pos hcond]
  have harith : 1 + (d0 :: drest).length = (d0 :: drest).length + 1 := by omega
  have htake : ('#' :: ((d0 :: drest) ++ ';' :: z)).take
        (1 + (d0 :: drest).length + 1)
      = '#' :: ((d0 :: drest) ++ [';']) := by
    rw [harith]
    simp only [List.take_succ_cons]
    rw [List.take_append]
    rfl
  rw [htake, harith]

open Sanitize in
theorem entityStep_pound (policy : EntityPolicy) (tbl : List (String × Nat))
    (w : List Char) :
    entityStep policy tbl ('#' :: w) = .ok (entityNumeric w) := rfl

open Sanitize in
theorem emission_bare (policy : EntityPolicy) (tbl : List (String × Nat)) :
    ∃ em2, ("&amp;".data : List Char) = '&' :: em2 ∧
      ∀ z, entityStep policy tbl (em2 ++ z) = .ok ('&' :: em2, em2.length) :=
  ⟨"amp;".data, rfl, fun z => entityStep_amp_any policy tbl z⟩

open Sanitize in
theorem entityNumeric_emission (policy : EntityPolicy)
    (tbl : List (String × Nat)) (r2 : List Char) (em : List Char) (k : Nat)
    (h : entityNumeric r2 = (em, k)) :
    ∃ em2, em = '&' :: em2 ∧
      ∀ z, entityStep policy tbl (em2 ++ z) = .ok ('&' :: em2, em2.length) := by
  cases r2 with
  | nil =>
    have h0 : entityNumeric [] = ("&amp;".data, 0) := rfl
    rw [h0] at h
    injection h with h1 h2
    subst h1
    exact emission_bare policy tbl
  | cons c2 r2x =>
    by_cases hx : ((c2 = 'x' : Bool) || (c2 = 'X' : Bool)) = true
    · have h1 : entityNumeric (c2 :: r2x)
          = entityNumericCore true (c2 :: r2x) r2x := by
        simp [entityNumeric, hx]
      rw [h1, entityNumericCore_step_true] at h
      by_cases hcond : (((r2x.takeWhile isHexDigit).length ≠ 0 &&
          (((r2x.drop (r2x.takeWhile isHexDigit).length).head? = some ';')))
          : Bool) = true
      · rw [if_pos hcond] at h
        simp only [Bool.and_eq_true, decide_eq_true_eq, ne_eq] at hcond
        obtain ⟨hne, hsemi⟩ := hcond
        obtain ⟨w, hdrop⟩ : ∃ w,
            r2x.drop (r2x.takeWhile isHexDigit).length = ';' :: w := by
          cases hd : r2x.drop (r2x.takeWhile isHexDigit).length with
          | nil => rw [hd] at hsemi; simp at hsemi
          | cons hh ww =>
            rw [hd] at hsemi
            simp only [List.head?_cons, Option.some.injEq] at hsemi
            subst hsemi
            exact ⟨ww, rfl⟩
        have htake : ('#' :: c2 :: r2x).take
            (1 + 1 + (r2x.takeWhile isHexDigit).length + 1)
            = '#' :: c2 :: (r2x.takeWhile isHexDigit ++ [';']) := by
          rw [show 1 + 1 + (r2x.takeWhile isHexDigit).length + 1
              = (r2x.takeWhile isHexDigit).length + 1 + 1 + 1 by omega]
          simp only [List.take_succ_cons]
          rw [List.take_add, take_takeWhile_len, hdrop]
          rfl
        rw [htake] at h
        injection h with h1 h2
        subst h1
        refine ⟨'#' :: c2 :: (r2x.takeWhile isHexDigit ++ [';']), rfl, ?self⟩
        intro z
        have hass : (('#' :: c2 :: (r2x.takeWhile isHexDigit ++ [';'])) ++ z)
            = '#' :: c2 :: (r2x.takeWhile isHexDigit ++ ';' :: z) := by
          simp
        rw [hass, entityStep_pound,
          entityNumeric_self_hex c2 hx (r2x.takeWhile isHexDigit)
            (by intro hnil; rw [hnil] at hne; simp at hne)
            (fun c hc => List.mem_takeWhile_imp hc) z]
        have hlen : 1 + 1 + (r2x.takeWhile isHexDigit).length + 1
            = ('#' :: c2 :: (r2x.takeWhile isHexDigit ++ [';'])).length := by
          simp only [List.length_cons, List.length_append, List.length_nil]
          omega
        rw [hlen]
      · rw [if_neg hcond] at h
        injection h with h1 h2
        subst h1
        exact emission_bare policy tbl
    · have hxf : ((c2 = 'x' : Bool) || (c2 = 'X' : Bool)) = false := by
        simpa using hx
      have h1 : entityNumeric (c2 :: r2x)
          = entityNumericCore false (c2 :: r2x) (c2 :: r2x) := by
        simp [entityNumeric, hxf]
      rw [h1, entityNumericCore_step_false] at h
      by_cases hcond : ((((c2 :: r2x).takeWhile isAsciiDigit).length ≠ 0 &&
          ((((c2 :: r2x).drop ((c2 :: r2x).takeWhile isAsciiDigit).length).head?
            = some ';'))) : Bool) = true
      · rw [if_pos hcond] at h
        simp only [Bool.and_eq_true, decide_eq_true_eq, ne_eq] at hcond
        obtain ⟨hne, hsemi⟩ := hcond
        obtain ⟨w, hdrop⟩ : ∃ w,
            (c2 :: r2x).drop ((c2 :: r2x).takeWhile isAsciiDigit).length
              = ';' :: w := by
          cases hd : (c2 :: r2x).drop ((c2 :: r2x).takeWhile isAsciiDigit).length with
          | nil => rw [hd] at hsemi; simp at hsemi
          | cons hh ww =>
            rw [hd] at hsemi
            simp only [List.head?_cons, Option.some.injEq] at hsemi
            subst hsemi
            exact ⟨ww, rfl⟩
        have htake : ('#' :: c2 :: r2x).take
            (1 + ((c2 :: r2x).takeWhile isAsciiDigit).length + 1)
            = '#' :: ((c2 :: r2x).takeWhile isAsciiDigit ++ [';']) := by
          rw [show 1 + ((c2 :: r2x).takeWhile isAsciiDigit).length + 1
              = ((c2 :: r2x).takeWhile isAsciiDigit).length + 1 + 1 by omega]
          rw [List.take_succ_cons, List.take_add, take_takeWhile_len, hdrop]
          rfl
        rw [htake] at h
        injection h with h1 h2
        subst h1
        refine ⟨'#' :: ((c2 :: r2x).takeWhile isAsciiDigit ++ [';']), rfl, ?selfd⟩
        intro z
        have hass : (('#' :: ((c2 :: r2x).takeWhile isAsciiDigit ++ [';'])) ++ z)
            = '#' :: ((c2 :: r2x).takeWhile isAsciiDigit ++ ';' :: z) := by
          simp
        rw [hass, entityStep_pound,
          entityNumeric_self_dec ((c2 :: r2x).takeWhile isAsciiDigit)
            (by intro hnil; rw [hnil] at hne; simp at hne)
            (fun c hc => List.mem_takeWhile_imp hc) z]
        have hlen : 1 + ((c2 :: r2x).takeWhile isAsciiDigit).length + 1
            = ('#' :: ((c2 :: r2x).takeWhile isAsciiDigit ++ [';'])).length := by
          simp only [List.length_cons, List.length_append, List.length_nil]
          omega
        rw [hlen]
      · rw [if_neg hcond] at h
        injection h with h1 h2
        subst h1
        exact emission_bare policy tbl

open Sanitize in
theorem entityNamed_emission (policy : EntityPolicy)
    (tbl : List (String × Nat)) (c : Char) (r2 : List Char)
    (em : List Char) (k : Nat) (hc : isAsciiAlpha c = true)
    (hnc : ¬(((c :: r2.takeWhile isAlphaNumTs).map Char.toLower
        = "constructor".data) ∧
      (((c :: r2).drop ((r2.takeWhile isAlphaNumTs).length + 1)).head?
        = some ';')))
    (h : entityNamed policy tbl c r2 = .ok (em, k)) :
    ∃ em2 u, em = ('&' :: em2) ++ u ∧
      (∀ z, entityStep policy tbl (em2 ++ z) = .ok ('&' :: em2, em2.length)) ∧
      (∀ d ∈ u, (d = '&') = false) := by
  by_cases hsemi : (((c :: r2).drop ((r2.takeWhile isAlphaNumTs).length + 1)).head?
      = some ';')
  · simp only [entityNamed, List.length_cons, if_pos hsemi] at h
    split at h
    · rename_i hxml
      injection h with hp
      injection hp with h1 h2
      subst h1
      have hmem : ((⟨(c :: r2.takeWhile isAlphaNumTs).map Char.toLower⟩ : String)
          ∈ XML5) := by
        simpa using hxml
      simp only [XML5, List.mem_cons, List.not_mem_nil, or_false] at hmem
      rcases hmem with hl | hl | hl | hl | hl
      · have hld : List.map Char.toLower (c :: List.takeWhile isAlphaNumTs r2)
            = ("lt" : String).data := congrArg String.data hl
        rw [hld]
        exact ⟨"lt;".data, [], by decide,
          fun z => entityStep_lt_any policy tbl z, by simp⟩
      · have hld : List.map Char.toLower (c :: List.takeWhile isAlphaNumTs r2)
            = ("gt" : String).data := congrArg String.data hl
        rw [hld]
        exact ⟨"gt;".data, [], by decide,
          fun z => entityStep_gt_any policy tbl z, by simp⟩
      · have hld : List.map Char.toLower (c :: List.takeWhile isAlphaNumTs r2)
            = ("amp" : String).data := congrArg String.data hl
        rw [hld]
        exact ⟨"amp;".data, [], by decide,
          fun z => entityStep_amp_any policy tbl z, by simp⟩
      · have hld : List.map Char.toLower (c :: List.takeWhile isAlphaNumTs r2)
            = ("quot" : String).data := congrArg String.data hl
        rw [hld]
        exact ⟨"quot;".data, [], by decide,
          fun z => entityStep_quot_any policy tbl z, by simp⟩
      · have hld : List.map Char.toLower (c :: List.takeWhile isAlphaNumTs r2)
            = ("apos" : String).data := congrArg String.data hl
        rw [hld]
        exact ⟨"apos;".data, [], by decide,
          fun z => entityStep_apos_any policy tbl z, by simp⟩
    · split at h
      · rename_i code hlook
        injection h with hp
        injection hp with h1 h2
        subst h1
        obtain ⟨hne, hdig⟩ := toString_nat_digits code
        refine ⟨'#' :: ((toString code).data ++ [';']), [], by simp, ?self, by simp⟩
        intro z
        have hass : (('#' :: ((toString code).data ++ [';'])) ++ z)
            = '#' :: ((toString code).data ++ ';' :: z) := by
          simp
        rw [hass, entityStep_pound,
          entityNumeric_self_dec (toString code).data hne hdig z]
        have hlen : 1 + (toString code).data.length + 1
            = ('#' :: ((toString code).data ++ [';'])).length := by
          simp only [List.length_cons, List.length_append, List.length_nil]
          omega
        rw [hlen]
      · split at h
        · rename_i hctor
          exact absurd ⟨congrArg String.data hctor, hsemi⟩ hnc
        · split at h
          · exact Except.noConfusion h
          · injection h with hp
            injection hp with h1 h2
            subst h1
            refine ⟨"amp;".data, (c :: r2.takeWhile isAlphaNumTs) ++ [';'],
              by simp, fun z => entityStep_amp_any policy tbl z, ?plain⟩
            intro d hd
            rcases List.mem_append.mp hd with hdn | hds
            · rcases List.mem_cons.mp hdn with hdc | hdt
              · subst hdc
                have : d ≠ '&' := by
                  intro e
                  subst e
                  simp [isAsciiAlpha] at hc
                simp [this]
              · have hal : isAlphaNumTs d = true := List.mem_takeWhile_imp hdt
                have : d ≠ '&' := by
                  intro e
                  subst e
                  simp [isAlphaNumTs, isAsciiDigit, isAsciiAlpha] at hal
                simp [this]
            · have : d = ';' := by simpa using hds
              subst this
              decide
  · simp only [entityNamed, List.length_cons, if_neg hsemi] at h
    injection h with hp
    injection hp with h1 h2
    subst h1
    obtain ⟨em2, he, hself⟩ := emission_bare policy tbl
    refine ⟨em2, [], ?eq, hself, by simp⟩
    have he2 : (['&', 'a', 'm', 'p', ';'] : List Char) = '&' :: em2 := he
    rw [he2]
    simp

open Sanitize in
theorem hasCtorTok_cons (c : Char) (rest : List Char) :
    hasCtorTok (c :: rest) =
      if c = '&' then
        if ((rest.takeWhile isAlphaNumTs).map Char.toLower
              = "constructor".data : Bool)
            && ((rest.drop (rest.takeWhile isAlphaNumTs).length).head?
              = some ';' : Bool) then
          true
        else hasCtorTok rest
      else hasCtorTok rest := rfl

open Sanitize in
theorem hasCtorTok_cons_false (c : Char) (rest : List Char)
    (h : hasCtorTok (c :: rest) = false) : hasCtorTok rest = false := by
  rw [hasCtorTok_cons] at h
  by_cases hc : c = '&'
  · rw [if_pos hc] at h
    by_cases hcond : ((((rest.takeWhile isAlphaNumTs).map Char.toLower
          = "constructor".data) : Bool)
        && (((rest.drop (rest.takeWhile isAlphaNumTs).length).head?
          = some ';') : Bool)) = true
    · rw [if_pos hcond] at h
      exact Bool.noConfusion h
    · rw [if_neg hcond] at h
      exact h
  · rw [if_neg hc] at h
    exact h

open Sanitize in
theorem hasCtorTok_drop_false : ∀ (s : List Char) (k : Nat),
    hasCtorTok s = false → hasCtorTok (s.drop k) = false := by
  intro s
  induction s with
  | nil => intro k h; simp [List.drop_nil]; rfl
  | cons c rest ih =>
    intro k h
    cases k with
    | zero => exact h
    | succ k2 =>
      rw [List.drop_succ_cons]
      exact ih k2 (hasCtorTok_cons_false c rest h)

open Sanitize in
theorem entityStep_emission (policy : EntityPolicy)
    (tbl : List (String × Nat)) (rest : List Char) (em : List Char) (k : Nat)
    (hnc : hasCtorTok ('&' :: rest) = false)
    (h : entityStep policy tbl rest = .ok (em, k)) :
    ∃ em2 u, em = ('&' :: em2) ++ u ∧
      (∀ z, entityStep policy tbl (em2 ++ z) = .ok ('&' :: em2, em2.length)) ∧
      (∀ d ∈ u, (d = '&') = false) := by
  cases rest with
  | nil =>
    have h0 : entityStep policy tbl [] = .ok ("&amp;".data, 0) := rfl
    rw [h0] at h
    injection h with hp
    injection hp with h1 h2
    subst h1
    obtain ⟨em2, he, hself⟩ := emission_bare policy tbl
    refine ⟨em2, [], ?eq, hself, by simp⟩
    rw [List.append_nil]
    exact he
  | cons c r2 =>
    simp only [entityStep] at h
    split at h
    · injection h with hp
      obtain ⟨em2, he, hself⟩ :=
        entityNumeric_emission policy tbl r2 em k
          (by rw [hp])
      exact ⟨em2, [], by simp [he], hself, by simp⟩
    · split at h
      · rename_i halpha
        have halnum : isAlphaNumTs c = true := by
          simp [isAlphaNumTs, halpha]
        have htw : (c :: r2).takeWhile isAlphaNumTs
            = c :: r2.takeWhile isAlphaNumTs := by
          simp [List.takeWhile_cons, halnum]
        refine entityNamed_emission policy tbl c r2 em k halpha ?hncd h
        intro hfull
        obtain ⟨ha, hb⟩ := hfull
        have htrue : hasCtorTok ('&' :: c :: r2) = true := by
          rw [hasCtorTok_cons, if_pos rfl]
          have hcond : (((((c :: r2).takeWhile isAlphaNumTs).map Char.toLower
                = "constructor".data) : Bool)
              && ((((c :: r2).drop
                  ((c :: r2).takeWhile isAlphaNumTs).length).head?
                = some ';') : Bool)) = true := by
            rw [htw]
            simp only [List.length_cons]
            simp [ha]
            simpa using hb
          rw [if_pos hcond]
        rw [htrue] at hnc
        exact Bool.noConfusion hnc
      · injection h with hp
        injection hp with h1 h2
        subst h1
        obtain ⟨em2, he, hself⟩ := emission_bare policy tbl
        refine ⟨em2, [], ?eq2, hself, by simp⟩
        rw [List.append_nil]
        exact he

open Sanitize in
theorem normEnt_selfext (policy : EntityPolicy) (tbl : List (String × Nat))
    (em2 u t : List Char)
    (hself : ∀ z, entityStep policy tbl (em2 ++ z) = .ok ('&' :: em2, em2.length))
    (hu : ∀ d ∈ u, (d = '&') = false)
    (ht : normalizeEntitiesAndAmpersands policy tbl t = .ok t) :
    normalizeEntitiesAndAmpersands policy tbl ((('&' :: em2) ++ u) ++ t)
      = .ok ((('&' :: em2) ++ u) ++ t) := by
  have hre : ((('&' :: em2) ++ u) ++ t) = '&' :: (em2 ++ (u ++ t)) := by simp
  rw [hre]
  have hL : normalizeEntitiesAndAmpersands policy tbl ('&' :: (em2 ++ (u ++ t)))
      = normEntLoop policy tbl ((em2 ++ (u ++ t)).length + 1 + 1)
          ('&' :: (em2 ++ (u ++ t))) := by
    have hlen : ('&' :: (em2 ++ (u ++ t))).length + 1
        = ((em2 ++ (u ++ t)).length + 1) + 1 := by simp
    show normEntLoop policy tbl (('&' :: (em2 ++ (u ++ t))).length + 1)
        ('&' :: (em2 ++ (u ++ t)))
      = normEntLoop policy tbl ((em2 ++ (u ++ t)).length + 1 + 1)
          ('&' :: (em2 ++ (u ++ t)))
    rw [hlen]
  rw [hL, normEntLoop_succ, if_pos rfl]
  rw [hself (u ++ t)]
  simp only [Bind.bind, Except.bind]
  rw [List.drop_left]
  have hf : normEntLoop policy tbl ((em2 ++ (u ++ t)).length + 1) (u ++ t)
      = normalizeEntitiesAndAmpersands policy tbl (u ++ t) := by
    show _ = normEntLoop policy tbl ((u ++ t).length + 1) (u ++ t)
    exact normEntLoop_fuel policy tbl ((em2 ++ (u ++ t)).length + 1) (u ++ t)
      ((u ++ t).length + 1)
      (by simp only [List.length_append]; omega) (by omega)
  rw [hf, normEnt_plain policy tbl u t hu, ht]
  simp only [Except.bind]
  simp

open Sanitize in
theorem normEnt_idem_aux (policy : EntityPolicy) (tbl : List (String × Nat)) :
    ∀ (n : Nat) (s y : List Char), s.length ≤ n →
    hasCtorTok s = false →
    normalizeEntitiesAndAmpersands policy tbl s = .ok y →
    normalizeEntitiesAndAmpersands policy tbl y = .ok y := by
  intro n
  induction n with
  | zero =>
    intro s y hl hnc h
    have hs : s = [] := List.length_eq_zero.mp (Nat.le_zero.mp hl)
    subst hs
    have h0 : normalizeEntitiesAndAmpersands policy tbl [] = .ok [] := rfl
    rw [h0] at h
    injection h with hy
    subst hy
    exact h0
  | succ n ih =>
    intro s y hl hnc h
    cases s with
    | nil =>
      have h0 : normalizeEntitiesAndAmpersands policy tbl [] = .ok [] := rfl
      rw [h0] at h
      injection h with hy
      subst hy
      exact h0
    | cons c rest =>
      simp only [List.length_cons] at hl
      have hL : normalizeEntitiesAndAmpersands policy tbl (c :: rest)
          = normEntLoop policy tbl (rest.length + 1 + 1) (c :: rest) := rfl
      rw [hL, normEntLoop_succ] at h
      by_cases hc : c = '&'
      · rw [if_pos hc] at h
        subst hc
        cases hs : entityStep policy tbl rest with
        | error e =>
          rw [hs] at h
          simp only [Bind.bind, Except.bind] at h
          exact Except.noConfusion h
        | ok p =>
          obtain ⟨em, k⟩ := p
          rw [hs] at h
          simp only [Bind.bind, Except.bind] at h
          cases ht : normEntLoop policy tbl (rest.length + 1) (rest.drop k) with
          | error e =>
            rw [ht] at h
            simp only [Except.bind] at h
            exact Except.noConfusion h
          | ok t =>
            rw [ht] at h
            simp only [Except.bind] at h
            injection h with hy
            subst hy
            have htn : normalizeEntitiesAndAmpersands policy tbl (rest.drop k)
                = .ok t := by
              rw [← ht]
              show normEntLoop policy tbl ((rest.drop k).length + 1) (rest.drop k)
                  = _
              exact normEntLoop_fuel policy tbl ((rest.drop k).length + 1)
                (rest.drop k) (rest.length + 1)
                (by omega) (by rw [List.length_drop]; omega)
            have hncr : hasCtorTok rest = false :=
              hasCtorTok_cons_false '&' rest hnc
            have htt : normalizeEntitiesAndAmpersands policy tbl t = .ok t :=
              ih (rest.drop k) t (by rw [List.length_drop]; omega)
                (hasCtorTok_drop_false rest k hncr) htn
            obtain ⟨em2, u, hem, hself, hu⟩ :=
              entityStep_emission policy tbl rest em k hnc hs
            subst hem
            have := normEnt_selfext policy tbl em2 u t hself hu htt
            simpa [List.append_assoc] using this
      · rw [if_neg hc] at h
        simp only [Bind.bind, Except.bind] at h
        cases ht : normEntLoop policy tbl (rest.length + 1) rest with
        | error e =>
          rw [ht] at h
          simp only [] at h
          exact Except.noConfusion h
        | ok t =>
          rw [ht] at h
          simp only [] at h
          injection h with hy
          subst hy
          have htt : normalizeEntitiesAndAmpersands policy tbl t = .ok t :=
            ih rest t (by omega) (hasCtorTok_cons_false c rest hnc) ht
          have hL2 : normalizeEntitiesAndAmpersands policy tbl (c :: t)
              = normEntLoop policy tbl (t.length + 1 + 1) (c :: t) := rfl
          rw [hL2, normEntLoop_succ, if_neg hc]
          simp only [Bind.bind, Except.bind]
          have hf : normEntLoop policy tbl (t.length + 1) t
              = normalizeEntitiesAndAmpersands policy tbl t := rfl
          rw [hf, htt]

open Sanitize in
theorem normEnt_idem (policy : EntityPolicy) (tbl : List (String × Nat))
    (s y : List Char) (hnc : hasCtorTok s = false)
    (h : normalizeEntitiesAndAmpersands policy tbl s = .ok y) :
    normalizeEntitiesAndAmpersands policy tbl y = .ok y :=
  normEnt_idem_aux policy tbl s.length s y (Nat.le_refl _) hnc h

open Sanitize in
theorem preSanitize_fixed (x y : List Char)
    (h1 : stripCodeFences x = x)
    (h2 : stripPrologF x = x)
    (h3 : repairInvalidComments (x.length + 1) x = x)
    (h4 : scrubInvalidXmlCharsInText x = x)
    (h5 : maskProtectedSegments x = (x, []))
    (h6 : normalizeEntitiesAndAmpersands .convert BUILTIN_ENTITIES
      (normalizeUnicodeSpacesInsideTags x) = .ok y)
    (h7 : applyContainerPoliciesStream
      ({} : XmlSanitizeOptions).toStreamOpts y = y)
    (h8 : restoreHoles [] (y.length + 1) y = y) :
    preSanitize {} x = .ok y := by
  have hpre : preEntityText {} x = normalizeUnicodeSpacesInsideTags x := by
    simp only [preEntityText,
      show ({} : XmlSanitizeOptions).stripProlog = true from rfl,
      show ({} : XmlSanitizeOptions).fixInvalidComments = true from rfl,
      show ({} : XmlSanitizeOptions).scrubInvalidXmlChars = true from rfl,
      show ({} : XmlSanitizeOptions).normalizeUnicodeSpacesInTags = true from rfl,
      if_true]
    rw [h1, h2, h3, h4, h5]
  have hnorm : normalizeEntitiesAndAmpersands
      ({} : XmlSanitizeOptions).entityPolicy
      (({} : XmlSanitizeOptions).namedEntities ++ BUILTIN_ENTITIES)
      (preEntityText {} x) = .ok y := by
    rw [hpre]
    exact h6
  rw [preSanitize_stages, hnorm]
  show Except.ok (postEntityText {} x y) = .ok y
  have hpost : postEntityText {} x y = y := by
    simp only [postEntityText,
      show ({} : XmlSanitizeOptions).stripProlog = true from rfl,
      show ({} : XmlSanitizeOptions).fixInvalidComments = true from rfl,
      show ({} : XmlSanitizeOptions).scrubInvalidXmlChars = true from rfl,
      if_true]
    rw [h1, h2, h3, h4, h5, h7]
    exact h8
  rw [hpost]

/-- C8 counterexample: `<?xml version="1.0"?><a/>` is well-formed XML
with no configured-container markup, both the whitespace-inside-tags and
the entity normalization leave it unchanged, yet `preSanitize` with
default options returns `<a/>` — the XML prolog is stripped, an output
change outside the claim's two sanctioned normalizations, so the
"byte-identical except for those two normalizations" property fails. -/
theorem C8_sanitizer_noop_counterexample :
    Sanitize.preSanitize {} "<?xml version=\"1.0\"?><a/>".data
      = .ok "<a/>".data ∧
    Sanitize.normalizeUnicodeSpacesInsideTags
      "<?xml version=\"1.0\"?><a/>".data
      = "<?xml version=\"1.0\"?><a/>".data ∧
    Sanitize.normalizeEntitiesAndAmpersands .convert Sanitize.BUILTIN_ENTITIES
      "<?xml version=\"1.0\"?><a/>".data
      = .ok "<?xml version=\"1.0\"?><a/>".data ∧
    "<a/>".data ≠ "<?xml version=\"1.0\"?><a/>".data := by
  refine ⟨by decide, by decide, by decide, by decide⟩

/-- C8 (amended): on inputs that are fixed points of the repair stages
(code-fence stripping, prolog stripping, comment repair, invalid-char
scrubbing, protected-segment masking with no holes, container policies
and hole restoration), `preSanitize` with default options is exactly the
whitespace-inside-tags normalization followed by the entity
normalization; the whitespace normalization is idempotent in general;
the entity normalization is idempotent on inputs free of a
`&constructor;` token (on such a token the JavaScript table lookup hits
`Object.prototype.constructor` and emits a non-re-scannable stringified
function, breaking idempotence); and on that class, with the
whitespace-normalized text free of such tokens, sanitizing twice equals
sanitizing once. -/
theorem C8_sanitizer_idempotence :
    (∀ (x y : List Char),
      Sanitize.stripCodeFences x = x →
      Sanitize.stripPrologF x = x →
      Sanitize.repairInvalidComments (x.length + 1) x = x →
      Sanitize.scrubInvalidXmlCharsInText x = x →
      Sanitize.maskProtectedSegments x = (x, []) →
      Sanitize.normalizeEntitiesAndAmpersands .convert Sanitize.BUILTIN_ENTITIES
        (Sanitize.normalizeUnicodeSpacesInsideTags x) = .ok y →
      Sanitize.applyContainerPoliciesStream
        ({} : Sanitize.XmlSanitizeOptions).toStreamOpts y = y →
      Sanitize.restoreHoles [] (y.length + 1) y = y →
      Sanitize.preSanitize {} x = .ok y) ∧
    (∀ s : List Char, Sanitize.normalizeUnicodeSpacesInsideTags
        (Sanitize.normalizeUnicodeSpacesInsideTags s)
      = Sanitize.normalizeUnicodeSpacesInsideTags s) ∧
    (∀ (policy : Sanitize.EntityPolicy) (tbl : List (String × Nat))
      (s y : List Char),
      Sanitize.hasCtorTok s = false →
      Sanitize.normalizeEntitiesAndAmpersands policy tbl s = .ok y →
      Sanitize.normalizeEntitiesAndAmpersands policy tbl y = .ok y) ∧
    (∀ (x y : List Char),
      Sanitize.stripCodeFences x = x →
      Sanitize.stripPrologF x = x →
      Sanitize.repairInvalidComments (x.length + 1) x = x →
      Sanitize.scrubInvalidXmlCharsInText x = x →
      Sanitize.maskProtectedSegments x = (x, []) →
      Sanitize.hasCtorTok (Sanitize.normalizeUnicodeSpacesInsideTags x) = false →
      Sanitize.normalizeEntitiesAndAmpersands .convert Sanitize.BUILTIN_ENTITIES
        (Sanitize.normalizeUnicodeSpacesInsideTags x) = .ok y →
      Sanitize.applyContainerPoliciesStream
        ({} : Sanitize.XmlSanitizeOptions).toStreamOpts y = y →
      Sanitize.restoreHoles [] (y.length + 1) y = y →
      Sanitize.stripCodeFences y = y →
      Sanitize.stripPrologF y = y →
      Sanitize.repairInvalidComments (y.length + 1) y = y →
      Sanitize.scrubInvalidXmlCharsInText y = y →
      Sanitize.maskProtectedSegments y = (y, []) →
      Sanitize.normalizeUnicodeSpacesInsideTags y = y →
      Sanitize.preSanitize {} x = .ok y ∧ Sanitize.preSanitize {} y = .ok y) := by
  refine ⟨preSanitize_fixed, normalizeUnicodeSpacesInsideTags_idem, normEnt_idem, ?full⟩
  intro x y h1 h2 h3 h4 h5 hctor h6 h7 h8 g1 g2 g3 g4 g5 g6
  have hx : Sanitize.preSanitize {} x = .ok y :=
    preSanitize_fixed x y h1 h2 h3 h4 h5 h6 h7 h8
  have hyy : Sanitize.normalizeEntitiesAndAmpersands .convert
      Sanitize.BUILTIN_ENTITIES y = .ok y :=
    normEnt_idem _ _ _ y hctor h6
  have hy : Sanitize.preSanitize {} y = .ok y := by
    refine preSanitize_fixed y y g1 g2 g3 g4 g5 ?hn h7 h8
    rw [g6]
    exact hyy
  exact ⟨hx, hy⟩

/-- C8 witness: the amended theorem applied at `<a>&nbsp;</a>`, whose
sanitized form is `<a>&#160;</a>`; all fixed-point hypotheses hold by
computation and sanitizing twice equals sanitizing once. -/
theorem C8_sanitizer_idempotence_witness :
    Sanitize.preSanitize {} "<a>&nbsp;</a>".data = .ok "<a>&#160;</a>".data ∧
    Sanitize.preSanitize {} "<a>&#160;</a>".data = .ok "<a>&#160;</a>".data :=
  C8_sanitizer_idempotence.2.2.2 "<a>&nbsp;</a>".data "<a>&#160;</a>".data
    (by decide) (by decide) (by decide) (by decide) (by decide) (by decide)
    (by decide) (by decide) (by decide) (by decide) (by decide) (by decide)
    (by decide) (by decide) (by decide)

/- The prototype-chain hit of the JavaScript entity lookup: a
`&constructor;` token is treated as known (no raise even under the
`error` policy) and rewritten through the stringified Object
constructor; normalizing that output again changes it, so entity
normalization is not idempotent across such tokens — the reason the
idempotence clauses of C8 carry a `hasCtorTok`-free hypothesis. -/
open Sanitize in
theorem entityStep_constructor_proto :
    entityStep .convert BUILTIN_ENTITIES "constructor;".data
      = .ok (("&#" ++ OBJ_CONSTRUCTOR_STR ++ ";").data, 12) ∧
    (entityStep .error BUILTIN_ENTITIES "constructor;".data).isOk = true ∧
    normalizeEntitiesAndAmpersands .convert BUILTIN_ENTITIES
      "&constructor;".data = .ok ("&#" ++ OBJ_CONSTRUCTOR_STR ++ ";").data ∧
    normalizeEntitiesAndAmpersands .convert BUILTIN_ENTITIES
      ("&#" ++ OBJ_CONSTRUCTOR_STR ++ ";").data
      = .ok ("&amp;#" ++ OBJ_CONSTRUCTOR_STR ++ ";").data ∧
    ("&amp;#" ++ OBJ_CONSTRUCTOR_STR ++ ";").data
      ≠ ("&#" ++ OBJ_CONSTRUCTOR_STR ++ ";").data ∧
    hasCtorTok "&constructor;".data = true := by
  refine ⟨by decide, by decide, by decide, by decide, by decide, by decide⟩
